import Mathlib

/-!
# Budgeting-App backend: data store, transaction query engine, record mutators

A shallow embedding of `backend/main.go`.

* A Go `string` is an immutable byte sequence: `Str` is a list of byte values.
* The handlers registered in `main` are modelled as functions on an explicit
  `DataStore` value; every handler returns the store it leaves behind together
  with its HTTP outcome.
* A run-time panic of a handler (slice bounds out of range) is `none`.
* Values that come from outside the program (the clock, the Unicode case tables
  behind `strings.ToLower`) are parameters.
-/

set_option exponentiation.threshold 4000

namespace BudgetApp

/-! ## Strings -/

/-- A Go string: its bytes, in order. -/
abbrev Str := List Nat

/-- The bytes of an ASCII literal. -/
def lit (s : String) : Str := s.data.map Char.toNat

/-- Go `a < b` on strings: bytewise lexicographic order. -/
def strLt : Str → Str → Bool
  | [], [] => false
  | [], _ :: _ => true
  | _ :: _, [] => false
  | a :: as, b :: bs => if a < b then true else if b < a then false else strLt as bs

/-- Go `s[:n]`: the first `n` bytes; panics (`none`) when `n > len(s)`. -/
def sliceTo (s : Str) (n : Nat) : Option Str :=
  if n ≤ s.length then some (s.take n) else none

/-- Whether `p` is an initial segment of `s` (Go `strings.HasPrefix(s, p)`). -/
def startsWith : Str → Str → Bool
  | _, [] => true
  | [], _ :: _ => false
  | a :: as, b :: bs => a == b && startsWith as bs

/-- Go `strings.Contains(s, sub)`: `sub` occurs in `s` as a contiguous run of bytes. -/
def Contains : Str → Str → Bool
  | [], sub => startsWith [] sub
  | a :: as, sub => startsWith (a :: as) sub || Contains as sub

/-- ASCII branch of `strings.ToLower`: bytes `'A'..'Z'` are shifted by `'a' - 'A'`. -/
def asciiLower (s : Str) : Str :=
  s.map (fun c => if 65 ≤ c ∧ c ≤ 90 then c + 32 else c)

/-- Go `strings.ToLower`. A string whose bytes are all below `utf8.RuneSelf` (128) is
lower-cased bytewise; any other string is handed to `strings.Map(unicode.ToLower, s)`,
whose Unicode tables are not part of the program: `unicodeLower` stands for it. -/
def ToLower (unicodeLower : Str → Str) (s : Str) : Str :=
  if s.all (fun c => decide (c < 128)) then asciiLower s else unicodeLower s

/-! ## Records -/

/-- Go field `Type` is written `Type_` (a reserved word here). -/
structure Account where
  ID : Str
  InstitutionID : Str
  Name : Str
  Type_ : Str
  Mask : Str
  Balance : Str
  Institution : Str
  deriving DecidableEq, Repr

/-- A pointer field (`*string`) is `Option Str`: `none` is the nil pointer. -/
structure Transaction where
  ID : Str
  AccountID : Str
  Date : Str
  Amount : Str
  Merchant : Option Str
  Category : Option Str
  IsIncome : Bool
  Status : Option Str
  deriving DecidableEq, Repr

structure Budget where
  ID : Str
  HouseholdID : Str
  Month : Str
  Category : Str
  LimitAmount : Str
  deriving DecidableEq, Repr

structure Goal where
  ID : Str
  HouseholdID : Str
  Name : Str
  TargetAmount : Str
  CurrentAmount : Str
  TargetDate : Str
  deriving DecidableEq, Repr

structure Partner where
  ID : Str
  Email : Str
  HouseholdID : Str
  Status : Str
  InvitedBy : Str
  InvitedAt : Str
  AcceptedAt : Str
  deriving DecidableEq, Repr

/-! ## float64

`strconv.ParseFloat`, `+=` on `float64` and `fmt.Sprintf("%.2f", _)` are IEEE-754 binary64
operations with round-to-nearest, ties-to-even. Every finite binary64 value is an integral
multiple of `2^-1074`; a finite value is stored as its sign and its magnitude counted in
that unit. -/

/-- A binary64 value: finite (sign, magnitude in units of `2^-1074`), infinite, or NaN. -/
inductive F64 where
  | fin (neg : Bool) (mag : Nat)
  | inf (neg : Bool)
  | nan
  deriving DecidableEq, Repr

/-- The number of binary digits of `n` (`0` for `0`); `fuel` bounds the recursion. -/
def bitLenAux : Nat → Nat → Nat
  | 0, _ => 0
  | fuel + 1, n => if n = 0 then 0 else bitLenAux fuel (n / 2) + 1

/-- The number of binary digits of `n`. -/
def bitLen (n : Nat) : Nat := bitLenAux n n

/-- The integer nearest to `a / b`, a tie going to the even neighbour. -/
def roundNE (a b : Nat) : Nat :=
  let q := a / b
  let r := a % b
  if 2 * r < b then q else if b < 2 * r then q + 1 else if q % 2 = 0 then q else q + 1

/-- Round the magnitude `num / den` (in units of `2^-1074`) to 53 significant bits:
magnitudes below `2^53` units are spaced one unit apart, a magnitude with `53 + k`
binary digits is rounded to a multiple of `2^k`. -/
def roundMag (num den : Nat) : Nat :=
  let k := bitLen (num / den) - 53
  roundNE num (den * 2 ^ k) * 2 ^ k

/-- The least magnitude (in units of `2^-1074`) that no longer rounds to a finite
binary64 value: `2^1024`. -/
def overflowMag : Nat := 2 ^ 2098

/-- The binary64 value nearest to `± num / den` units, with overflow to infinity. -/
def F64.ofRatio (neg : Bool) (num den : Nat) : F64 :=
  let m := roundMag num den
  if m < overflowMag then F64.fin neg m else F64.inf neg

/-- The value `+0`. -/
def F64.zero : F64 := F64.fin false 0

/-- Go conversion `float64(n)` of an `int`. -/
def F64.ofInt (n : Int) : F64 :=
  F64.ofRatio (decide (n < 0)) (n.natAbs * 2 ^ 1074) 1

/-- Go `x + y` on `float64`. -/
def F64.add : F64 → F64 → F64
  | F64.nan, _ => F64.nan
  | _, F64.nan => F64.nan
  | F64.inf a, F64.inf b => if a = b then F64.inf a else F64.nan
  | F64.inf a, F64.fin _ _ => F64.inf a
  | F64.fin _ _, F64.inf b => F64.inf b
  | F64.fin s1 m1, F64.fin s2 m2 =>
    if s1 = s2 then F64.ofRatio s1 (m1 + m2) 1
    else if m1 = m2 then F64.zero
    else if m2 < m1 then F64.ofRatio s1 (m1 - m2) 1
    else F64.ofRatio s2 (m2 - m1) 1

/-- The decimal digits of `n`, most significant first, as ASCII bytes; `fuel` bounds the
recursion. -/
def natToDecAux : Nat → Nat → Str → Str
  | 0, _, acc => acc
  | fuel + 1, n, acc =>
    if n < 10 then (48 + n) :: acc else natToDecAux fuel (n / 10) ((48 + n % 10) :: acc)

/-- Go `%d` of a non-negative integer. -/
def natToDec (n : Nat) : Str := natToDecAux (n + 1) n []

/-- Go `%d` of an `int`. -/
def intToDec (n : Int) : Str :=
  if n < 0 then 45 :: natToDec n.natAbs else natToDec n.natAbs

/-- Go `fmt.Sprintf("%.2f", x)`: the value rounded to the nearest hundredth (ties to
even on the exact binary value), written with two fractional digits. -/
def fmt2f : F64 → Str
  | F64.nan => lit "NaN"
  | F64.inf false => lit "+Inf"
  | F64.inf true => lit "-Inf"
  | F64.fin neg m =>
    let cents := roundNE (m * 100) (2 ^ 1074)
    (if neg then [45] else []) ++ natToDec (cents / 100) ++
      [46, 48 + cents % 100 / 10, 48 + cents % 10]

/-! ## strconv.ParseFloat

The scanner `readFloat`, the recogniser `special` of `Inf`/`NaN`, and the check
`underscoreOK` are followed byte by byte. The conversion of the scanned literal
(`atof64`, `atofHex`) returns the binary64 value nearest to the literal's exact value;
it is modelled by `F64.ofRatio` on that exact value, so the scanner keeps all mantissa
digits instead of the first 19 and a truncation flag. -/

/-- Go `lower(c)` of package strconv: `c | ('x' - 'X')`, written arithmetically. -/
def lowerByte (c : Nat) : Nat := if c / 32 % 2 = 0 then c + 32 else c

/-- Whether `c` is an ASCII decimal digit. -/
def isDigit (c : Nat) : Bool := decide (48 ≤ c ∧ c ≤ 57)

/-- Whether `c` is one of the hexadecimal letters `a..f`, `A..F`. -/
def isHexLetter (c : Nat) : Bool := decide (97 ≤ lowerByte c ∧ lowerByte c ≤ 102)

/-- Go `commonPrefixLenIgnoreCase(s, pat)`: `pat` is lower case. -/
def commonPrefixLenIgnoreCase : Str → Str → Nat
  | c :: s, p :: pat =>
    if (if 65 ≤ c ∧ c ≤ 90 then c + 32 else c) = p
    then commonPrefixLenIgnoreCase s pat + 1 else 0
  | _, _ => 0

/-- The `case 'i', 'I'` body of `special`: `s` follows the optional sign. -/
def specialInf (neg : Bool) (nsign : Nat) (s : Str) : Option (F64 × Nat) :=
  let n := commonPrefixLenIgnoreCase s (lit "infinity")
  let n := if 3 < n ∧ n < 8 then 3 else n
  if n = 3 ∨ n = 8 then some (F64.inf neg, nsign + n) else none

/-- Go `special(s)`: the value and the number of bytes consumed. -/
def special : Str → Option (F64 × Nat)
  | [] => none
  | c :: rest =>
    if c = 43 then specialInf false 1 rest
    else if c = 45 then specialInf true 1 rest
    else if c = 105 ∨ c = 73 then specialInf false 0 (c :: rest)
    else if c = 110 ∨ c = 78 then
      if commonPrefixLenIgnoreCase (c :: rest) (lit "nan") = 3 then some (F64.nan, 3) else none
    else none

/-- The loop of `underscoreOK`; `saw` is `0` for `'^'`, `1` for `'0'`, `2` for `'_'`,
`3` for `'!'`. -/
def underscoreLoop (hex : Bool) : Nat → Str → Bool
  | saw, [] => saw != 2
  | saw, c :: s =>
    if isDigit c || (hex && isHexLetter c) then underscoreLoop hex 1 s
    else if c = 95 then (if saw != 1 then false else underscoreLoop hex 2 s)
    else if saw = 2 then false
    else underscoreLoop hex 3 s

/-- Go `underscoreOK(s)`. -/
def underscoreOK (s : Str) : Bool :=
  let s := match s with
    | c :: r => if c = 45 ∨ c = 43 then r else c :: r
    | [] => []
  match s with
  | c0 :: c1 :: r =>
    if c0 = 48 ∧ (lowerByte c1 = 98 ∨ lowerByte c1 = 111 ∨ lowerByte c1 = 120)
    then underscoreLoop (lowerByte c1 = 120) 1 r
    else underscoreLoop false 0 (c0 :: c1 :: r)
  | s => underscoreLoop false 0 s

/-- The scanner state of the mantissa loop of `readFloat`. -/
structure MantState where
  sawdot : Bool := false
  sawdigits : Bool := false
  underscores : Bool := false
  nd : Nat := 0
  dp : Int := 0
  mantissa : Nat := 0
  deriving DecidableEq, Repr

/-- The mantissa loop of `readFloat` (label `loop`): the state at the first byte that
does not belong to the mantissa, and the bytes from there on. -/
def mantLoop (hex : Bool) : MantState → Str → MantState × Str
  | st, [] => (st, [])
  | st, c :: s =>
    if c = 95 then mantLoop hex { st with underscores := true } s
    else if c = 46 then
      if st.sawdot then (st, c :: s)
      else mantLoop hex { st with sawdot := true, dp := st.nd } s
    else if isDigit c then
      if c = 48 ∧ st.nd = 0 then
        mantLoop hex { st with sawdigits := true, dp := st.dp - 1 } s
      else
        mantLoop hex { st with sawdigits := true, nd := st.nd + 1,
                               mantissa := st.mantissa * (if hex then 16 else 10) + (c - 48) } s
    else if hex && isHexLetter c then
      mantLoop hex { st with sawdigits := true, nd := st.nd + 1,
                             mantissa := st.mantissa * 16 + (lowerByte c - 97 + 10) } s
    else (st, c :: s)

/-- The exponent digit loop of `readFloat`: the accumulated exponent (it stops growing
once it has reached 10000), whether an underscore was seen, and the remaining bytes. -/
def expLoop : Nat → Bool → Str → Nat × Bool × Str
  | e, u, [] => (e, u, [])
  | e, u, c :: s =>
    if c = 95 then expLoop e true s
    else if isDigit c then expLoop (if e < 10000 then e * 10 + (c - 48) else e) u s
    else (e, u, c :: s)

/-- The literal scanned by `readFloat`: its value is `± mantissa * 2 ^ exp` for a
hexadecimal literal and `± mantissa * 10 ^ exp` for a decimal one; `rest` are the bytes
not consumed. -/
structure Scanned where
  neg : Bool
  hex : Bool
  mantissa : Nat
  exp : Int
  rest : Str
  deriving DecidableEq, Repr

/-- Go `readFloat(s)`; `none` is `ok = false`. The exponent `exp` is the power of ten
(decimal) or of two (hexadecimal) by which the whole mantissa is scaled. -/
def readFloat (s : Str) : Option Scanned :=
  match s with
  | [] => none
  | c :: r =>
    let neg := decide (c = 45)
    let s1 := if c = 43 ∨ c = 45 then r else c :: r
    let hex := match s1 with
      | c0 :: c1 :: _ :: _ => decide (c0 = 48 ∧ lowerByte c1 = 120)
      | _ => false
    let s2 := if hex then s1.drop 2 else s1
    let (st, s3) := mantLoop hex {} s2
    if !st.sawdigits then none
    else
      let dp : Int := if st.sawdot then st.dp else st.nd
      let dp : Int := if hex then dp * 4 else dp
      let ndm : Int := if hex then (st.nd : Int) * 4 else st.nd
      let expChar : Nat := if hex then 112 else 101
      let tail : Option (Int × Bool × Str) :=
        match s3 with
        | e :: s4 =>
          if lowerByte e = expChar then
            match s4 with
            | [] => none
            | sg :: s5 =>
              let esign : Int := if sg = 45 then -1 else 1
              let s6 := if sg = 43 ∨ sg = 45 then s5 else sg :: s5
              match s6 with
              | [] => none
              | d :: _ =>
                if isDigit d then
                  let (ev, u, s7) := expLoop 0 st.underscores s6
                  some (dp + (ev : Int) * esign, u, s7)
                else none
          else if hex then none else some (dp, st.underscores, s3)
        | [] => if hex then none else some (dp, st.underscores, [])
      match tail with
      | none => none
      | some (dp, underscores, rest) =>
        if underscores && !underscoreOK (s.take (s.length - rest.length)) then none
        else some { neg := neg, hex := hex, mantissa := st.mantissa,
                    exp := if st.mantissa = 0 then 0 else dp - ndm, rest := rest }

/-- The binary64 value nearest to `± mantissa * base ^ exp` (`base` two or ten), as
returned by `atofHex` and `atof64`. -/
def F64.ofScaled (neg : Bool) (base mantissa : Nat) (exp : Int) : F64 :=
  if 0 ≤ exp then F64.ofRatio neg (mantissa * base ^ exp.toNat * 2 ^ 1074) 1
  else F64.ofRatio neg (mantissa * 2 ^ 1074) (base ^ (-exp).toNat)

/-- The error of `strconv.ParseFloat`: `*NumError` with `Err` being `ErrSyntax` or
`ErrRange`. -/
inductive NumError where
  | ErrSyntax
  | ErrRange
  deriving DecidableEq, Repr

/-- Go `strconv.ParseFloat(s, 64)`: the value together with the error (`none` is `nil`).
A syntax error comes with the value `0`, a range error with `±Inf`. -/
def ParseFloat (s : Str) : F64 × Option NumError :=
  match special s with
  | some (v, n) => if n = s.length then (v, none) else (F64.zero, some NumError.ErrSyntax)
  | none =>
    match readFloat s with
    | none => (F64.zero, some NumError.ErrSyntax)
    | some sc =>
      if sc.rest ≠ [] then (F64.zero, some NumError.ErrSyntax)
      else
        match F64.ofScaled sc.neg (if sc.hex then 2 else 10) sc.mantissa sc.exp with
        | F64.inf neg => (F64.inf neg, some NumError.ErrRange)
        | v => (v, none)

/-! ## The data store -/

/-- The in-memory store (`DataStore` without its mutex). `nextID` is a Go `int`
(64 bits, two's complement). -/
structure DataStore where
  accounts : List Account
  transactions : List Transaction
  budgets : List Budget
  goals : List Goal
  partners : List Partner
  nextID : Int
  deriving DecidableEq, Repr

/-- Wrap-around of Go `int` arithmetic: the representative of `n` modulo `2^64` in
`[-2^63, 2^63)`. -/
def wrapInt64 (n : Int) : Int := (n + 2 ^ 63) % 2 ^ 64 - 2 ^ 63

/-- The method `getNextID`: the identifier `"id-N"` and the store with the counter
incremented. -/
def getNextID (ds : DataStore) : Str × DataStore :=
  (lit "id-" ++ intToDec ds.nextID, { ds with nextID := wrapInt64 (ds.nextID + 1) })

/-- The outcome of a handler that does not answer 200: 400 (validation error),
404 (not found), 409 (conflict). -/
inductive ApiError where
  | BadRequest
  | NotFound
  | Conflict
  deriving DecidableEq, Repr

/-! ## Transactions: category update -/

/-- The loop of `PATCH /api/transactions/:id`: the first transaction whose ID is `txnID`
gets the category `&category`; the result is the new collection and that record. -/
def updateCategoryLoop (txnID category : Str) :
    List Transaction → Option (List Transaction × Transaction)
  | [] => none
  | t :: ts =>
    if t.ID = txnID then
      some ({ t with Category := some category } :: ts, { t with Category := some category })
    else
      match updateCategoryLoop txnID category ts with
      | none => none
      | some (ts', r) => some (t :: ts', r)

/-- The handler `PATCH /api/transactions/:id` with the bound body `category`. -/
def UpdateTransactionCategory (ds : DataStore) (txnID category : Str) :
    DataStore × Except ApiError Transaction :=
  match updateCategoryLoop txnID category ds.transactions with
  | some (ts, r) => ({ ds with transactions := ts }, Except.ok r)
  | none => (ds, Except.error ApiError.NotFound)

/-! ## Transactions: query, filter, summary -/

/-- The query parameters of `GET /api/transactions`; an absent parameter is `""`. -/
structure Filters where
  from_ : Str
  to_ : Str
  accountId : Str
  category : Str
  q : Str
  deriving DecidableEq, Repr

/-- The date-range loop: `txn.Date[:10]` is taken of every transaction, in order, and
panics (`none`) on a date shorter than ten bytes. -/
def dateLoop (from_ to_ : Str) : List Transaction → Option (List Transaction)
  | [] => some []
  | t :: ts =>
    match sliceTo t.Date 10 with
    | none => none
    | some txnDate =>
      if from_ ≠ [] ∧ strLt txnDate from_ = true then dateLoop from_ to_ ts
      else if to_ ≠ [] ∧ strLt to_ txnDate = true then dateLoop from_ to_ ts
      else
        match dateLoop from_ to_ ts with
        | none => none
        | some r => some (t :: r)

/-- The test of the account loop. -/
def accountMatch (accountID : Str) (t : Transaction) : Bool :=
  decide (t.AccountID = accountID)

/-- The test of the category loop: `txn.Category != nil && *txn.Category == category`. -/
def categoryMatch (category : Str) (t : Transaction) : Bool :=
  match t.Category with
  | none => false
  | some c => decide (c = category)

/-- The test of the search loop, `qLower` being the lower-cased query. -/
def searchMatch (unicodeLower : Str → Str) (qLower : Str) (t : Transaction) : Bool :=
  let m := match t.Merchant with
    | none => false
    | some mer => Contains (ToLower unicodeLower mer) qLower
  if !m then
    match t.Category with
    | none => m
    | some c => Contains (ToLower unicodeLower c) qLower
  else m

/-- The four filter stages of `GET /api/transactions`, in the order of the handler. -/
def filterTransactions (unicodeLower : Str → Str) (f : Filters)
    (transactions : List Transaction) : Option (List Transaction) :=
  let r1 := if f.from_ ≠ [] ∨ f.to_ ≠ [] then dateLoop f.from_ f.to_ transactions
            else some transactions
  match r1 with
  | none => none
  | some transactions =>
    let transactions := if f.accountId ≠ [] then transactions.filter (accountMatch f.accountId)
                        else transactions
    let transactions := if f.category ≠ [] then transactions.filter (categoryMatch f.category)
                        else transactions
    let transactions :=
      if f.q ≠ [] then
        transactions.filter (searchMatch unicodeLower (ToLower unicodeLower f.q))
      else transactions
    some transactions

/-- The summary loop: the amount is parsed with the error dropped and added to `income`
or to `expenses`. -/
def summaryLoop : F64 → F64 → List Transaction → F64 × F64
  | income, expenses, [] => (income, expenses)
  | income, expenses, t :: ts =>
    let amt := (ParseFloat t.Amount).1
    if t.IsIncome then summaryLoop (income.add amt) expenses ts
    else summaryLoop income (expenses.add amt) ts

/-- The body of the 200 answer of `GET /api/transactions`. -/
structure TransactionsResponse where
  Transactions : List Transaction
  Income : Str
  Expenses : Str
  deriving DecidableEq, Repr

/-- The handler `GET /api/transactions`; `none` is a panic of the handler. -/
def ListTransactions (unicodeLower : Str → Str) (ds : DataStore) (f : Filters) :
    Option TransactionsResponse :=
  match filterTransactions unicodeLower f ds.transactions with
  | none => none
  | some transactions =>
    let (income, expenses) := summaryLoop F64.zero F64.zero transactions
    some { Transactions := transactions, Income := fmt2f income, Expenses := fmt2f expenses }

/-! ## Accounts, budgets, goals -/

/-- The handler `GET /api/accounts`. -/
def ListAccounts (ds : DataStore) : List Account := ds.accounts

/-- The body of the 200 answer of `GET /api/budgets`. -/
structure BudgetsResponse where
  Month : Str
  Budgets : List Budget
  deriving DecidableEq, Repr

/-- The handler `GET /api/budgets`; `currentMonth` is `time.Now().Format("2006-01")`. -/
def ListBudgets (ds : DataStore) (currentMonth month : Str) : BudgetsResponse :=
  let month := if month = [] then currentMonth else month
  { Month := month, Budgets := ds.budgets.filter (fun b => decide (b.Month = month)) }

/-- The handler `POST /api/budgets`; the three fields are bound with `binding:"required"`,
which rejects an absent or empty string. -/
def CreateBudget (ds : DataStore) (month category limitAmount : Str) :
    DataStore × Except ApiError Budget :=
  if month = [] ∨ category = [] ∨ limitAmount = [] then (ds, Except.error ApiError.BadRequest)
  else
    let (id, ds) := getNextID ds
    let budget : Budget :=
      { ID := id, HouseholdID := lit "household-1", Month := month, Category := category,
        LimitAmount := limitAmount }
    ({ ds with budgets := ds.budgets ++ [budget] }, Except.ok budget)

/-- The handler `GET /api/goals`. -/
def ListGoals (ds : DataStore) : List Goal := ds.goals

/-- The handler `POST /api/goals`. -/
def CreateGoal (ds : DataStore) (name targetAmount targetDate : Str) :
    DataStore × Except ApiError Goal :=
  if name = [] ∨ targetAmount = [] ∨ targetDate = [] then (ds, Except.error ApiError.BadRequest)
  else
    let (id, ds) := getNextID ds
    let goal : Goal :=
      { ID := id, HouseholdID := lit "household-1", Name := name, TargetAmount := targetAmount,
        CurrentAmount := lit "0.00", TargetDate := targetDate }
    ({ ds with goals := ds.goals ++ [goal] }, Except.ok goal)

/-! ## Partners -/

/-- The handler `GET /api/partners`. -/
def ListPartners (ds : DataStore) : List Partner :=
  ds.partners.filter (fun p => decide (p.HouseholdID = lit "household-1"))

/-- The duplicate check of `POST /api/partners/invite`. -/
def partnerExists (partners : List Partner) (email : Str) : Bool :=
  partners.any (fun p => decide (p.Email = email ∧ p.HouseholdID = lit "household-1"))

/-- The record built by `POST /api/partners/invite`; `now` is
`time.Now().Format(time.RFC3339)`. -/
def newPartner (id email now : Str) : Partner :=
  { ID := id, Email := email, HouseholdID := lit "household-1", Status := lit "invited",
    InvitedBy := lit "user-1", InvitedAt := now, AcceptedAt := [] }

/-- The handler `POST /api/partners/invite`, run without interruption. -/
def InvitePartner (ds : DataStore) (now email : Str) : DataStore × Except ApiError Partner :=
  if email = [] then (ds, Except.error ApiError.BadRequest)
  else if partnerExists ds.partners email then (ds, Except.error ApiError.Conflict)
  else
    let (id, ds) := getNextID ds
    let partner := newPartner id email now
    ({ ds with partners := ds.partners ++ [partner] }, Except.ok partner)

/-- The loop of `POST /api/partners/:id/accept`. -/
def acceptLoop (partnerID now : Str) : List Partner → Option (List Partner × Partner)
  | [] => none
  | p :: ps =>
    if p.ID = partnerID then
      some ({ p with Status := lit "active", AcceptedAt := now } :: ps,
            { p with Status := lit "active", AcceptedAt := now })
    else
      match acceptLoop partnerID now ps with
      | none => none
      | some (ps', r) => some (p :: ps', r)

/-- The handler `POST /api/partners/:id/accept`. -/
def AcceptPartnerInvite (ds : DataStore) (now partnerID : Str) :
    DataStore × Except ApiError Partner :=
  match acceptLoop partnerID now ds.partners with
  | some (ps, r) => ({ ds with partners := ps }, Except.ok r)
  | none => (ds, Except.error ApiError.NotFound)

/-- The loop of `DELETE /api/partners/:id`: `append(partners[:i], partners[i+1:]...)` at
the first index `i` whose ID is `partnerID`. -/
def removeLoop (partnerID : Str) : List Partner → Option (List Partner)
  | [] => none
  | p :: ps =>
    if p.ID = partnerID then some ps
    else
      match removeLoop partnerID ps with
      | none => none
      | some ps' => some (p :: ps')

/-- The handler `DELETE /api/partners/:id`; the 200 answer is the acknowledgement. -/
def RemovePartnerLink (ds : DataStore) (partnerID : Str) : DataStore × Except ApiError Unit :=
  match removeLoop partnerID ds.partners with
  | some ps => ({ ds with partners := ps }, Except.ok ())
  | none => (ds, Except.error ApiError.NotFound)

/-! ## Seeding

`seedData` reads the clock once (`now := time.Now()`). The calendar arithmetic and the
formatting of package `time` are not part of the program; `SeedClock` carries what the
seeder obtains from them. -/

/-- A time value computed by the seeder: `now.AddDate(0, 0, -daysAgo)` or
`firstDayOfMonth.AddDate(0, 0, days)`. -/
inductive SeedDate where
  | nowMinus (daysAgo : Int)
  | firstOfMonthPlus (days : Int)
  deriving DecidableEq, Repr

/-- The clock as seen by `seedData`: `day` is `now.Day()` (never zero), `format` is
`Format(time.RFC3339)` of a computed time, `beforeFirstOfMonth k` is
`now.AddDate(0, 0, -k).Before(firstDayOfMonth)`, `currentMonth` is `now.Format("2006-01")`,
`targetDate` is `now.AddDate(0, 6, 0)` formatted and `targetDate2` is
`now.AddDate(0, 6, 0).AddDate(0, 2, 0)` formatted. -/
structure SeedClock where
  day : Nat
  day_pos : 0 < day
  format : SeedDate → Str
  beforeFirstOfMonth : Int → Bool
  currentMonth : Str
  targetDate : Str
  targetDate2 : Str

/-- The offset `daysAgo` of a current-month transaction, before the clamp. -/
def daysAgoCurrent (daysSinceMonthStart i : Nat) : Int :=
  (daysSinceMonthStart : Int) - 1 - ((i % daysSinceMonthStart : Nat) : Int)

/-- The offset `daysAgo` of an older transaction. -/
def daysAgoOlder (i : Nat) : Int := 30 + ((i : Int) - 20) * 4

/-- The `date` of the transaction at position `i`. -/
def seedDate (clock : SeedClock) (i : Nat) : SeedDate :=
  if i < 20 then
    let daysAgo := daysAgoCurrent clock.day i
    let daysAgo := if daysAgo < 0 then 0 else daysAgo
    if clock.beforeFirstOfMonth daysAgo then
      SeedDate.firstOfMonthPlus ((i % clock.day : Nat) : Int)
    else SeedDate.nowMinus daysAgo
  else SeedDate.nowMinus (daysAgoOlder i)

/-- The slice `categories` of `seedData`. -/
def seedCategories : List Str :=
  [lit "Food", lit "Rent", lit "Groceries", lit "Utilities", lit "Entertainment",
   lit "Investment", lit "Dividend", lit "Transfer"]

/-- The slice `merchants` of `seedData`. -/
def seedMerchants : List Str :=
  [lit "Whole Foods", lit "Starbucks", lit "Amazon", lit "Electric Company", lit "Netflix",
   lit "Target", lit "Shell", lit "Apple Store", lit "Dividend Payment", lit "Stock Purchase"]

/-- The slice `accountIDs` of `seedData`. -/
def seedAccountIDs : List Str :=
  [lit "acc-checking-1", lit "acc-savings-1", lit "acc-brokerage-1"]

/-- The body of the seeding loop: the transaction at position `i`. -/
def seedTransaction (clock : SeedClock) (i : Nat) : Transaction :=
  let isIncome := decide (i % 10 = 0 ∨ i % 11 = 0)
  let accountID := seedAccountIDs.getD (i % seedAccountIDs.length) []
  let isBrokerage := decide (accountID = lit "acc-brokerage-1")
  let (amount, category, merchant) : F64 × Str × Str :=
    if isIncome then
      if isBrokerage then
        ((F64.ofInt 500).add (F64.ofInt (i * 10)), lit "Dividend", lit "Dividend Payment")
      else
        ((F64.ofInt 2000).add (F64.ofInt (i * 50)), lit "Income", lit "Salary")
    else
      if isBrokerage then
        ((F64.ofInt 100).add (F64.ofInt (i * 5)), lit "Investment", lit "Stock Purchase")
      else
        ((F64.ofInt 10).add (F64.ofInt (i * 5)),
         seedCategories.getD (i % seedCategories.length) [],
         seedMerchants.getD (i % seedMerchants.length) [])
  let status := if i % 5 = 0 then lit "pending" else lit "posted"
  { ID := lit "txn-" ++ intToDec (i + 1), AccountID := accountID,
    Date := clock.format (seedDate clock i), Amount := fmt2f amount,
    Merchant := some merchant, Category := some category, IsIncome := isIncome,
    Status := some status }

/-- The accounts assigned by `seedData`. -/
def seedAccounts : List Account :=
  [{ ID := lit "acc-checking-1", InstitutionID := lit "inst-chase",
     Name := lit "Chase Total Checking", Type_ := lit "checking", Mask := lit "1234",
     Balance := lit "5420.50", Institution := lit "Chase" },
   { ID := lit "acc-savings-1", InstitutionID := lit "inst-chase",
     Name := lit "Chase Savings", Type_ := lit "savings", Mask := lit "5678",
     Balance := lit "15230.00", Institution := lit "Chase" },
   { ID := lit "acc-brokerage-1", InstitutionID := lit "inst-fidelity",
     Name := lit "Fidelity Brokerage", Type_ := lit "brokerage", Mask := lit "9012",
     Balance := lit "45678.90", Institution := lit "Fidelity" }]

/-- The budgets assigned by `seedData`. -/
def seedBudgets (clock : SeedClock) : List Budget :=
  [{ ID := lit "budget-1", HouseholdID := lit "household-1", Month := clock.currentMonth,
     Category := lit "Food", LimitAmount := lit "500.00" },
   { ID := lit "budget-2", HouseholdID := lit "household-1", Month := clock.currentMonth,
     Category := lit "Utilities", LimitAmount := lit "200.00" },
   { ID := lit "budget-3", HouseholdID := lit "household-1", Month := clock.currentMonth,
     Category := lit "Entertainment", LimitAmount := lit "100.00" }]

/-- The goals assigned by `seedData`. -/
def seedGoals (clock : SeedClock) : List Goal :=
  [{ ID := lit "goal-1", HouseholdID := lit "household-1", Name := lit "Emergency Fund",
     TargetAmount := lit "10000.00", CurrentAmount := lit "3500.00",
     TargetDate := clock.targetDate },
   { ID := lit "goal-2", HouseholdID := lit "household-1", Name := lit "Vacation Fund",
     TargetAmount := lit "3000.00", CurrentAmount := lit "800.00",
     TargetDate := clock.targetDate2 }]

/-- The partners assigned by `seedData`. -/
def seedPartners (clock : SeedClock) : List Partner :=
  [{ ID := lit "partner-1", Email := lit "partner@example.com",
     HouseholdID := lit "household-1", Status := lit "active", InvitedBy := lit "user-1",
     InvitedAt := clock.format (SeedDate.nowMinus 10),
     AcceptedAt := clock.format (SeedDate.nowMinus 9) },
   { ID := lit "partner-2", Email := lit "pending@example.com",
     HouseholdID := lit "household-1", Status := lit "invited", InvitedBy := lit "user-1",
     InvitedAt := clock.format (SeedDate.nowMinus 2), AcceptedAt := [] }]

/-- The method `seedData`. -/
def seedData (clock : SeedClock) (ds : DataStore) : DataStore :=
  { ds with
    accounts := seedAccounts
    transactions := ds.transactions ++ (List.range 40).map (seedTransaction clock)
    budgets := seedBudgets clock
    goals := seedGoals clock
    partners := seedPartners clock }

/-- The function `NewDataStore`: the empty store with `nextID = 1`, seeded. -/
def NewDataStore (clock : SeedClock) : DataStore :=
  seedData clock
    { accounts := [], transactions := [], budgets := [], goals := [], partners := [],
      nextID := 1 }

/-! ## Sequences of requests -/

/-- A request that can change the store, with its arguments; `now` is the formatted
clock reading of the handler. -/
inductive Op where
  | updateCategory (txnID category : Str)
  | createBudget (month category limitAmount : Str)
  | createGoal (name targetAmount targetDate : Str)
  | invite (now email : Str)
  | accept (now partnerID : Str)
  | remove (partnerID : Str)
  deriving DecidableEq, Repr

/-- The store after the request `op`. -/
def Op.apply (ds : DataStore) : Op → DataStore
  | Op.updateCategory txnID category =>
    (UpdateTransactionCategory ds txnID category).1
  | Op.createBudget month category limitAmount => (CreateBudget ds month category limitAmount).1
  | Op.createGoal name targetAmount targetDate => (CreateGoal ds name targetAmount targetDate).1
  | Op.invite now email => (InvitePartner ds now email).1
  | Op.accept now partnerID => (AcceptPartnerInvite ds now partnerID).1
  | Op.remove partnerID => (RemovePartnerLink ds partnerID).1

/-- Whether the request `op` fails on `ds` (answers 400, 404 or 409). -/
def Op.fails (ds : DataStore) : Op → Bool
  | Op.updateCategory txnID category =>
    !(UpdateTransactionCategory ds txnID category).2.toBool
  | Op.createBudget month category limitAmount =>
    !(CreateBudget ds month category limitAmount).2.toBool
  | Op.createGoal name targetAmount targetDate =>
    !(CreateGoal ds name targetAmount targetDate).2.toBool
  | Op.invite now email => !(InvitePartner ds now email).2.toBool
  | Op.accept now partnerID => !(AcceptPartnerInvite ds now partnerID).2.toBool
  | Op.remove partnerID => !(RemovePartnerLink ds partnerID).2.toBool

/-- The identifier handed out by `getNextID` during the request `op` on `ds`, if the
request reaches the call. -/
def Op.issued (ds : DataStore) : Op → Option Str
  | Op.createBudget month category limitAmount =>
    if month = [] ∨ category = [] ∨ limitAmount = [] then none else some (getNextID ds).1
  | Op.createGoal name targetAmount targetDate =>
    if name = [] ∨ targetAmount = [] ∨ targetDate = [] then none else some (getNextID ds).1
  | Op.invite _ email =>
    if email = [] then none
    else if partnerExists ds.partners email then none
    else some (getNextID ds).1
  | _ => none

/-- The store after the requests `ops`, served one after the other. -/
def run (ds : DataStore) : List Op → DataStore
  | [] => ds
  | op :: ops => run (op.apply ds) ops

/-- The identifiers handed out by `getNextID` while `ops` are served, oldest first. -/
def issuedIDs (ds : DataStore) : List Op → List Str
  | [] => []
  | op :: ops => (op.issued ds).toList ++ issuedIDs (op.apply ds) ops

/-- The stores reachable from the seeded store by a sequence of requests. -/
inductive Reachable (clock : SeedClock) : DataStore → Prop where
  | seeded : Reachable clock (NewDataStore clock)
  | step (ds : DataStore) (op : Op) : Reachable clock ds → Reachable clock (op.apply ds)

/-! ## Specification-side definitions -/

/-- Spec (4.3): the conjunction of the supplied filter predicates. The date predicate
compares the first ten bytes of the timestamp with the inclusive bounds, the account
and the category predicate are exact matches, the free-text predicate is a
case-insensitive substring match against merchant or category; an omitted (empty)
filter passes everything. -/
def specMatches (unicodeLower : Str → Str) (f : Filters) (t : Transaction) : Bool :=
  (decide (f.from_ = []) || !strLt (t.Date.take 10) f.from_) &&
  (decide (f.to_ = []) || !strLt f.to_ (t.Date.take 10)) &&
  (decide (f.accountId = []) || decide (t.AccountID = f.accountId)) &&
  (decide (f.category = []) || decide (t.Category = some f.category)) &&
  (decide (f.q = []) ||
    ((match t.Merchant with
      | some m => Contains (ToLower unicodeLower m) (ToLower unicodeLower f.q)
      | none => false) ||
     (match t.Category with
      | some c => Contains (ToLower unicodeLower c) (ToLower unicodeLower f.q)
      | none => false)))

/-- The request without any filter. -/
def noFilters : Filters := { from_ := [], to_ := [], accountId := [], category := [], q := [] }

/-! ## A sample clock and sample data -/

/-- The civil date (year, month, day) of the day `days` after 1970-01-01. -/
def civilFromDays (days : Nat) : Nat × Nat × Nat :=
  let z := days + 719468
  let era := z / 146097
  let doe := z % 146097
  let yoe := (doe - doe / 1460 + doe / 36524 - doe / 146096) / 365
  let doy := doe - (365 * yoe + yoe / 4 - yoe / 100)
  let mp := (5 * doy + 2) / 153
  let d := doy - (153 * mp + 2) / 5 + 1
  let m := if mp < 10 then mp + 3 else mp - 9
  (yoe + era * 400 + (if m ≤ 2 then 1 else 0), m, d)

/-- Two decimal digits, zero-padded. -/
def pad2 (n : Nat) : Str := [48 + n / 10 % 10, 48 + n % 10]

/-- The RFC 3339 text of noon UTC on the day `days` after 1970-01-01. -/
def formatNoonUTC (days : Nat) : Str :=
  let (y, m, d) := civilFromDays days
  natToDec y ++ [45] ++ pad2 m ++ [45] ++ pad2 d ++ lit "T12:00:00Z"

/-- The clock reading 2025-03-15T12:00:00Z (day 20162 after 1970-01-01): the first of
the month is 14 days earlier, at midnight. -/
def sampleClock : SeedClock where
  day := 15
  day_pos := by decide
  format := fun d =>
    match d with
    | SeedDate.nowMinus k => formatNoonUTC (20162 - k).toNat
    | SeedDate.firstOfMonthPlus k => natToDec 2025 ++ lit "-03-" ++ pad2 (1 + k).toNat
                                       ++ lit "T00:00:00Z"
  beforeFirstOfMonth := fun k => decide (15 ≤ k)
  currentMonth := lit "2025-03"
  targetDate := lit "2025-09-15T12:00:00Z"
  targetDate2 := lit "2025-11-15T12:00:00Z"

/-- A transaction for examples. -/
def sampleTxn (id date amount : String) (category : Option String) (isIncome : Bool) :
    Transaction :=
  { ID := lit id, AccountID := lit "acc-checking-1", Date := lit date, Amount := lit amount,
    Merchant := some (lit "Whole Foods"), Category := category.map lit, IsIncome := isIncome,
    Status := some (lit "posted") }

/-- A store holding exactly the given transactions. -/
def storeOf (ts : List Transaction) : DataStore :=
  { accounts := seedAccounts, transactions := ts, budgets := [], goals := [], partners := [],
    nextID := 1 }

/-! ## Identifiers -/

/-- The identifier `getNextID` returns when the counter is `k`. -/
def idOf (k : Int) : Str := lit "id-" ++ intToDec k

/-- The identifiers written by `seedData`, over all five collections. -/
def seededIDs (clock : SeedClock) : List Str :=
  (NewDataStore clock).accounts.map Account.ID ++
  (NewDataStore clock).transactions.map Transaction.ID ++
  (NewDataStore clock).budgets.map Budget.ID ++
  (NewDataStore clock).goals.map Goal.ID ++
  (NewDataStore clock).partners.map Partner.ID

/-- Every identifier of a budget, goal or partner link either does not start with the
byte `i` or was handed out by `getNextID` at an earlier counter value, and within each
of the three collections the identifiers are pairwise distinct. -/
def IdsInv (ds : DataStore) : Prop :=
  1 ≤ ds.nextID ∧
  (∀ id ∈ ds.budgets.map Budget.ID ++ ds.goals.map Goal.ID ++ ds.partners.map Partner.ID,
    id.head? ≠ some 105 ∨ ∃ k : Int, 1 ≤ k ∧ k < ds.nextID ∧ id = idOf k) ∧
  (ds.budgets.map Budget.ID).Nodup ∧ (ds.goals.map Goal.ID).Nodup ∧
  (ds.partners.map Partner.ID).Nodup

/-- The requests of `n` rounds of inviting `x@example.com` and removing the link again;
round `k` (from zero) removes the link `id-(k+1)`. -/
def inviteRemoveCycles (n : Nat) : List Op :=
  (List.range n).flatMap (fun k =>
    [Op.invite (lit "2025-03-15T12:00:00Z") (lit "x@example.com"),
     Op.remove (idOf ((k : Int) + 1))])

/-! ## Concurrent requests

A handler touches the store only inside sections guarded by `store.mu` (`RLock`/`RUnlock`
or `Lock`/`Unlock`); the mutex makes each section one atomic step. A handler in flight is
its position between two sections together with its local variables. The handlers for
budgets, goals and invitations have more than one section (`getNextID` locks on its
own); every other handler is a single section. -/

/-- A handler in flight: an invitation, a budget or a goal between two of its sections,
a handler with a single section (`single`, for the requests that create nothing), or a
handler that has answered. -/
inductive Thread where
  | inviteStart (now email : Str)
  | inviteChecked (now email : Str)
  | inviteGotID (now email id : Str)
  | budgetStart (month category limitAmount : Str)
  | budgetGotID (month category limitAmount id : Str)
  | goalStart (name targetAmount targetDate : Str)
  | goalGotID (name targetAmount targetDate id : Str)
  | single (op : Op)
  | finished (ok : Bool)
  deriving DecidableEq, Repr

/-- The next section of a handler in flight, run atomically on the store. -/
def Thread.step (ds : DataStore) : Thread → DataStore × Thread
  | Thread.inviteStart now email =>
    if email = [] then (ds, Thread.finished false)
    else if partnerExists ds.partners email then (ds, Thread.finished false)
    else (ds, Thread.inviteChecked now email)
  | Thread.inviteChecked now email =>
    ((getNextID ds).2, Thread.inviteGotID now email (getNextID ds).1)
  | Thread.inviteGotID now email id =>
    ({ ds with partners := ds.partners ++ [newPartner id email now] }, Thread.finished true)
  | Thread.budgetStart month category limitAmount =>
    if month = [] ∨ category = [] ∨ limitAmount = [] then (ds, Thread.finished false)
    else ((getNextID ds).2, Thread.budgetGotID month category limitAmount (getNextID ds).1)
  | Thread.budgetGotID month category limitAmount id =>
    ({ ds with budgets := ds.budgets ++
        [{ ID := id, HouseholdID := lit "household-1", Month := month, Category := category,
           LimitAmount := limitAmount }] }, Thread.finished true)
  | Thread.goalStart name targetAmount targetDate =>
    if name = [] ∨ targetAmount = [] ∨ targetDate = [] then (ds, Thread.finished false)
    else ((getNextID ds).2, Thread.goalGotID name targetAmount targetDate (getNextID ds).1)
  | Thread.goalGotID name targetAmount targetDate id =>
    ({ ds with goals := ds.goals ++
        [{ ID := id, HouseholdID := lit "household-1", Name := name,
           TargetAmount := targetAmount, CurrentAmount := lit "0.00",
           TargetDate := targetDate }] }, Thread.finished true)
  | Thread.single op => (op.apply ds, Thread.finished (!op.fails ds))
  | Thread.finished ok => (ds, Thread.finished ok)

/-- The handler in flight at the start of the request `op`. -/
def Thread.start : Op → Thread
  | Op.invite now email => Thread.inviteStart now email
  | Op.createBudget month category limitAmount => Thread.budgetStart month category limitAmount
  | Op.createGoal name targetAmount targetDate => Thread.goalStart name targetAmount targetDate
  | op => Thread.single op

/-- Replace the element at position `i`. -/
def setAt (ts : List Thread) (i : Nat) (t : Thread) : List Thread :=
  match ts, i with
  | [], _ => []
  | _ :: rest, 0 => t :: rest
  | x :: rest, i + 1 => x :: setAt rest i t

/-- Run the handlers `ts` concurrently: `schedule` names, step by step, the handler whose
next section runs. -/
def runSchedule (ds : DataStore) (ts : List Thread) : List Nat → DataStore × List Thread
  | [] => (ds, ts)
  | i :: schedule =>
    match ts.get? i with
    | none => runSchedule ds ts schedule
    | some t => runSchedule (t.step ds).1 (setAt ts i (t.step ds).2) schedule

/-! ## Values of a running sum -/

/-- A value that a sum started at `+0` can take: a finite value is representable (it
rounds to itself and is below the overflow threshold) and is not `-0`. -/
def F64.Canonical : F64 → Prop
  | F64.fin neg m => roundMag m 1 = m ∧ m < overflowMag ∧ ¬(neg = true ∧ m = 0)
  | _ => True

/-- Whether the amount of `t` parses without a syntax error. -/
def amountSyntaxOK (t : Transaction) : Bool :=
  decide ((ParseFloat t.Amount).2 ≠ some NumError.ErrSyntax)

/-! ## Exact amounts (specification side) -/

/-- The number written by the decimal digits `ds`. -/
def digitsVal (ds : Str) : Nat := ds.foldl (fun acc c => acc * 10 + (c - 48)) 0

/-- Spec (3): an amount in the fixed-point form of the data model, one or more decimal
digits, a point and exactly two decimal digits; its value in hundredths. -/
def amountCents (s : Str) : Option Nat :=
  match s.reverse with
  | b :: a :: 46 :: ip =>
    if ip ≠ [] ∧ ip.all isDigit = true ∧ isDigit a = true ∧ isDigit b = true then
      some (digitsVal ip.reverse * 100 + (a - 48) * 10 + (b - 48))
    else none
  | _ => none

/-- A number of hundredths written with exactly two decimal places. -/
def renderCents (c : Nat) : Str := natToDec (c / 100) ++ [46, 48 + c % 100 / 10, 48 + c % 10]

/-- Spec (4.3): the exact sum, in hundredths, of the amounts of the transactions with
`isIncome` true. -/
def specIncomeCents (ts : List Transaction) : Nat :=
  ((ts.filter (fun t => t.IsIncome)).map (fun t => (amountCents t.Amount).getD 0)).sum

/-- Spec (4.3): the exact sum, in hundredths, of the amounts of the transactions with
`isIncome` false. -/
def specExpensesCents (ts : List Transaction) : Nat :=
  ((ts.filter (fun t => !t.IsIncome)).map (fun t => (amountCents t.Amount).getD 0)).sum

/-- The running sum `s` (in units of `2^-1074`) is within `2 k` roundings, each of at
most `2^(m-54)`, of the exact sum of `c` hundredths. -/
def Near (m k s c : Nat) : Prop :=
  100 * s ≤ c * 2 ^ 1074 + 200 * k * 2 ^ (m + 1020) ∧
  c * 2 ^ 1074 ≤ 100 * s + 200 * k * 2 ^ (m + 1020)

/-! ## The fields of a transaction that no request writes (specification side) -/

/-- Spec (transaction invariant): the id, accountId, date, amount, merchant, isIncome and
status of a transaction, that is every field except the category. -/
def fixedFields (t : Transaction) :
    Str × Str × Str × Str × Option Str × Bool × Option Str :=
  (t.ID, t.AccountID, t.Date, t.Amount, t.Merchant, t.IsIncome, t.Status)

/-! ## Calendar dates and letter case (specification side) -/

/-- Spec (date range): the (year, month, day) denoted by a zero-padded `YYYY-MM-DD`
string; `none` for a string of another shape. -/
def parseYMD (s : Str) : Option (Nat × Nat × Nat) :=
  match s with
  | [y1, y2, y3, y4, h1, m1, m2, h2, d1, d2] =>
    if h1 = 45 ∧ h2 = 45 ∧ (48 ≤ y1 ∧ y1 ≤ 57) ∧ (48 ≤ y2 ∧ y2 ≤ 57) ∧ (48 ≤ y3 ∧ y3 ≤ 57) ∧
        (48 ≤ y4 ∧ y4 ≤ 57) ∧ (48 ≤ m1 ∧ m1 ≤ 57) ∧ (48 ≤ m2 ∧ m2 ≤ 57) ∧
        (48 ≤ d1 ∧ d1 ≤ 57) ∧ (48 ≤ d2 ∧ d2 ≤ 57) then
      some (1000 * (y1 - 48) + 100 * (y2 - 48) + 10 * (y3 - 48) + (y4 - 48),
            10 * (m1 - 48) + (m2 - 48), 10 * (d1 - 48) + (d2 - 48))
    else none
  | _ => none

/-- Chronological order of calendar dates: strictly earlier. -/
def ymdLt (a b : Nat × Nat × Nat) : Prop :=
  a.1 < b.1 ∨ (a.1 = b.1 ∧ (a.2.1 < b.2.1 ∨ (a.2.1 = b.2.1 ∧ a.2.2 < b.2.2)))

/-- Chronological order of calendar dates: earlier or the same day. -/
def ymdLe (a b : Nat × Nat × Nat) : Prop := a = b ∨ ymdLt a b

/-- Spec (free text): the bytes `a` and `b` are the same ASCII letter in either case, or
the same byte. -/
def sameLetter (a b : Nat) : Bool :=
  decide (a = b ∨ (65 ≤ a ∧ a ≤ 90 ∧ b = a + 32) ∨ (65 ≤ b ∧ b ≤ 90 ∧ a = b + 32))

/-- Spec (free text): two strings that differ at most in the case of their ASCII
letters. -/
def sameUpToCase : Str → Str → Bool
  | [], [] => true
  | a :: as, b :: bs => sameLetter a b && sameUpToCase as bs
  | _, _ => false

/-! ## Requests that take the counter around -/

/-- The requests of `n` rounds of inviting `x@example.com` and removing the link again,
starting when the counter is `c0`: round `k` (from zero) removes the link issued at the
counter value `c0 + k`. -/
def inviteRemoveCyclesFrom (c0 : Int) (n : Nat) : List Op :=
  (List.range n).flatMap (fun k =>
    [Op.invite (lit "2025-03-15T12:00:00Z") (lit "x@example.com"),
     Op.remove (idOf (wrapInt64 (c0 + (k : Int))))])

/-- One budget, which gets `id-1`, then `2^64 - 1` rounds of inviting and removing. -/
def wrapAroundOps : List Op :=
  Op.createBudget (lit "2025-03") (lit "Food") (lit "400.00") ::
    inviteRemoveCyclesFrom 2 (2 ^ 64 - 1)

/-! ## Occurrence up to letter case; a fragment of the Unicode tables -/

/-- Spec (free text): `q` occurs in `s` up to the case of ASCII letters, that is some
contiguous part of `s` differs from `q` at most in the case of its ASCII letters. -/
def occursUpToCase (q s : Str) : Prop :=
  ∃ pre mid post, s = pre ++ mid ++ post ∧ sameUpToCase q mid = true

/-- The values of `strings.Map(unicode.ToLower, s)` on the Greek strings of the example:
the capital sigma U+03A3 (bytes CE A3) becomes the small sigma U+03C3 (bytes CF 83); the
small sigma and the final small sigma U+03C2 (bytes CF 82), whose upper case is U+03A3,
are lower-case letters and stay as they are. -/
def greekLower (s : Str) : Str := if s = [206, 163] then [207, 131] else s

/-! ## Lemmas: the filter stages -/

theorem dateLoop_eq_filter (from_ to_ : Str) (ts r : List Transaction)
    (h : dateLoop from_ to_ ts = some r) :
    r = ts.filter (fun t => (decide (from_ = []) || !strLt (t.Date.take 10) from_) &&
                            (decide (to_ = []) || !strLt to_ (t.Date.take 10))) := by
  induction ts generalizing r with
  | nil => simp [dateLoop] at h; simp [h]
  | cons t ts ih =>
    unfold dateLoop at h
    unfold sliceTo at h
    by_cases hl : 10 ≤ t.Date.length
    · simp only [hl, if_true] at h
      by_cases h1 : from_ ≠ [] ∧ strLt (t.Date.take 10) from_ = true
      · rw [if_pos h1] at h
        have := ih r h
        rw [this, List.filter_cons]
        simp [h1.1, h1.2]
      · rw [if_neg h1] at h
        by_cases h2 : to_ ≠ [] ∧ strLt to_ (t.Date.take 10) = true
        · rw [if_pos h2] at h
          have := ih r h
          rw [this, List.filter_cons]
          simp [h2.1, h2.2]
        · rw [if_neg h2] at h
          cases hd : dateLoop from_ to_ ts with
          | none => simp [hd] at h
          | some r' =>
            simp only [hd, Option.some.injEq] at h
            have := ih r' hd
            rw [← h, this, List.filter_cons]
            have e1 : (decide (from_ = []) || !strLt (t.Date.take 10) from_) = true := by
              by_cases hf : from_ = []
              · simp [hf]
              · have : strLt (t.Date.take 10) from_ ≠ true := fun hh => h1 ⟨hf, hh⟩
                simp [this]
            have e2 : (decide (to_ = []) || !strLt to_ (t.Date.take 10)) = true := by
              by_cases hf : to_ = []
              · simp [hf]
              · have : strLt to_ (t.Date.take 10) ≠ true := fun hh => h2 ⟨hf, hh⟩
                simp [this]
            simp [e1, e2]
    · simp [hl] at h

theorem dateLoop_isSome (from_ to_ : Str) (ts : List Transaction)
    (h : ∀ t ∈ ts, 10 ≤ t.Date.length) : ∃ r, dateLoop from_ to_ ts = some r := by
  induction ts with
  | nil => exact ⟨[], rfl⟩
  | cons t ts ih =>
    obtain ⟨r, hr⟩ := ih (fun x hx => h x (List.mem_cons_of_mem _ hx))
    have hl : 10 ≤ t.Date.length := h t (List.mem_cons_self _ _)
    unfold dateLoop sliceTo
    simp only [hl, if_true, hr]
    split_ifs <;> exact ⟨_, rfl⟩

theorem dateLoop_none_of_short (from_ to_ : Str) (ts : List Transaction)
    (h : ∃ t ∈ ts, t.Date.length < 10) : dateLoop from_ to_ ts = none := by
  induction ts with
  | nil => simp at h
  | cons t ts ih =>
    unfold dateLoop sliceTo
    by_cases hl : 10 ≤ t.Date.length
    · have h' : ∃ x ∈ ts, x.Date.length < 10 := by
        obtain ⟨x, hx, hlt⟩ := h
        rcases List.mem_cons.1 hx with rfl | hx
        · omega
        · exact ⟨x, hx, hlt⟩
      simp only [hl, if_true, ih h']
      split_ifs <;> rfl
    · simp [hl]

theorem categoryMatch_eq (c : Str) (t : Transaction) :
    categoryMatch c t = decide (t.Category = some c) := by
  unfold categoryMatch
  cases t.Category <;> simp

theorem searchMatch_eq (ul : Str → Str) (q : Str) (t : Transaction) :
    searchMatch ul q t =
      ((match t.Merchant with
        | some m => Contains (ToLower ul m) q
        | none => false) ||
       (match t.Category with
        | some c => Contains (ToLower ul c) q
        | none => false)) := by
  unfold searchMatch
  cases t.Merchant <;> cases t.Category <;> simp
  · rename_i m c
    cases Contains (ToLower ul m) q <;> simp

/-- The filter stages compute the filter by `specMatches` whenever they return. -/
theorem filterTransactions_eq (ul : Str → Str) (f : Filters) (ts r : List Transaction)
    (h : filterTransactions ul f ts = some r) : r = ts.filter (specMatches ul f) := by
  unfold filterTransactions at h
  have key : ∀ r1, (if f.from_ ≠ [] ∨ f.to_ ≠ [] then dateLoop f.from_ f.to_ ts else some ts)
      = some r1 →
      r1 = ts.filter (fun t => (decide (f.from_ = []) || !strLt (t.Date.take 10) f.from_) &&
                            (decide (f.to_ = []) || !strLt f.to_ (t.Date.take 10))) := by
    intro r1 h1
    by_cases hd : f.from_ ≠ [] ∨ f.to_ ≠ []
    · rw [if_pos hd] at h1
      exact dateLoop_eq_filter _ _ _ _ h1
    · rw [if_neg hd] at h1
      push_neg at hd
      simp only [Option.some.injEq] at h1
      simp [hd.1, hd.2, h1]
  cases h1 : (if f.from_ ≠ [] ∨ f.to_ ≠ [] then dateLoop f.from_ f.to_ ts else some ts) with
  | none => simp [h1] at h
  | some r1 =>
    simp only [h1, Option.some.injEq] at h
    rw [← h, key r1 h1]
    have hacc : ∀ l : List Transaction,
        (if f.accountId ≠ [] then l.filter (accountMatch f.accountId) else l)
          = l.filter (fun t => decide (f.accountId = []) || decide (t.AccountID = f.accountId)) := by
      intro l
      by_cases hx : f.accountId = []
      · simp [hx]
      · simp only [ne_eq, hx, not_false_eq_true, if_true, decide_False, Bool.false_or]
        rfl
    have hcat : ∀ l : List Transaction,
        (if f.category ≠ [] then l.filter (categoryMatch f.category) else l)
          = l.filter (fun t => decide (f.category = []) || decide (t.Category = some f.category)) := by
      intro l
      by_cases hx : f.category = []
      · simp [hx]
      · simp only [ne_eq, hx, not_false_eq_true, if_true, decide_False, Bool.false_or]
        congr 1
        funext t
        exact categoryMatch_eq _ t
    have hq : ∀ l : List Transaction,
        (if f.q ≠ [] then l.filter (searchMatch ul (ToLower ul f.q)) else l)
          = l.filter (fun t => decide (f.q = []) ||
              ((match t.Merchant with
                | some m => Contains (ToLower ul m) (ToLower ul f.q)
                | none => false) ||
               (match t.Category with
                | some c => Contains (ToLower ul c) (ToLower ul f.q)
                | none => false))) := by
      intro l
      by_cases hx : f.q = []
      · simp [hx]
      · simp only [ne_eq, hx, not_false_eq_true, if_true, decide_False, Bool.false_or]
        congr 1
        funext t
        exact searchMatch_eq ul _ t
    rw [hacc, hcat, hq]
    simp only [List.filter_filter]
    congr 1
    funext t
    unfold specMatches
    simp only [Bool.and_assoc, Bool.and_comm, Bool.and_left_comm]

/-- The filter stages return whenever no date bound is supplied or every timestamp has
at least ten bytes. -/
theorem filterTransactions_isSome (ul : Str → Str) (f : Filters) (ts : List Transaction)
    (h : (f.from_ = [] ∧ f.to_ = []) ∨ ∀ t ∈ ts, 10 ≤ t.Date.length) :
    ∃ r, filterTransactions ul f ts = some r := by
  unfold filterTransactions
  by_cases hd : f.from_ ≠ [] ∨ f.to_ ≠ []
  · have hl : ∀ t ∈ ts, 10 ≤ t.Date.length := by
      rcases h with h | h
      · exact absurd h (by push_neg; intro h1; rcases hd with hd | hd; exact absurd h1 hd; exact hd)
      · exact h
    obtain ⟨r, hr⟩ := dateLoop_isSome f.from_ f.to_ ts hl
    simp only [if_pos hd, hr]
    exact ⟨_, rfl⟩
  · simp only [if_neg hd]
    exact ⟨_, rfl⟩

/-! ## C1, C4: the query is an order-preserving filter; when it returns -/

theorem ListTransactions_eq_some_iff (ul : Str → Str) (ds : DataStore) (f : Filters)
    (r : TransactionsResponse) :
    ListTransactions ul ds f = some r ↔
      ∃ ts, filterTransactions ul f ds.transactions = some ts ∧
        r = { Transactions := ts,
              Income := fmt2f (summaryLoop F64.zero F64.zero ts).1,
              Expenses := fmt2f (summaryLoop F64.zero F64.zero ts).2 } := by
  unfold ListTransactions
  cases h : filterTransactions ul f ds.transactions with
  | none => simp
  | some ts =>
    simp only [Option.some.injEq, exists_eq_left']
    exact eq_comm

/-- C1: whenever `ListTransactions` returns a sequence, it is the order-preserving filter
of the collection by the conjunction of the supplied predicates (hence a sublist of the
collection, nothing added or duplicated); a sequence is returned whenever no date bound is
supplied or every timestamp has at least ten bytes; with no filter at all the sequence is
the whole collection. -/
theorem C1_list_transactions_is_filter (ul : Str → Str) (ds : DataStore) (f : Filters) :
    (∀ r, ListTransactions ul ds f = some r →
      r.Transactions = ds.transactions.filter (specMatches ul f) ∧
      r.Transactions.Sublist ds.transactions) ∧
    (((f.from_ = [] ∧ f.to_ = []) ∨ ∀ t ∈ ds.transactions, 10 ≤ t.Date.length) →
      ∃ r, ListTransactions ul ds f = some r ∧
        r.Transactions = ds.transactions.filter (specMatches ul f)) ∧
    (∃ r, ListTransactions ul ds noFilters = some r ∧ r.Transactions = ds.transactions) := by
  have h1 : ∀ (g : Filters) r, ListTransactions ul ds g = some r →
      r.Transactions = ds.transactions.filter (specMatches ul g) := by
    intro g r hr
    obtain ⟨ts, hts, rfl⟩ := (ListTransactions_eq_some_iff ul ds g r).1 hr
    exact filterTransactions_eq ul g _ _ hts
  have h2 : ∀ g : Filters, ((g.from_ = [] ∧ g.to_ = []) ∨ ∀ t ∈ ds.transactions, 10 ≤ t.Date.length) →
      ∃ r, ListTransactions ul ds g = some r := by
    intro g hg
    obtain ⟨ts, hts⟩ := filterTransactions_isSome ul g ds.transactions hg
    exact ⟨_, (ListTransactions_eq_some_iff ul ds g _).2 ⟨ts, hts, rfl⟩⟩
  refine ⟨?_, ?_, ?_⟩
  · intro r hr
    have := h1 f r hr
    exact ⟨this, this ▸ List.filter_sublist _⟩
  · intro hg
    obtain ⟨r, hr⟩ := h2 f hg
    exact ⟨r, hr, h1 f r hr⟩
  · obtain ⟨r, hr⟩ := h2 noFilters (Or.inl ⟨rfl, rfl⟩)
    refine ⟨r, hr, ?_⟩
    rw [h1 noFilters r hr]
    apply List.filter_eq_self.2
    intro t _
    simp [specMatches, noFilters]

/-- C1, at a concrete request: of three transactions, the two dated within
2025-03-02..2025-03-31 whose category is `Food` are returned, in their order. -/
theorem C1_list_transactions_is_filter_witness :
    (ListTransactions id
      (storeOf [sampleTxn "txn-1" "2025-03-05T12:00:00Z" "10.00" (some "Food") false,
                sampleTxn "txn-2" "2025-03-01T12:00:00Z" "20.00" (some "Food") false,
                sampleTxn "txn-3" "2025-03-09T12:00:00Z" "30.00" (some "Food") true])
      { noFilters with from_ := lit "2025-03-02", to_ := lit "2025-03-31",
                       category := lit "Food" }).map (fun r => r.Transactions)
      = some [sampleTxn "txn-1" "2025-03-05T12:00:00Z" "10.00" (some "Food") false,
              sampleTxn "txn-3" "2025-03-09T12:00:00Z" "30.00" (some "Food") true] := by
  obtain ⟨r, hr, hf⟩ := (C1_list_transactions_is_filter id
      (storeOf [sampleTxn "txn-1" "2025-03-05T12:00:00Z" "10.00" (some "Food") false,
                sampleTxn "txn-2" "2025-03-01T12:00:00Z" "20.00" (some "Food") false,
                sampleTxn "txn-3" "2025-03-09T12:00:00Z" "30.00" (some "Food") true])
      { noFilters with from_ := lit "2025-03-02", to_ := lit "2025-03-31",
                       category := lit "Food" }).2.1 (Or.inr (by decide))
  rw [hr, Option.map_some', hf]
  decide

/-- C4 as stated fails: a transaction whose date string has four bytes makes the
date-range stage panic, so the request with `from=2024-01-01` returns nothing. -/
theorem C4_counterexample :
    ListTransactions id (storeOf [sampleTxn "txn-1" "2024" "1.00" none false])
      { noFilters with from_ := lit "2024-01-01" } = none := by
  decide

/-- C4 (amended): `ListTransactions` returns a sequence and a summary exactly when no
date bound is supplied or every timestamp in the collection has at least ten bytes; in
that case filters that match nothing yield the empty sequence. -/
theorem C4_list_transactions_total_on_dated (ul : Str → Str) (ds : DataStore) (f : Filters) :
    ((∃ r, ListTransactions ul ds f = some r) ↔
      ((f.from_ = [] ∧ f.to_ = []) ∨ ∀ t ∈ ds.transactions, 10 ≤ t.Date.length)) ∧
    (((f.from_ = [] ∧ f.to_ = []) ∨ ∀ t ∈ ds.transactions, 10 ≤ t.Date.length) →
      (∀ t ∈ ds.transactions, specMatches ul f t = false) →
      ∃ r, ListTransactions ul ds f = some r ∧ r.Transactions = []) := by
  have hsome : ((f.from_ = [] ∧ f.to_ = []) ∨ ∀ t ∈ ds.transactions, 10 ≤ t.Date.length) →
      ∃ r, ListTransactions ul ds f = some r ∧
        r.Transactions = ds.transactions.filter (specMatches ul f) := by
    intro hg
    obtain ⟨ts, hts⟩ := filterTransactions_isSome ul f ds.transactions hg
    exact ⟨_, (ListTransactions_eq_some_iff ul ds f _).2 ⟨ts, hts, rfl⟩,
      filterTransactions_eq ul f _ _ hts⟩
  refine ⟨⟨?_, fun hg => ?_⟩, fun hg hno => ?_⟩
  · rintro ⟨r, hr⟩
    by_contra hcon
    push_neg at hcon
    obtain ⟨hft, t, ht, hlt⟩ := hcon
    obtain ⟨ts, hts, -⟩ := (ListTransactions_eq_some_iff ul ds f r).1 hr
    have hd : f.from_ ≠ [] ∨ f.to_ ≠ [] := by
      by_cases h1 : f.from_ = []
      · exact Or.inr (hft h1)
      · exact Or.inl h1
    unfold filterTransactions at hts
    rw [if_pos hd, dateLoop_none_of_short _ _ _ ⟨t, ht, hlt⟩] at hts
    simp at hts
  · obtain ⟨r, hr, -⟩ := hsome hg
    exact ⟨r, hr⟩
  · obtain ⟨r, hr, hf⟩ := hsome hg
    refine ⟨r, hr, ?_⟩
    rw [hf]
    apply List.filter_eq_nil_iff.2
    intro t ht
    simp [hno t ht]

/-- C4 (amended), at a concrete request: every timestamp has at least ten bytes, the
range 2024-01-01..2024-01-01 matches nothing, and the answer is the empty sequence. -/
theorem C4_list_transactions_total_on_dated_witness :
    ∃ r, ListTransactions id
      (storeOf [sampleTxn "txn-1" "2025-03-05T12:00:00Z" "10.00" (some "Food") false])
      { noFilters with from_ := lit "2024-01-01", to_ := lit "2024-01-01" } = some r ∧
      r.Transactions = [] :=
  (C4_list_transactions_total_on_dated id
    (storeOf [sampleTxn "txn-1" "2025-03-05T12:00:00Z" "10.00" (some "Food") false])
    { noFilters with from_ := lit "2024-01-01", to_ := lit "2024-01-01" }).2
      (Or.inr (by decide)) (by decide)

/-! ## C9, C10: the category update -/

theorem updateCategoryLoop_some (txnID category : Str) (ts : List Transaction)
    (h : ∃ t ∈ ts, t.ID = txnID) :
    ∃ pre t post, ts = pre ++ t :: post ∧ t.ID = txnID ∧ (∀ x ∈ pre, x.ID ≠ txnID) ∧
      updateCategoryLoop txnID category ts
        = some (pre ++ { t with Category := some category } :: post,
                { t with Category := some category }) := by
  induction ts with
  | nil => simp at h
  | cons a ts ih =>
    by_cases ha : a.ID = txnID
    · refine ⟨[], a, ts, rfl, ha, by simp, ?_⟩
      simp [updateCategoryLoop, ha]
    · have h' : ∃ t ∈ ts, t.ID = txnID := by
        obtain ⟨t, ht, hid⟩ := h
        rcases List.mem_cons.1 ht with rfl | ht
        · exact absurd hid ha
        · exact ⟨t, ht, hid⟩
      obtain ⟨pre, t, post, hts, hid, hpre, hloop⟩ := ih h'
      refine ⟨a :: pre, t, post, by simp [hts], hid, ?_, ?_⟩
      · intro x hx
        rcases List.mem_cons.1 hx with rfl | hx
        · exact ha
        · exact hpre x hx
      · simp [updateCategoryLoop, ha, hloop]

theorem updateCategoryLoop_none (txnID category : Str) (ts : List Transaction)
    (h : ∀ t ∈ ts, t.ID ≠ txnID) : updateCategoryLoop txnID category ts = none := by
  induction ts with
  | nil => rfl
  | cons a ts ih =>
    have ha : a.ID ≠ txnID := h a (List.mem_cons_self _ _)
    simp [updateCategoryLoop, ha, ih (fun t ht => h t (List.mem_cons_of_mem _ ht))]

/-- C9: when a transaction with the identifier exists, `UpdateTransactionCategory`
answers with the updated record and replaces, in place, only the first transaction with
that identifier by itself with the category set to the given value (present, also when
empty); the record's other fields, the other transactions, their number and order, the
four other collections and the counter are the same as before. -/
theorem C9_update_category_frame (ds : DataStore) (txnID category : Str)
    (h : ∃ t ∈ ds.transactions, t.ID = txnID) :
    ∃ pre t post t',
      ds.transactions = pre ++ t :: post ∧ t.ID = txnID ∧ (∀ x ∈ pre, x.ID ≠ txnID) ∧
      (UpdateTransactionCategory ds txnID category).2 = Except.ok t' ∧
      (UpdateTransactionCategory ds txnID category).1.transactions = pre ++ t' :: post ∧
      t'.Category = some category ∧
      t'.ID = t.ID ∧ t'.AccountID = t.AccountID ∧ t'.Date = t.Date ∧ t'.Amount = t.Amount ∧
      t'.Merchant = t.Merchant ∧ t'.IsIncome = t.IsIncome ∧ t'.Status = t.Status ∧
      (UpdateTransactionCategory ds txnID category).1.transactions.length
        = ds.transactions.length ∧
      (UpdateTransactionCategory ds txnID category).1.accounts = ds.accounts ∧
      (UpdateTransactionCategory ds txnID category).1.budgets = ds.budgets ∧
      (UpdateTransactionCategory ds txnID category).1.goals = ds.goals ∧
      (UpdateTransactionCategory ds txnID category).1.partners = ds.partners ∧
      (UpdateTransactionCategory ds txnID category).1.nextID = ds.nextID := by
  obtain ⟨pre, t, post, hts, hid, hpre, hloop⟩ :=
    updateCategoryLoop_some txnID category ds.transactions h
  refine ⟨pre, t, post, { t with Category := some category }, hts, hid, hpre, ?_⟩
  unfold UpdateTransactionCategory
  rw [hloop]
  simp [hts]

/-- C9, at a concrete store: the second of two transactions gets the empty category. -/
theorem C9_update_category_frame_witness :
    UpdateTransactionCategory
      (storeOf [sampleTxn "txn-1" "2025-03-05T12:00:00Z" "10.00" (some "Food") false,
                sampleTxn "txn-2" "2025-03-01T12:00:00Z" "20.00" (some "Rent") false])
      (lit "txn-2") []
    = (storeOf [sampleTxn "txn-1" "2025-03-05T12:00:00Z" "10.00" (some "Food") false,
                sampleTxn "txn-2" "2025-03-01T12:00:00Z" "20.00" (some "") false],
       Except.ok (sampleTxn "txn-2" "2025-03-01T12:00:00Z" "20.00" (some "") false)) := by
  have h := C9_update_category_frame
    (storeOf [sampleTxn "txn-1" "2025-03-05T12:00:00Z" "10.00" (some "Food") false,
              sampleTxn "txn-2" "2025-03-01T12:00:00Z" "20.00" (some "Rent") false])
    (lit "txn-2") [] (by decide)
  rfl

/-- C10: after `UpdateTransactionCategory(id, "")` on a store holding a transaction with
that identifier, the updated record is in the store, no answer of `ListTransactions` with
a non-empty category filter contains it, and every answer to a request whose category
filter is empty, whose date and account filters it passes and whose lower-cased query
occurs in its lower-cased merchant contains it; such an answer exists when the query is
the only filter. -/
theorem C10_cleared_category_filtering (ul : Str → Str) (ds : DataStore) (txnID : Str)
    (h : ∃ t ∈ ds.transactions, t.ID = txnID) :
    ∃ t', (UpdateTransactionCategory ds txnID []).2 = Except.ok t' ∧
      t' ∈ (UpdateTransactionCategory ds txnID []).1.transactions ∧
      t'.ID = txnID ∧ t'.Category = some [] ∧
      (∀ f r, f.category ≠ [] →
        ListTransactions ul (UpdateTransactionCategory ds txnID []).1 f = some r →
        t' ∉ r.Transactions) ∧
      (∀ f r m, t'.Merchant = some m →
        Contains (ToLower ul m) (ToLower ul f.q) = true →
        f.category = [] →
        (f.accountId = [] ∨ t'.AccountID = f.accountId) →
        (f.from_ = [] ∨ strLt (t'.Date.take 10) f.from_ = false) →
        (f.to_ = [] ∨ strLt f.to_ (t'.Date.take 10) = false) →
        ListTransactions ul (UpdateTransactionCategory ds txnID []).1 f = some r →
        t' ∈ r.Transactions) ∧
      (∀ q m, t'.Merchant = some m → Contains (ToLower ul m) (ToLower ul q) = true →
        ∃ r, ListTransactions ul (UpdateTransactionCategory ds txnID []).1
               { noFilters with q := q } = some r ∧ t' ∈ r.Transactions) := by
  obtain ⟨pre, t, post, hts, hid, hpre, hloop⟩ :=
    updateCategoryLoop_some txnID [] ds.transactions h
  have hst : (UpdateTransactionCategory ds txnID []).1.transactions
      = pre ++ { t with Category := some [] } :: post := by
    simp [UpdateTransactionCategory, hloop]
  have hmem : { t with Category := some [] } ∈
      (UpdateTransactionCategory ds txnID []).1.transactions := by
    rw [hst]; simp
  have hfil : ∀ f r, ListTransactions ul (UpdateTransactionCategory ds txnID []).1 f = some r →
      r.Transactions = (UpdateTransactionCategory ds txnID []).1.transactions.filter
        (specMatches ul f) := by
    intro f r hr
    obtain ⟨ts, hts', rfl⟩ := (ListTransactions_eq_some_iff ul _ f r).1 hr
    exact filterTransactions_eq ul f _ _ hts'
  have hpass : ∀ (f : Filters) m, t.Merchant = some m →
      Contains (ToLower ul m) (ToLower ul f.q) = true →
      f.category = [] →
      (f.accountId = [] ∨ t.AccountID = f.accountId) →
      (f.from_ = [] ∨ strLt (t.Date.take 10) f.from_ = false) →
      (f.to_ = [] ∨ strLt f.to_ (t.Date.take 10) = false) →
      specMatches ul f { t with Category := some [] } = true := by
    intro f m hm hq hc ha hfr hto
    unfold specMatches
    simp only [hm, hq, hc, decide_True, Bool.true_or, Bool.or_true, Bool.and_true]
    rcases ha with ha | ha <;> rcases hfr with hfr | hfr <;> rcases hto with hto | hto <;>
      simp [ha, hfr, hto]
  refine ⟨{ t with Category := some [] }, ?_, hmem, hid, rfl, ?_, ?_, ?_⟩
  · simp [UpdateTransactionCategory, hloop]
  · intro f r hc hr hin
    rw [hfil f r hr] at hin
    have := (List.mem_filter.1 hin).2
    unfold specMatches at this
    simp only [Bool.and_eq_true, Bool.or_eq_true, decide_eq_true_eq] at this
    rcases this.1.2 with h1 | h1
    · exact hc h1
    · simp only [Option.some.injEq] at h1
      exact hc h1.symm
  · intro f r m hm hq hc ha hfr hto hr
    rw [hfil f r hr]
    exact List.mem_filter.2 ⟨hmem, hpass f m hm hq hc ha hfr hto⟩
  · intro q m hm hq
    obtain ⟨ts, hts'⟩ := filterTransactions_isSome ul { noFilters with q := q }
      (UpdateTransactionCategory ds txnID []).1.transactions (Or.inl ⟨rfl, rfl⟩)
    have hr := (ListTransactions_eq_some_iff ul (UpdateTransactionCategory ds txnID []).1
      { noFilters with q := q } _).2 ⟨ts, hts', rfl⟩
    refine ⟨_, hr, ?_⟩
    rw [hfil _ _ hr]
    exact List.mem_filter.2 ⟨hmem, hpass { noFilters with q := q } m hm hq rfl (Or.inl rfl)
      (Or.inl rfl) (Or.inl rfl)⟩

/-- C10, at a concrete store: after clearing the category of `txn-1` the request
`category=Food` no longer returns it and the request `q=WHOLE` does. -/
theorem C10_cleared_category_filtering_witness :
    ((ListTransactions id
        (UpdateTransactionCategory
          (storeOf [sampleTxn "txn-1" "2025-03-05T12:00:00Z" "10.00" (some "Food") false])
          (lit "txn-1") []).1
        { noFilters with category := lit "Food" }).map (fun r => r.Transactions) = some []) ∧
    ((ListTransactions id
        (UpdateTransactionCategory
          (storeOf [sampleTxn "txn-1" "2025-03-05T12:00:00Z" "10.00" (some "Food") false])
          (lit "txn-1") []).1
        { noFilters with q := lit "WHOLE" }).map (fun r => r.Transactions)
      = some [sampleTxn "txn-1" "2025-03-05T12:00:00Z" "10.00" (some "") false]) := by
  have h := C10_cleared_category_filtering id
    (storeOf [sampleTxn "txn-1" "2025-03-05T12:00:00Z" "10.00" (some "Food") false])
    (lit "txn-1") (by decide)
  decide

/-! ## C6: failing requests leave the store unchanged -/

theorem acceptLoop_none (partnerID now : Str) (ps : List Partner)
    (h : ∀ p ∈ ps, p.ID ≠ partnerID) : acceptLoop partnerID now ps = none := by
  induction ps with
  | nil => rfl
  | cons a ps ih =>
    have ha : a.ID ≠ partnerID := h a (List.mem_cons_self _ _)
    simp [acceptLoop, ha, ih (fun p hp => h p (List.mem_cons_of_mem _ hp))]

theorem removeLoop_none (partnerID : Str) (ps : List Partner)
    (h : ∀ p ∈ ps, p.ID ≠ partnerID) : removeLoop partnerID ps = none := by
  induction ps with
  | nil => rfl
  | cons a ps ih =>
    have ha : a.ID ≠ partnerID := h a (List.mem_cons_self _ _)
    simp [removeLoop, ha, ih (fun p hp => h p (List.mem_cons_of_mem _ hp))]

theorem partnerExists_iff (ps : List Partner) (email : Str) :
    partnerExists ps email = true ↔
      ∃ p ∈ ps, p.Email = email ∧ p.HouseholdID = lit "household-1" := by
  simp [partnerExists, List.any_eq_true]

/-- A request that answers with an error returns the store it was given. -/
theorem apply_of_fails (ds : DataStore) (op : Op) (h : op.fails ds = true) :
    op.apply ds = ds := by
  cases op with
  | updateCategory txnID category =>
    simp only [Op.fails, Op.apply, UpdateTransactionCategory] at h ⊢
    cases hl : updateCategoryLoop txnID category ds.transactions with
    | none => rfl
    | some x => obtain ⟨ts, r⟩ := x; simp [hl, Except.toBool] at h
  | createBudget month category limitAmount =>
    simp only [Op.fails, Op.apply, CreateBudget] at h ⊢
    split_ifs at h ⊢ with hc
    · rfl
    · simp [Except.toBool] at h
  | createGoal name targetAmount targetDate =>
    simp only [Op.fails, Op.apply, CreateGoal] at h ⊢
    split_ifs at h ⊢ with hc
    · rfl
    · simp [Except.toBool] at h
  | invite now email =>
    simp only [Op.fails, Op.apply, InvitePartner] at h ⊢
    split_ifs at h ⊢ with hc hd
    · rfl
    · rfl
    · simp [Except.toBool] at h
  | accept now partnerID =>
    simp only [Op.fails, Op.apply, AcceptPartnerInvite] at h ⊢
    cases hl : acceptLoop partnerID now ds.partners with
    | none => rfl
    | some x => obtain ⟨ps, r⟩ := x; simp [hl, Except.toBool] at h
  | remove partnerID =>
    simp only [Op.fails, Op.apply, RemovePartnerLink] at h ⊢
    cases hl : removeLoop partnerID ds.partners with
    | none => rfl
    | some x => simp [hl, Except.toBool] at h

/-- C6: every failing mutator call returns its error together with the store it was
given (all five collections and the counter): `CreateBudget`, `CreateGoal` and
`InvitePartner` with an empty required field answer 400, `InvitePartner` with a non-empty
email already linked in the household answers 409, `UpdateTransactionCategory`,
`AcceptPartnerInvite` and `RemovePartnerLink` with an identifier not in the collection
answer 404 (the partner collection keeps its length); and generally whenever a request
answers with an error the store is the same as before. -/
theorem C6_failed_request_leaves_store (ds : DataStore) :
    (∀ month category limitAmount, (month = [] ∨ category = [] ∨ limitAmount = []) →
      CreateBudget ds month category limitAmount = (ds, Except.error ApiError.BadRequest)) ∧
    (∀ name targetAmount targetDate, (name = [] ∨ targetAmount = [] ∨ targetDate = []) →
      CreateGoal ds name targetAmount targetDate = (ds, Except.error ApiError.BadRequest)) ∧
    (∀ now, InvitePartner ds now [] = (ds, Except.error ApiError.BadRequest)) ∧
    (∀ now email, email ≠ [] →
      (∃ p ∈ ds.partners, p.Email = email ∧ p.HouseholdID = lit "household-1") →
      InvitePartner ds now email = (ds, Except.error ApiError.Conflict)) ∧
    (∀ txnID category, (∀ t ∈ ds.transactions, t.ID ≠ txnID) →
      UpdateTransactionCategory ds txnID category = (ds, Except.error ApiError.NotFound)) ∧
    (∀ now partnerID, (∀ p ∈ ds.partners, p.ID ≠ partnerID) →
      AcceptPartnerInvite ds now partnerID = (ds, Except.error ApiError.NotFound)) ∧
    (∀ partnerID, (∀ p ∈ ds.partners, p.ID ≠ partnerID) →
      RemovePartnerLink ds partnerID = (ds, Except.error ApiError.NotFound) ∧
      (RemovePartnerLink ds partnerID).1.partners.length = ds.partners.length) ∧
    (∀ op : Op, op.fails ds = true → op.apply ds = ds) := by
  refine ⟨?_, ?_, ?_, ?_, ?_, ?_, ?_, ?_⟩
  · intro month category limitAmount h
    simp [CreateBudget, h]
  · intro name targetAmount targetDate h
    simp [CreateGoal, h]
  · intro now
    simp [InvitePartner]
  · intro now email he hex
    have := (partnerExists_iff ds.partners email).2 hex
    simp [InvitePartner, he, this]
  · intro txnID category h
    simp [UpdateTransactionCategory, updateCategoryLoop_none txnID category _ h]
  · intro now partnerID h
    simp [AcceptPartnerInvite, acceptLoop_none partnerID now _ h]
  · intro partnerID h
    simp [RemovePartnerLink, removeLoop_none partnerID _ h]
  · exact fun op h => apply_of_fails ds op h

/-- C6, on the seeded store of the sample clock: removing the absent link `partner-9`
answers 404 and the store, with its two partner links, is the same as before. -/
theorem C6_failed_request_leaves_store_witness :
    RemovePartnerLink (NewDataStore sampleClock) (lit "partner-9")
      = (NewDataStore sampleClock, Except.error ApiError.NotFound) ∧
    (RemovePartnerLink (NewDataStore sampleClock) (lit "partner-9")).1.partners.length = 2 := by
  have h := (C6_failed_request_leaves_store (NewDataStore sampleClock)).2.2.2.2.2.2.1
    (lit "partner-9") (by decide)
  exact ⟨h.1, by rw [h.2]; rfl⟩

/-! ## C7: one link per email in a household -/

theorem acceptLoop_some (partnerID now : Str) (ps ps' : List Partner) (r : Partner)
    (h : acceptLoop partnerID now ps = some (ps', r)) :
    ∃ pre p post, ps = pre ++ p :: post ∧ p.ID = partnerID ∧ (∀ x ∈ pre, x.ID ≠ partnerID) ∧
      r = { p with Status := lit "active", AcceptedAt := now } ∧ ps' = pre ++ r :: post := by
  induction ps generalizing ps' r with
  | nil => simp [acceptLoop] at h
  | cons a ps ih =>
    unfold acceptLoop at h
    by_cases ha : a.ID = partnerID
    · rw [if_pos ha] at h
      simp only [Option.some.injEq, Prod.mk.injEq] at h
      exact ⟨[], a, ps, rfl, ha, by simp, h.2.symm, by rw [← h.1, ← h.2]; rfl⟩
    · rw [if_neg ha] at h
      cases hl : acceptLoop partnerID now ps with
      | none => simp [hl] at h
      | some x =>
        obtain ⟨qs, r'⟩ := x
        simp only [hl, Option.some.injEq, Prod.mk.injEq] at h
        obtain ⟨pre, p, post, hps, hid, hpre, hr, hqs⟩ := ih qs r' hl
        refine ⟨a :: pre, p, post, by simp [hps], hid, ?_, by rw [← h.2]; exact hr, ?_⟩
        · intro x hx
          rcases List.mem_cons.1 hx with rfl | hx
          · exact ha
          · exact hpre x hx
        · rw [← h.1, ← h.2, hqs]; rfl

theorem removeLoop_some (partnerID : Str) (ps ps' : List Partner)
    (h : removeLoop partnerID ps = some ps') :
    ∃ pre p post, ps = pre ++ p :: post ∧ p.ID = partnerID ∧ (∀ x ∈ pre, x.ID ≠ partnerID) ∧
      ps' = pre ++ post := by
  induction ps generalizing ps' with
  | nil => simp [removeLoop] at h
  | cons a ps ih =>
    unfold removeLoop at h
    by_cases ha : a.ID = partnerID
    · rw [if_pos ha] at h
      simp only [Option.some.injEq] at h
      exact ⟨[], a, ps, rfl, ha, by simp, by rw [← h]; rfl⟩
    · rw [if_neg ha] at h
      cases hl : removeLoop partnerID ps with
      | none => simp [hl] at h
      | some qs =>
        simp only [hl, Option.some.injEq] at h
        obtain ⟨pre, p, post, hps, hid, hpre, hqs⟩ := ih qs hl
        refine ⟨a :: pre, p, post, by simp [hps], hid, ?_, by rw [← h, hqs]; rfl⟩
        intro x hx
        rcases List.mem_cons.1 hx with rfl | hx
        · exact ha
        · exact hpre x hx

/-- What a request can do to the partner collection: nothing, append a fresh invited
link, re-stamp one link as active, or drop one link. -/
theorem apply_partners_cases (ds : DataStore) (op : Op) :
    (op.apply ds).partners = ds.partners ∨
    (∃ now email, email ≠ [] ∧ partnerExists ds.partners email = false ∧
      op = Op.invite now email ∧
      (op.apply ds).partners = ds.partners ++ [newPartner (getNextID ds).1 email now]) ∨
    (∃ pre p post now, ds.partners = pre ++ p :: post ∧ op = Op.accept now p.ID ∧
      (∀ x ∈ pre, x.ID ≠ p.ID) ∧
      (op.apply ds).partners
        = pre ++ { p with Status := lit "active", AcceptedAt := now } :: post) ∨
    (∃ pre p post, ds.partners = pre ++ p :: post ∧ op = Op.remove p.ID ∧
      (∀ x ∈ pre, x.ID ≠ p.ID) ∧ (op.apply ds).partners = pre ++ post) := by
  cases op with
  | updateCategory txnID category =>
    left
    simp only [Op.apply, UpdateTransactionCategory]
    cases updateCategoryLoop txnID category ds.transactions <;> rfl
  | createBudget month category limitAmount =>
    left
    simp only [Op.apply, CreateBudget]
    split_ifs <;> rfl
  | createGoal name targetAmount targetDate =>
    left
    simp only [Op.apply, CreateGoal]
    split_ifs <;> rfl
  | invite now email =>
    simp only [Op.apply, InvitePartner]
    split_ifs with hc hd
    · exact Or.inl rfl
    · exact Or.inl rfl
    · right; left
      exact ⟨now, email, hc, by simpa using hd, rfl, rfl⟩
  | accept now partnerID =>
    simp only [Op.apply, AcceptPartnerInvite]
    cases hl : acceptLoop partnerID now ds.partners with
    | none => exact Or.inl rfl
    | some x =>
      obtain ⟨ps, r⟩ := x
      obtain ⟨pre, p, post, hps, hid, hpre, hr, hqs⟩ := acceptLoop_some _ _ _ _ _ hl
      right; right; left
      subst hid
      exact ⟨pre, p, post, now, hps, rfl, hpre, by rw [hqs, hr]⟩
  | remove partnerID =>
    simp only [Op.apply, RemovePartnerLink]
    cases hl : removeLoop partnerID ds.partners with
    | none => exact Or.inl rfl
    | some ps =>
      obtain ⟨pre, p, post, hps, hid, hpre, hqs⟩ := removeLoop_some _ _ _ hl
      right; right; right
      subst hid
      exact ⟨pre, p, post, hps, rfl, hpre, hqs⟩

/-- In every reachable store all links belong to `household-1`, have a non-empty email,
and no email occurs twice. -/
theorem reachable_partner_emails (clock : SeedClock) (ds : DataStore)
    (h : Reachable clock ds) :
    (∀ p ∈ ds.partners, p.HouseholdID = lit "household-1" ∧ p.Email ≠ []) ∧
    (ds.partners.map Partner.Email).Nodup := by
  induction h with
  | seeded =>
    refine ⟨?_, ?_⟩
    · intro p hp
      simp only [NewDataStore, seedData, seedPartners, List.mem_cons, List.mem_singleton,
        List.not_mem_nil, or_false] at hp
      rcases hp with rfl | rfl
      · exact ⟨rfl, List.cons_ne_nil _ _⟩
      · exact ⟨rfl, List.cons_ne_nil _ _⟩
    · simp only [NewDataStore, seedData, seedPartners, List.map_cons, List.map_nil]
      decide
  | step ds op _ ih =>
    obtain ⟨ih1, ih2⟩ := ih
    rcases apply_partners_cases ds op with hp | ⟨now, email, he, hne, -, hp⟩ |
      ⟨pre, p, post, now, hds, -, -, hp⟩ | ⟨pre, p, post, hds, -, -, hp⟩
    · rw [hp]; exact ⟨ih1, ih2⟩
    · rw [hp]
      refine ⟨?_, ?_⟩
      · intro x hx
        rcases List.mem_append.1 hx with hx | hx
        · exact ih1 x hx
        · rw [List.mem_singleton] at hx
          subst hx
          exact ⟨rfl, he⟩
      · rw [List.map_append, List.nodup_append]
        refine ⟨ih2, by simp, ?_⟩
        intro e he1 he2
        simp only [List.map_cons, List.map_nil, List.mem_singleton] at he2
        obtain ⟨x, hx, hxe⟩ := List.mem_map.1 he1
        have : partnerExists ds.partners email = true :=
          (partnerExists_iff _ _).2 ⟨x, hx, by rw [hxe, he2]; rfl, (ih1 x hx).1⟩
        rw [hne] at this
        exact Bool.noConfusion this
    · rw [hp]
      rw [hds] at ih1 ih2
      refine ⟨?_, ?_⟩
      · intro x hx
        rcases List.mem_append.1 hx with hx | hx
        · exact ih1 x (List.mem_append_left _ hx)
        · rcases List.mem_cons.1 hx with rfl | hx
          · exact ih1 p (List.mem_append_right _ (List.mem_cons_self _ _))
          · exact ih1 x (List.mem_append_right _ (List.mem_cons_of_mem _ hx))
      · simpa using ih2
    · rw [hp]
      rw [hds] at ih1 ih2
      refine ⟨?_, ?_⟩
      · intro x hx
        rcases List.mem_append.1 hx with hx | hx
        · exact ih1 x (List.mem_append_left _ hx)
        · exact ih1 x (List.mem_append_right _ (List.mem_cons_of_mem _ hx))
      · have hsub : (pre ++ post).Sublist (pre ++ p :: post) :=
          List.Sublist.append_left (List.sublist_cons_self p post) pre
        exact List.Nodup.sublist (List.Sublist.map _ hsub) ih2

/-- C7: in every reachable store no two links of one household have the same email; and
`InvitePartner` with the email of any existing link, whatever that link's status,
answers 409, returns the store as it was and leaves the length of `ListPartners`
unchanged. -/
theorem C7_partner_email_unique (clock : SeedClock) (ds : DataStore)
    (h : Reachable clock ds) :
    ds.partners.Pairwise (fun p q => p.HouseholdID = q.HouseholdID → p.Email ≠ q.Email) ∧
    (∀ p ∈ ds.partners, ∀ now,
      InvitePartner ds now p.Email = (ds, Except.error ApiError.Conflict) ∧
      (ListPartners (InvitePartner ds now p.Email).1).length = (ListPartners ds).length) := by
  obtain ⟨h1, h2⟩ := reachable_partner_emails clock ds h
  refine ⟨?_, ?_⟩
  · have := (List.pairwise_map (f := Partner.Email) (R := fun a b => a ≠ b)).1 h2
    refine List.Pairwise.imp ?_ this
    intro a b hne _
    exact hne
  · intro p hp now
    have hex : partnerExists ds.partners p.Email = true :=
      (partnerExists_iff _ _).2 ⟨p, hp, rfl, (h1 p hp).1⟩
    have hc : InvitePartner ds now p.Email = (ds, Except.error ApiError.Conflict) := by
      simp [InvitePartner, (h1 p hp).2, hex]
    exact ⟨hc, by rw [hc]⟩

/-- C7, after one invitation on the seeded store of the sample clock: inviting
`new@example.com` a second time answers 409 and creates nothing. -/
theorem C7_partner_email_unique_witness :
    InvitePartner
      (InvitePartner (NewDataStore sampleClock) (lit "2025-03-15T12:00:00Z")
        (lit "new@example.com")).1
      (lit "2025-03-15T12:05:00Z") (lit "new@example.com")
    = ((InvitePartner (NewDataStore sampleClock) (lit "2025-03-15T12:00:00Z")
        (lit "new@example.com")).1, Except.error ApiError.Conflict) :=
  ((C7_partner_email_unique sampleClock
    ((Op.invite (lit "2025-03-15T12:00:00Z") (lit "new@example.com")).apply
      (NewDataStore sampleClock))
    (Reachable.step _ _ Reachable.seeded)).2
    (newPartner (lit "id-1") (lit "new@example.com") (lit "2025-03-15T12:00:00Z"))
    (by decide) (lit "2025-03-15T12:05:00Z")).1

/-! ## C5: identifiers -/

theorem natToDecAux_eq_digits (fuel n : Nat) (acc : Str) (hf : n < fuel) (hn : 0 < n) :
    natToDecAux fuel n acc = ((Nat.digits 10 n).reverse.map (fun d => 48 + d)) ++ acc := by
  induction fuel generalizing n acc with
  | zero => omega
  | succ fuel ih =>
    unfold natToDecAux
    by_cases h10 : n < 10
    · rw [if_pos h10, Nat.digits_of_lt 10 n (by omega) h10]
      rfl
    · rw [if_neg h10, ih (n / 10) _ (by omega) (by omega),
        Nat.digits_def' (by norm_num) hn]
      simp

theorem natToDec_eq_digits (n : Nat) (hn : 0 < n) :
    natToDec n = (Nat.digits 10 n).reverse.map (fun d => 48 + d) := by
  unfold natToDec
  rw [natToDecAux_eq_digits (n + 1) n [] (by omega) hn, List.append_nil]

theorem natToDec_injective (m n : Nat) (h : natToDec m = natToDec n) : m = n := by
  have hmap : Function.Injective (fun d : Nat => 48 + d) := fun a b hab => by
    simp only at hab; omega
  have hz : ∀ k, 0 < k → natToDec 0 ≠ natToDec k := by
    intro k hk h0
    rw [natToDec_eq_digits k hk] at h0
    have h1 : natToDec 0 = [48] := rfl
    rw [h1] at h0
    have h2 : ((Nat.digits 10 k).reverse.map (fun d => 48 + d)) = [0].map (fun d => 48 + d) := by
      rw [← h0]; rfl
    have h3 := List.map_injective_iff.2 hmap h2
    have h4 : Nat.digits 10 k = [0] := by
      have := congrArg List.reverse h3
      simpa using this
    have h5 := Nat.getLast_digit_ne_zero 10 (Nat.pos_iff_ne_zero.1 hk)
    simp [h4] at h5
  rcases Nat.eq_zero_or_pos m with hm | hm <;> rcases Nat.eq_zero_or_pos n with hn | hn
  · rw [hm, hn]
  · subst hm; exact absurd h (hz n hn)
  · subst hn; exact absurd h.symm (hz m hm)
  · rw [natToDec_eq_digits m hm, natToDec_eq_digits n hn] at h
    have h3 := List.map_injective_iff.2 hmap h
    have h4 := List.reverse_injective h3
    exact Nat.digits_inj_iff.1 h4

/-- Distinct non-negative counter values give distinct identifiers. -/
theorem idOf_injective (a b : Int) (ha : 0 ≤ a) (hb : 0 ≤ b) (h : idOf a = idOf b) : a = b := by
  unfold idOf intToDec at h
  rw [if_neg (by omega), if_neg (by omega)] at h
  have := natToDec_injective _ _ (List.append_cancel_left h)
  omega

theorem idOf_head (k : Int) : (idOf k).head? = some 105 := rfl

theorem wrapInt64_succ (n : Int) (h0 : 0 ≤ n) (h1 : n + 1 < 2 ^ 63) : wrapInt64 (n + 1) = n + 1 := by
  unfold wrapInt64
  norm_num at h1 ⊢
  omega

theorem run_append (ds : DataStore) (xs ys : List Op) :
    run ds (xs ++ ys) = run (run ds xs) ys := by
  induction xs generalizing ds with
  | nil => rfl
  | cons x xs ih => exact ih _

/-- The store after a run from the seeded store is reachable. -/
theorem reachable_run (clock : SeedClock) (ops : List Op) :
    Reachable clock (run (NewDataStore clock) ops) := by
  have key : ∀ (ops : List Op) (ds : DataStore), Reachable clock ds →
      Reachable clock (run ds ops) := by
    intro ops
    induction ops with
    | nil => exact fun _ h => h
    | cons op ops ih => exact fun ds h => ih _ (Reachable.step ds op h)
  exact key ops _ Reachable.seeded

theorem issuedIDs_append (ds : DataStore) (xs ys : List Op) :
    issuedIDs ds (xs ++ ys) = issuedIDs ds xs ++ issuedIDs (run ds xs) ys := by
  induction xs generalizing ds with
  | nil => rfl
  | cons x xs ih =>
    show (x.issued ds).toList ++ issuedIDs (x.apply ds) (xs ++ ys) = _
    rw [ih]
    simp only [issuedIDs, run, List.append_assoc]

/-- What one request does to the counter and to the identifiers of the three growing
collections: either no identifier is issued, the counter, the budgets and the goals stay
and the link identifiers are a sublist of the former ones; or the identifier of the
current counter value is issued, the counter is incremented, and one collection gets
one record with that identifier appended. -/
theorem apply_shape (ds : DataStore) (op : Op) :
    (op.issued ds = none ∧ (op.apply ds).nextID = ds.nextID ∧
      (op.apply ds).budgets = ds.budgets ∧ (op.apply ds).goals = ds.goals ∧
      ((op.apply ds).partners.map Partner.ID).Sublist (ds.partners.map Partner.ID)) ∨
    (op.issued ds = some (idOf ds.nextID) ∧
      (op.apply ds).nextID = wrapInt64 (ds.nextID + 1) ∧
      (((op.apply ds).budgets.map Budget.ID = ds.budgets.map Budget.ID ++ [idOf ds.nextID] ∧
          (op.apply ds).goals = ds.goals ∧ (op.apply ds).partners = ds.partners) ∨
       ((op.apply ds).budgets = ds.budgets ∧
          (op.apply ds).goals.map Goal.ID = ds.goals.map Goal.ID ++ [idOf ds.nextID] ∧
          (op.apply ds).partners = ds.partners) ∨
       ((op.apply ds).budgets = ds.budgets ∧ (op.apply ds).goals = ds.goals ∧
          (op.apply ds).partners.map Partner.ID
            = ds.partners.map Partner.ID ++ [idOf ds.nextID]))) := by
  cases op with
  | updateCategory txnID category =>
    left
    simp only [Op.apply, Op.issued, UpdateTransactionCategory]
    cases updateCategoryLoop txnID category ds.transactions <;> simp
  | createBudget month category limitAmount =>
    simp only [Op.apply, Op.issued, CreateBudget]
    split_ifs with hc
    · left; simp
    · right
      simp [getNextID, idOf]
  | createGoal name targetAmount targetDate =>
    simp only [Op.apply, Op.issued, CreateGoal]
    split_ifs with hc
    · left; simp
    · right
      simp [getNextID, idOf]
  | invite now email =>
    simp only [Op.apply, Op.issued, InvitePartner]
    split_ifs with hc hd
    · left; simp
    · left; simp
    · right
      simp [getNextID, idOf, newPartner]
  | accept now partnerID =>
    left
    simp only [Op.apply, Op.issued, AcceptPartnerInvite]
    cases hl : acceptLoop partnerID now ds.partners with
    | none => simp
    | some x =>
      obtain ⟨ps, r⟩ := x
      obtain ⟨pre, p, post, hps, -, -, hr, hqs⟩ := acceptLoop_some _ _ _ _ _ hl
      simp [hqs, hps, hr]
  | remove partnerID =>
    left
    simp only [Op.apply, Op.issued, RemovePartnerLink]
    cases hl : removeLoop partnerID ds.partners with
    | none => simp
    | some ps =>
      obtain ⟨pre, p, post, hps, -, -, hqs⟩ := removeLoop_some _ _ _ hl
      simp only [hqs, hps, true_and]
      exact List.Sublist.map _ (List.Sublist.append_left (List.sublist_cons_self p post) pre)

/-- Below the overflow of the counter, the identifiers issued during a run are those of
the consecutive counter values starting at the current one. -/
theorem run_issued (ops : List Op) (ds : DataStore) (h0 : 0 ≤ ds.nextID)
    (hb : ds.nextID + (issuedIDs ds ops).length < 2 ^ 63) :
    (run ds ops).nextID = ds.nextID + (issuedIDs ds ops).length ∧
    issuedIDs ds ops
      = (List.range (issuedIDs ds ops).length).map (fun j : Nat => idOf (ds.nextID + j)) := by
  induction ops generalizing ds with
  | nil => simp [run, issuedIDs]
  | cons op ops ih =>
    have hi : issuedIDs ds (op :: ops) = (op.issued ds).toList ++ issuedIDs (op.apply ds) ops :=
      rfl
    rcases apply_shape ds op with ⟨hn, hid, -⟩ | ⟨hs, hid, -⟩
    · have hi' : issuedIDs ds (op :: ops) = issuedIDs (op.apply ds) ops := by
        rw [hi, hn]; rfl
      rw [hi'] at hb ⊢
      have := ih (op.apply ds) (by rw [hid]; exact h0) (by rw [hid]; exact hb)
      rw [hid] at this
      exact this
    · have hi' : issuedIDs ds (op :: ops) = idOf ds.nextID :: issuedIDs (op.apply ds) ops := by
        rw [hi, hs]; rfl
      rw [hi'] at hb ⊢
      simp only [List.length_cons, Nat.cast_add, Nat.cast_one] at hb
      have hw : (op.apply ds).nextID = ds.nextID + 1 := by
        rw [hid]; exact wrapInt64_succ _ h0 (by omega)
      have := ih (op.apply ds) (by rw [hw]; omega) (by rw [hw]; omega)
      rw [hw] at this
      refine ⟨?_, ?_⟩
      · show (run (op.apply ds) ops).nextID = _
        rw [this.1]
        simp only [List.length_cons, Nat.cast_add, Nat.cast_one]
        ring
      · rw [List.length_cons, List.range_succ_eq_map, List.map_cons, List.map_map]
        congr 1
        · simp
        · rw [this.2, List.length_map, List.length_range]
          apply List.map_congr_left
          intro j _
          simp only [Function.comp, Nat.cast_succ]
          congr 1
          ring

theorem issued_nodup (n : Int) (m : Nat) (h0 : 0 ≤ n) :
    ((List.range m).map (fun j : Nat => idOf (n + j))).Nodup := by
  apply List.Nodup.map_on _ (List.nodup_range m)
  intro a _ b _ hab
  have := idOf_injective _ _ (by omega) (by omega) hab
  omega

/-- One request keeps `IdsInv`, provided the counter does not overflow when it is
incremented. -/
theorem IdsInv_step (ds : DataStore) (op : Op) (h : IdsInv ds)
    (hb : op.issued ds ≠ none → ds.nextID + 1 < 2 ^ 63) : IdsInv (op.apply ds) := by
  obtain ⟨h1, hmem, hnb, hng, hnp⟩ := h
  have hfresh : ∀ l : List Str,
      (∀ id ∈ l, id.head? ≠ some 105 ∨ ∃ k : Int, 1 ≤ k ∧ k < ds.nextID ∧ id = idOf k) →
      idOf ds.nextID ∉ l := by
    intro l hl hin
    rcases hl _ hin with hh | ⟨k, hk1, hk2, hk⟩
    · exact hh (idOf_head _)
    · have := idOf_injective _ _ (by omega) (by omega) hk
      omega
  rcases apply_shape ds op with ⟨-, hid, hbud, hgo, hpa⟩ | ⟨hs, hid, hcase⟩
  · refine ⟨by rw [hid]; exact h1, ?_, by rw [hbud]; exact hnb, by rw [hgo]; exact hng,
      List.Nodup.sublist hpa hnp⟩
    intro id hin
    rw [hid, hbud, hgo] at *
    apply hmem
    simp only [List.mem_append] at hin ⊢
    rcases hin with (hin | hin) | hin
    · exact Or.inl (Or.inl hin)
    · exact Or.inl (Or.inr hin)
    · exact Or.inr (hpa.subset hin)
  · have hlt : ds.nextID + 1 < 2 ^ 63 := hb (by rw [hs]; simp)
    have hw : (op.apply ds).nextID = ds.nextID + 1 := by
      rw [hid]; exact wrapInt64_succ _ (by omega) hlt
    have hold : ∀ id ∈ ds.budgets.map Budget.ID ++ ds.goals.map Goal.ID
        ++ ds.partners.map Partner.ID,
        id.head? ≠ some 105 ∨ ∃ k : Int, 1 ≤ k ∧ k < ds.nextID + 1 ∧ id = idOf k := by
      intro id hin
      rcases hmem id hin with hh | ⟨k, hk1, hk2, hk⟩
      · exact Or.inl hh
      · exact Or.inr ⟨k, hk1, by omega, hk⟩
    have hnew : (idOf ds.nextID).head? ≠ some 105 ∨
        ∃ k : Int, 1 ≤ k ∧ k < ds.nextID + 1 ∧ idOf ds.nextID = idOf k :=
      Or.inr ⟨ds.nextID, h1, by omega, rfl⟩
    have hmemb := fun id hin => hmem id (List.mem_append_left _ (List.mem_append_left _ hin))
    have hmemg := fun id hin => hmem id (List.mem_append_left _ (List.mem_append_right _ hin))
    have hmemp := fun id hin => hmem id (List.mem_append_right _ hin)
    rcases hcase with ⟨e1, e2, e3⟩ | ⟨e1, e2, e3⟩ | ⟨e1, e2, e3⟩
    · refine ⟨by rw [hw]; omega, ?_, ?_, by rw [e2]; exact hng, by rw [e3]; exact hnp⟩
      · intro id hin
        rw [hw, e1, e2, e3] at *
        simp only [List.mem_append, List.mem_singleton] at hin
        rcases hin with ((hin | hin) | hin) | hin
        · exact hold id (by simp [hin])
        · rw [hin]; exact hnew
        · exact hold id (by simp [hin])
        · exact hold id (by simp [hin])
      · rw [e1]
        exact List.Nodup.append hnb (List.nodup_singleton _)
          (by
            intro x hx hx'
            rw [List.mem_singleton] at hx'
            subst hx'
            exact hfresh _ hmemb hx)
    · refine ⟨by rw [hw]; omega, ?_, by rw [e1]; exact hnb, ?_, by rw [e3]; exact hnp⟩
      · intro id hin
        rw [hw, e1, e2, e3] at *
        simp only [List.mem_append, List.mem_singleton] at hin
        rcases hin with (hin | (hin | hin)) | hin
        · exact hold id (by simp [hin])
        · exact hold id (by simp [hin])
        · rw [hin]; exact hnew
        · exact hold id (by simp [hin])
      · rw [e2]
        exact List.Nodup.append hng (List.nodup_singleton _)
          (by
            intro x hx hx'
            rw [List.mem_singleton] at hx'
            subst hx'
            exact hfresh _ hmemg hx)
    · refine ⟨by rw [hw]; omega, ?_, by rw [e1]; exact hnb, by rw [e2]; exact hng, ?_⟩
      · intro id hin
        rw [hw, e1, e2, e3] at *
        simp only [List.mem_append, List.mem_singleton] at hin
        rcases hin with (hin | hin) | (hin | hin)
        · exact hold id (by simp [hin])
        · exact hold id (by simp [hin])
        · exact hold id (by simp [hin])
        · rw [hin]; exact hnew
      · rw [e3]
        exact List.Nodup.append hnp (List.nodup_singleton _)
          (by
            intro x hx hx'
            rw [List.mem_singleton] at hx'
            subst hx'
            exact hfresh _ hmemp hx)

theorem IdsInv_run (ops : List Op) (ds : DataStore) (h : IdsInv ds)
    (hb : ds.nextID + (issuedIDs ds ops).length < 2 ^ 63) : IdsInv (run ds ops) := by
  induction ops generalizing ds with
  | nil => exact h
  | cons op ops ih =>
    have hi : issuedIDs ds (op :: ops) = (op.issued ds).toList ++ issuedIDs (op.apply ds) ops :=
      rfl
    rw [hi] at hb
    have hstep : IdsInv (op.apply ds) := by
      apply IdsInv_step ds op h
      intro hne
      cases hop : op.issued ds with
      | none => exact absurd hop hne
      | some id =>
        rw [hop] at hb
        simp only [Option.toList, List.length_append, List.length_cons, List.length_nil,
          Nat.cast_add, Nat.cast_one] at hb
        omega
    apply ih (op.apply ds) hstep
    rcases apply_shape ds op with ⟨hn, hid, -⟩ | ⟨hs, hid, -⟩
    · rw [hn] at hb
      rw [hid]
      simpa using hb
    · rw [hs] at hb
      simp only [Option.toList, List.length_append, List.length_cons, List.length_nil,
        Nat.cast_add, Nat.cast_one] at hb
      rw [hid, wrapInt64_succ _ (by have := h.1; omega) (by omega)]
      omega

theorem seededIDs_head (clock : SeedClock) (id : Str) (h : id ∈ seededIDs clock) :
    id.head? ≠ some 105 := by
  simp only [seededIDs, NewDataStore, seedData, seedAccounts, seedBudgets, seedGoals,
    seedPartners, List.nil_append, List.map_cons, List.map_nil, List.map_map,
    List.mem_append, List.mem_cons, List.mem_map, List.not_mem_nil, or_false,
    Function.comp] at h
  rcases h with (((h | h) | h) | h) | h
  · rcases h with rfl | rfl | rfl <;> decide
  · obtain ⟨i, -, rfl⟩ := h
    simp [seedTransaction, lit]
  · rcases h with rfl | rfl | rfl <;> decide
  · rcases h with rfl | rfl <;> decide
  · rcases h with rfl | rfl <;> decide

theorem IdsInv_seeded (clock : SeedClock) : IdsInv (NewDataStore clock) := by
  refine ⟨by simp [NewDataStore, seedData], ?_, ?_, ?_, ?_⟩
  · intro id hin
    left
    apply seededIDs_head clock
    simp only [seededIDs, List.mem_append] at hin ⊢
    rcases hin with (hin | hin) | hin
    · exact Or.inl (Or.inl (Or.inr hin))
    · exact Or.inl (Or.inr hin)
    · exact Or.inr hin
  · simp only [NewDataStore, seedData, seedBudgets, List.map_cons, List.map_nil]; decide
  · simp only [NewDataStore, seedData, seedGoals, List.map_cons, List.map_nil]; decide
  · simp only [NewDataStore, seedData, seedPartners, List.map_cons, List.map_nil]; decide

/-- C5 (amended): from the seeded store, along every sequence of requests during which
fewer than `2^63 - 1` identifiers are issued, the identifiers returned by `getNextID`
are pairwise distinct and differ from every seeded identifier; no request decreases the
counter and every request that obtains an identifier increases it; in the final store
the identifiers within the budgets, within the goals and within the partner links are
pairwise distinct; and the identifier of a removed link is not issued afterwards. -/
theorem C5_identifiers_unique_before_overflow (clock : SeedClock) (ops : List Op)
    (hb : (issuedIDs (NewDataStore clock) ops).length < 2 ^ 63 - 1) :
    (issuedIDs (NewDataStore clock) ops).Nodup ∧
    (∀ id ∈ issuedIDs (NewDataStore clock) ops, id ∉ seededIDs clock) ∧
    (∀ pre op post, ops = pre ++ op :: post →
      (run (NewDataStore clock) pre).nextID ≤ (op.apply (run (NewDataStore clock) pre)).nextID ∧
      (op.issued (run (NewDataStore clock) pre) ≠ none →
        (run (NewDataStore clock) pre).nextID
          < (op.apply (run (NewDataStore clock) pre)).nextID)) ∧
    ((run (NewDataStore clock) ops).budgets.map Budget.ID).Nodup ∧
    ((run (NewDataStore clock) ops).goals.map Goal.ID).Nodup ∧
    ((run (NewDataStore clock) ops).partners.map Partner.ID).Nodup ∧
    (∀ pre id post, ops = pre ++ Op.remove id :: post →
      (∃ p ∈ (run (NewDataStore clock) pre).partners, p.ID = id) →
      id ∉ issuedIDs ((Op.remove id).apply (run (NewDataStore clock) pre)) post) := by
  have hn1 : (NewDataStore clock).nextID = 1 := rfl
  have hb' : (NewDataStore clock).nextID + (issuedIDs (NewDataStore clock) ops).length
      < 2 ^ 63 := by
    rw [hn1]
    norm_num at hb ⊢
    omega
  obtain ⟨-, hiss⟩ := run_issued ops _ (by rw [hn1]; norm_num) hb'
  have hinv := IdsInv_run ops _ (IdsInv_seeded clock) hb'
  -- the state before any request of the run
  have hpre : ∀ pre rest, ops = pre ++ rest →
      IdsInv (run (NewDataStore clock) pre) ∧
      (run (NewDataStore clock) pre).nextID
        + (issuedIDs (run (NewDataStore clock) pre) rest).length < 2 ^ 63 := by
    intro pre rest hops
    have hsplit := issuedIDs_append (NewDataStore clock) pre rest
    rw [← hops] at hsplit
    have hlen : (issuedIDs (NewDataStore clock) ops).length
        = (issuedIDs (NewDataStore clock) pre).length
          + (issuedIDs (run (NewDataStore clock) pre) rest).length := by
      rw [hsplit, List.length_append]
    have hbp : (NewDataStore clock).nextID + (issuedIDs (NewDataStore clock) pre).length
        < 2 ^ 63 := by
      rw [hlen] at hb'
      push_cast at hb'
      omega
    obtain ⟨hnx, -⟩ := run_issued pre _ (by rw [hn1]; norm_num) hbp
    refine ⟨IdsInv_run pre _ (IdsInv_seeded clock) hbp, ?_⟩
    rw [hnx]
    rw [hlen] at hb'
    push_cast at hb'
    omega
  refine ⟨?_, ?_, ?_, hinv.2.2.1, hinv.2.2.2.1, hinv.2.2.2.2, ?_⟩
  · rw [hiss]
    exact issued_nodup _ _ (by rw [hn1]; norm_num)
  · intro id hin hseed
    rw [hiss] at hin
    obtain ⟨j, -, rfl⟩ := List.mem_map.1 hin
    exact seededIDs_head clock _ hseed (idOf_head _)
  · intro pre op post hops
    obtain ⟨hI, hbnd⟩ := hpre pre (op :: post) hops
    have hi : issuedIDs (run (NewDataStore clock) pre) (op :: post)
        = (op.issued (run (NewDataStore clock) pre)).toList
          ++ issuedIDs (op.apply (run (NewDataStore clock) pre)) post := rfl
    rcases apply_shape (run (NewDataStore clock) pre) op with ⟨hn, hid, -⟩ | ⟨hs, hid, -⟩
    · rw [hid]
      exact ⟨le_refl _, fun hne => absurd hn hne⟩
    · rw [hi, hs] at hbnd
      simp only [Option.toList, List.length_append, List.length_cons, List.length_nil,
        Nat.cast_add, Nat.cast_one] at hbnd
      rw [hid, wrapInt64_succ _ (by have := hI.1; omega) (by omega)]
      exact ⟨by omega, fun _ => by omega⟩
  · intro pre id post hops hex hin
    obtain ⟨hI, hbnd⟩ := hpre pre (Op.remove id :: post) hops
    have hi : issuedIDs (run (NewDataStore clock) pre) (Op.remove id :: post)
        = issuedIDs ((Op.remove id).apply (run (NewDataStore clock) pre)) post := rfl
    rw [hi] at hbnd
    have hsame : ((Op.remove id).apply (run (NewDataStore clock) pre)).nextID
        = (run (NewDataStore clock) pre).nextID := by
      simp only [Op.apply, RemovePartnerLink]
      cases removeLoop id (run (NewDataStore clock) pre).partners <;> rfl
    obtain ⟨-, hiss'⟩ := run_issued post ((Op.remove id).apply (run (NewDataStore clock) pre))
      (by rw [hsame]; have := hI.1; omega) (by rw [hsame]; exact hbnd)
    rw [hiss'] at hin
    obtain ⟨j, -, hj⟩ := List.mem_map.1 hin
    rw [hsame] at hj
    obtain ⟨p, hp, hpid⟩ := hex
    have hmem : id ∈ (run (NewDataStore clock) pre).budgets.map Budget.ID
        ++ (run (NewDataStore clock) pre).goals.map Goal.ID
        ++ (run (NewDataStore clock) pre).partners.map Partner.ID :=
      List.mem_append_right _ (List.mem_map.2 ⟨p, hp, hpid⟩)
    rcases hI.2.1 id hmem with hh | ⟨k, hk1, hk2, hk⟩
    · rw [← hj] at hh
      exact hh (idOf_head _)
    · rw [hk] at hj
      have := idOf_injective _ _ (by have := hI.1; omega) (by omega) hj
      omega

/-- C5 (amended), on a short run from the seeded store of the sample clock: a budget, an
invitation, the removal of that link and a goal issue three distinct identifiers. -/
theorem C5_identifiers_unique_before_overflow_witness :
    (issuedIDs (NewDataStore sampleClock)
      [Op.createBudget (lit "2025-03") (lit "Food") (lit "400.00"),
       Op.invite (lit "2025-03-15T12:00:00Z") (lit "x@example.com"),
       Op.remove (lit "id-2"),
       Op.createGoal (lit "Car") (lit "9000.00") (lit "2026-01-01T00:00:00Z")]).Nodup :=
  (C5_identifiers_unique_before_overflow sampleClock
    [Op.createBudget (lit "2025-03") (lit "Food") (lit "400.00"),
     Op.invite (lit "2025-03-15T12:00:00Z") (lit "x@example.com"),
     Op.remove (lit "id-2"),
     Op.createGoal (lit "Car") (lit "9000.00") (lit "2026-01-01T00:00:00Z")]
    (by decide)).1

/-- After `n` rounds of inviting and removing, the store is the seeded one with the
counter advanced by `n`, as long as the counter has not overflowed. -/
theorem run_inviteRemoveCycles (n : Nat) (h : (n : Int) + 1 < 2 ^ 63) :
    run (NewDataStore sampleClock) (inviteRemoveCycles n)
      = { NewDataStore sampleClock with nextID := (n : Int) + 1 } := by
  induction n with
  | zero => rfl
  | succ n ih =>
    have hstep : inviteRemoveCycles (n + 1) = inviteRemoveCycles n ++
        [Op.invite (lit "2025-03-15T12:00:00Z") (lit "x@example.com"),
         Op.remove (idOf ((n : Int) + 1))] := by
      simp [inviteRemoveCycles, List.range_succ, List.flatMap_append]
    push_cast at h
    rw [hstep, run_append, ih (by omega)]
    have hne1 : lit "partner-1" ≠ idOf ((n : Int) + 1) := by
      intro hh
      have := congrArg List.head? hh
      rw [idOf_head] at this
      exact absurd this (by decide)
    have hne2 : lit "partner-2" ≠ idOf ((n : Int) + 1) := by
      intro hh
      have := congrArg List.head? hh
      rw [idOf_head] at this
      exact absurd this (by decide)
    have hex : partnerExists (seedPartners sampleClock) (lit "x@example.com") = false := by
      decide
    have hem : lit "x@example.com" ≠ [] := by decide
    have hw : wrapInt64 ((n : Int) + 1 + 1) = ((n + 1 : Nat) : Int) + 1 := by
      rw [wrapInt64_succ _ (by omega) (by omega)]
      push_cast
      ring
    simp only [run, Op.apply, InvitePartner, RemovePartnerLink, getNextID, NewDataStore,
      seedData, hem, hex, if_false, Bool.false_eq_true]
    have hid : lit "id-" ++ intToDec ((n : Int) + 1) = idOf ((n : Int) + 1) := rfl
    simp only [hid, seedPartners, List.cons_append, List.nil_append, removeLoop, newPartner,
      hne1, hne2, if_false, if_true, hw]

/-- C5 as stated fails: after `2^63 - 2` rounds of inviting and removing a partner the
counter is `2^63 - 1`; the next invitation obtains an identifier and leaves the counter
at `-2^63`, below its former value. -/
theorem C5_counterexample :
    (run (NewDataStore sampleClock) (inviteRemoveCycles (2 ^ 63 - 2))).nextID = 2 ^ 63 - 1 ∧
    (Op.invite (lit "2025-03-15T12:00:00Z") (lit "y@example.com")).issued
      (run (NewDataStore sampleClock) (inviteRemoveCycles (2 ^ 63 - 2))) ≠ none ∧
    ((Op.invite (lit "2025-03-15T12:00:00Z") (lit "y@example.com")).apply
      (run (NewDataStore sampleClock) (inviteRemoveCycles (2 ^ 63 - 2)))).nextID = -2 ^ 63 := by
  rw [run_inviteRemoveCycles (2 ^ 63 - 2) (by norm_num)]
  have hex : partnerExists (seedPartners sampleClock) (lit "y@example.com") = false := by
    decide
  have hem : lit "y@example.com" ≠ [] := by decide
  refine ⟨by norm_num, ?_, ?_⟩
  · simp [Op.issued, NewDataStore, seedData, hem, hex]
  · simp only [Op.apply, InvitePartner, getNextID, NewDataStore, seedData, hem, hex, if_false,
      Bool.false_eq_true, wrapInt64]
    norm_num

/-! ## C8: interleaved invitations -/

/-- A handler that runs all its sections without interruption does what the sequential
handler does. -/
theorem thread_alone (ds : DataStore) (op : Op) :
    runSchedule ds [Thread.start op] [0, 0, 0]
      = (op.apply ds, [Thread.finished (!op.fails ds)]) := by
  cases op with
  | updateCategory txnID category => rfl
  | accept now partnerID => rfl
  | remove partnerID => rfl
  | createBudget month category limitAmount =>
    by_cases hc : month = [] ∨ category = [] ∨ limitAmount = []
    · simp [Thread.start, runSchedule, Thread.step, setAt, Op.apply, Op.fails, CreateBudget,
        hc, Except.toBool]
    · simp [Thread.start, runSchedule, Thread.step, setAt, Op.apply, Op.fails, CreateBudget,
        hc, Except.toBool, getNextID]
  | createGoal name targetAmount targetDate =>
    by_cases hc : name = [] ∨ targetAmount = [] ∨ targetDate = []
    · simp [Thread.start, runSchedule, Thread.step, setAt, Op.apply, Op.fails, CreateGoal,
        hc, Except.toBool]
    · simp [Thread.start, runSchedule, Thread.step, setAt, Op.apply, Op.fails, CreateGoal,
        hc, Except.toBool, getNextID]
  | invite now email =>
    by_cases hc : email = []
    · simp [Thread.start, runSchedule, Thread.step, setAt, Op.apply, Op.fails, InvitePartner,
        hc, Except.toBool]
    · by_cases hd : partnerExists ds.partners email = true
      · simp [Thread.start, runSchedule, Thread.step, setAt, Op.apply, Op.fails,
          InvitePartner, hc, hd, Except.toBool]
      · simp [Thread.start, runSchedule, Thread.step, setAt, Op.apply, Op.fails,
          InvitePartner, hc, hd, Except.toBool, getNextID]

/-- C8 fails on the code: two invitations of `x@example.com` on the seeded store, whose
sections alternate (check, check, `getNextID`, `getNextID`, append, append), both
succeed and leave two links for that email, with the distinct identifiers `id-1` and
`id-2`; served one after the other, in either order, the second invitation fails and
one link is left. -/
theorem C8_interleaved_invites_duplicate :
    (runSchedule (NewDataStore sampleClock)
        [Thread.inviteStart (lit "2025-03-15T12:00:00Z") (lit "x@example.com"),
         Thread.inviteStart (lit "2025-03-15T12:00:01Z") (lit "x@example.com")]
        [0, 1, 0, 1, 0, 1]).2 = [Thread.finished true, Thread.finished true] ∧
    (runSchedule (NewDataStore sampleClock)
        [Thread.inviteStart (lit "2025-03-15T12:00:00Z") (lit "x@example.com"),
         Thread.inviteStart (lit "2025-03-15T12:00:01Z") (lit "x@example.com")]
        [0, 1, 0, 1, 0, 1]).1.partners.map (fun p => (p.ID, p.Email, p.HouseholdID))
      = [(lit "partner-1", lit "partner@example.com", lit "household-1"),
         (lit "partner-2", lit "pending@example.com", lit "household-1"),
         (lit "id-1", lit "x@example.com", lit "household-1"),
         (lit "id-2", lit "x@example.com", lit "household-1")] ∧
    (run (NewDataStore sampleClock)
        [Op.invite (lit "2025-03-15T12:00:00Z") (lit "x@example.com"),
         Op.invite (lit "2025-03-15T12:00:01Z") (lit "x@example.com")]).partners.map
          (fun p => (p.ID, p.Email, p.HouseholdID))
      = [(lit "partner-1", lit "partner@example.com", lit "household-1"),
         (lit "partner-2", lit "pending@example.com", lit "household-1"),
         (lit "id-1", lit "x@example.com", lit "household-1")] ∧
    (run (NewDataStore sampleClock)
        [Op.invite (lit "2025-03-15T12:00:01Z") (lit "x@example.com"),
         Op.invite (lit "2025-03-15T12:00:00Z") (lit "x@example.com")]).partners.map
          (fun p => (p.ID, p.Email, p.HouseholdID))
      = [(lit "partner-1", lit "partner@example.com", lit "household-1"),
         (lit "partner-2", lit "pending@example.com", lit "household-1"),
         (lit "id-1", lit "x@example.com", lit "household-1")] ∧
    (Op.invite (lit "2025-03-15T12:00:01Z") (lit "x@example.com")).fails
      ((Op.invite (lit "2025-03-15T12:00:00Z") (lit "x@example.com")).apply
        (NewDataStore sampleClock)) = true := by
  refine ⟨by decide, by decide, by decide, by decide, by decide⟩

/-! ## Rounding lemmas -/

theorem bitLenAux_spec (fuel n : Nat) (h : n ≤ fuel) :
    n < 2 ^ bitLenAux fuel n ∧ (n ≠ 0 → 2 ^ (bitLenAux fuel n - 1) ≤ n) := by
  induction fuel generalizing n with
  | zero =>
    have : n = 0 := by omega
    subst this
    simp [bitLenAux]
  | succ fuel ih =>
    unfold bitLenAux
    by_cases hn : n = 0
    · subst hn; simp
    · rw [if_neg hn]
      obtain ⟨h1, h2⟩ := ih (n / 2) (by omega)
      refine ⟨?_, fun _ => ?_⟩
      · rw [pow_succ]
        omega
      · simp only [Nat.add_sub_cancel]
        by_cases hh : n / 2 = 0
        · have hb : bitLenAux fuel (n / 2) = 0 := by
            rw [hh]; cases fuel <;> simp [bitLenAux]
          rw [hb]; simp; omega
        · have := h2 hh
          have hpos : 0 < bitLenAux fuel (n / 2) := by
            by_contra hc
            have hz : bitLenAux fuel (n / 2) = 0 := by omega
            rw [hz] at h1
            simp at h1
            exact hh h1
          have e : bitLenAux fuel (n / 2) = (bitLenAux fuel (n / 2) - 1) + 1 := by omega
          rw [e, pow_succ]
          omega

theorem bitLen_lt (n : Nat) : n < 2 ^ bitLen n := (bitLenAux_spec n n (le_refl n)).1

theorem bitLen_le (n : Nat) (h : n ≠ 0) : 2 ^ (bitLen n - 1) ≤ n :=
  (bitLenAux_spec n n (le_refl n)).2 h

theorem bitLen_le_of_lt (n e : Nat) (h : n < 2 ^ e) : bitLen n ≤ e := by
  by_contra hc
  push_neg at hc
  have hn : n ≠ 0 := by
    intro h0
    subst h0
    have : bitLen 0 = 0 := by simp [bitLen, bitLenAux]
    omega
  have h1 := bitLen_le n hn
  have h2 : 2 ^ e ≤ 2 ^ (bitLen n - 1) := Nat.pow_le_pow_right (by norm_num) (by omega)
  omega

theorem bitLen_eq (n b : Nat) (h1 : 2 ^ b ≤ n) (h2 : n < 2 ^ (b + 1)) : bitLen n = b + 1 := by
  have hle := bitLen_le_of_lt n (b + 1) h2
  have hlt := bitLen_lt n
  by_contra hc
  have h3 : 2 ^ bitLen n ≤ 2 ^ b := Nat.pow_le_pow_right (by norm_num) (by omega)
  omega

theorem roundNE_error (a b : Nat) (hb : 0 < b) :
    2 * (roundNE a b * b) ≤ 2 * a + b ∧ 2 * a ≤ 2 * (roundNE a b * b) + b := by
  have hdm := Nat.div_add_mod a b
  have hr := Nat.mod_lt a hb
  have e1 : (a / b + 1) * b = b * (a / b) + b := by ring
  have e0 : a / b * b = b * (a / b) := by ring
  unfold roundNE
  simp only
  split_ifs <;> omega

theorem roundNE_bounds (a b : Nat) : a / b ≤ roundNE a b ∧ roundNE a b ≤ a / b + 1 := by
  unfold roundNE
  simp only
  split_ifs <;> omega

theorem roundNE_mul (q b : Nat) (hb : 0 < b) : roundNE (q * b) b = q := by
  unfold roundNE
  simp only [Nat.mul_mod_left, Nat.mul_div_cancel _ hb]
  rw [if_pos (by omega)]

theorem roundNE_eq_of_near (a b c : Nat) (h1 : 2 * a < 2 * (c * b) + b)
    (h2 : 2 * (c * b) < 2 * a + b) : roundNE a b = c := by
  have hb : 0 < b := by
    rcases Nat.eq_zero_or_pos b with h | h
    · subst h; simp at h1 h2
    · exact h
  obtain ⟨e1, e2⟩ := roundNE_error a b hb
  by_contra hne
  rcases Nat.lt_or_gt_of_ne hne with hlt | hgt
  · have : (roundNE a b + 1) * b ≤ c * b := Nat.mul_le_mul_right b hlt
    have e : (roundNE a b + 1) * b = roundNE a b * b + b := by ring
    omega
  · have : (c + 1) * b ≤ roundNE a b * b := Nat.mul_le_mul_right b hgt
    have e : (c + 1) * b = c * b + b := by ring
    omega

/-- The rounding error of `roundMag` is at most half the spacing at the magnitude of the
argument. -/
theorem roundMag_error (num den e : Nat) (hd : 0 < den) (he : 53 ≤ e)
    (hlt : num < den * 2 ^ e) :
    2 * (roundMag num den * den) ≤ 2 * num + den * 2 ^ (e - 53) ∧
    2 * num ≤ 2 * (roundMag num den * den) + den * 2 ^ (e - 53) := by
  have hq : num / den < 2 ^ e := Nat.div_lt_of_lt_mul hlt
  have hk : bitLen (num / den) - 53 ≤ e - 53 := by
    have := bitLen_le_of_lt _ _ hq
    omega
  have hpow : 2 ^ (bitLen (num / den) - 53) ≤ 2 ^ (e - 53) :=
    Nat.pow_le_pow_right (by norm_num) hk
  have hmul : den * 2 ^ (bitLen (num / den) - 53) ≤ den * 2 ^ (e - 53) :=
    Nat.mul_le_mul_left den hpow
  obtain ⟨e1, e2⟩ := roundNE_error num (den * 2 ^ (bitLen (num / den) - 53))
    (Nat.mul_pos hd (Nat.two_pow_pos _))
  have er : roundMag num den * den
      = roundNE num (den * 2 ^ (bitLen (num / den) - 53))
          * (den * 2 ^ (bitLen (num / den) - 53)) := by
    unfold roundMag
    ring
  rw [er]
  omega

theorem roundMag_of_representable (m j : Nat) (hm : m < 2 ^ 53) (hj : j = 0 ∨ 2 ^ 52 ≤ m) :
    roundMag (m * 2 ^ j) 1 = m * 2 ^ j := by
  unfold roundMag
  simp only [Nat.div_one, Nat.one_mul]
  have hk : bitLen (m * 2 ^ j) - 53 = j := by
    rcases hj with hj | hj
    · subst hj
      have := bitLen_le_of_lt (m * 2 ^ 0) 53 (by simpa using hm)
      omega
    · have h1 : 2 ^ (52 + j) ≤ m * 2 ^ j := by
        rw [pow_add]
        exact Nat.mul_le_mul_right _ hj
      have h2 : m * 2 ^ j < 2 ^ (52 + j + 1) := by
        have : 2 ^ (52 + j + 1) = 2 ^ 53 * 2 ^ j := by
          rw [← pow_add]; congr 1; omega
        rw [this]
        exact Nat.mul_lt_mul_of_pos_right hm (Nat.two_pow_pos _)
      have := bitLen_eq _ _ h1 h2
      omega
  rw [hk, roundNE_mul m _ (Nat.two_pow_pos _)]

/-- The rounded magnitude is a significand of at most 53 bits times a power of two. -/
theorem roundMag_shape (num den : Nat) :
    ∃ m j, m < 2 ^ 53 ∧ (j = 0 ∨ 2 ^ 52 ≤ m) ∧ roundMag num den = m * 2 ^ j := by
  have hb := roundNE_bounds num (den * 2 ^ (bitLen (num / den) - 53))
  have hdiv : num / (den * 2 ^ (bitLen (num / den) - 53))
      = num / den / 2 ^ (bitLen (num / den) - 53) := (Nat.div_div_eq_div_mul _ _ _).symm
  rw [hdiv] at hb
  have hlt := bitLen_lt (num / den)
  by_cases hc : bitLen (num / den) ≤ 53
  · have hk : bitLen (num / den) - 53 = 0 := by omega
    have hq : num / den < 2 ^ 53 :=
      lt_of_lt_of_le hlt (Nat.pow_le_pow_right (by norm_num) hc)
    rw [hk] at hb
    simp only [pow_zero, Nat.div_one, Nat.mul_one] at hb
    have hR : roundMag num den = roundNE num den := by
      unfold roundMag
      rw [hk]
      simp
    by_cases hm : roundNE num den < 2 ^ 53
    · exact ⟨roundNE num den, 0, hm, Or.inl rfl, by rw [hR]; simp⟩
    · have : roundNE num den = 2 ^ 53 := by omega
      exact ⟨2 ^ 52, 1, by norm_num, Or.inr (le_refl _), by rw [hR, this]; norm_num⟩
  · push_neg at hc
    have hne : num / den ≠ 0 := by
      intro h0
      rw [h0] at hc
      simp [bitLen, bitLenAux] at hc
    have hge := bitLen_le (num / den) hne
    obtain ⟨k, hk⟩ : ∃ k, bitLen (num / den) = 53 + k + 1 := ⟨bitLen (num / den) - 54, by omega⟩
    have hk' : bitLen (num / den) - 53 = k + 1 := by omega
    rw [hk'] at hb
    rw [hk] at hlt hge
    have hq1 : num / den / 2 ^ (k + 1) < 2 ^ 53 := by
      apply Nat.div_lt_of_lt_mul
      have : 2 ^ (53 + k + 1) = 2 ^ (k + 1) * 2 ^ 53 := by
        rw [← pow_add]; congr 1; omega
      omega
    have hq2 : 2 ^ 52 ≤ num / den / 2 ^ (k + 1) := by
      rw [Nat.le_div_iff_mul_le (Nat.two_pow_pos _)]
      have : 2 ^ (53 + k + 1 - 1) = 2 ^ 52 * 2 ^ (k + 1) := by
        rw [← pow_add]; congr 1; omega
      omega
    have hR : roundMag num den = roundNE num (den * 2 ^ (k + 1)) * 2 ^ (k + 1) := by
      unfold roundMag
      rw [hk']
    by_cases hm : roundNE num (den * 2 ^ (k + 1)) < 2 ^ 53
    · exact ⟨_, k + 1, hm, Or.inr (by omega), hR⟩
    · have : roundNE num (den * 2 ^ (k + 1)) = 2 ^ 53 := by omega
      refine ⟨2 ^ 52, k + 2, by norm_num, Or.inr (le_refl _), ?_⟩
      rw [hR, this, pow_succ 2 (k + 1)]
      ring

theorem roundMag_idem (num den : Nat) :
    roundMag (roundMag num den) 1 = roundMag num den := by
  obtain ⟨m, j, hm, hj, hR⟩ := roundMag_shape num den
  rw [hR]
  exact roundMag_of_representable m j hm hj

theorem roundMag_one_ne_zero (n : Nat) (h : n ≠ 0) : roundMag n 1 ≠ 0 := by
  have hpos : 0 < 2 ^ (bitLen n - 53) := Nat.two_pow_pos _
  have hb := roundNE_bounds n (1 * 2 ^ (bitLen (n / 1) - 53))
  simp only [Nat.div_one, Nat.one_mul] at hb
  unfold roundMag
  simp only [Nat.div_one, Nat.one_mul]
  intro h0
  rcases Nat.mul_eq_zero.1 h0 with h1 | h1
  · rw [h1] at hb
    have hz0 : n / 2 ^ (bitLen n - 53) = 0 := Nat.le_zero.1 hb.1
    have hz : n < 2 ^ (bitLen n - 53) := by
      by_contra hcon
      push_neg at hcon
      have := Nat.div_pos hcon hpos
      omega
    by_cases hc : bitLen n ≤ 53
    · have : bitLen n - 53 = 0 := by omega
      rw [this] at hz
      simp at hz
      omega
    · have := bitLen_le n h
      have h2 : 2 ^ (bitLen n - 53) ≤ 2 ^ (bitLen n - 1) :=
        Nat.pow_le_pow_right (by norm_num) (by omega)
      omega
  · omega

/-! ## C3: amounts that do not parse -/

theorem ofRatio_canonical (neg : Bool) (num : Nat) (h : neg = true → num ≠ 0) :
    (F64.ofRatio neg num 1).Canonical := by
  unfold F64.ofRatio
  simp only
  split_ifs with hlt
  · refine ⟨roundMag_idem num 1, hlt, ?_⟩
    rintro ⟨hn, hz⟩
    exact roundMag_one_ne_zero num (h hn) hz
  · trivial

theorem add_canonical (x y : F64) (hx : x.Canonical) : (x.add y).Canonical := by
  cases x with
  | nan => cases y <;> trivial
  | inf a =>
    cases y with
    | nan => trivial
    | inf b => simp only [F64.add]; split_ifs <;> trivial
    | fin s m => trivial
  | fin s1 m1 =>
    cases y with
    | nan => trivial
    | inf b => trivial
    | fin s2 m2 =>
      obtain ⟨-, -, hnz⟩ := hx
      simp only [F64.add]
      split_ifs with h1 h2 h3
      · apply ofRatio_canonical
        intro hs hsum
        exact hnz ⟨hs, by omega⟩
      · exact ⟨by decide, by decide, by decide⟩
      · apply ofRatio_canonical
        intro _
        omega
      · apply ofRatio_canonical
        intro _
        omega

theorem add_zero_of_canonical (x : F64) (hx : x.Canonical) : x.add F64.zero = x := by
  cases x with
  | nan => rfl
  | inf a => rfl
  | fin s m =>
    obtain ⟨hr, hlt, hnz⟩ := hx
    simp only [F64.add, F64.zero]
    split_ifs with h1 h2 h3
    · simp only [Nat.add_zero, F64.ofRatio, hr, hlt, if_true, h1]
    · exfalso
      apply hnz
      cases s
      · exact absurd rfl h1
      · exact ⟨rfl, h2⟩
    · simp only [Nat.sub_zero, F64.ofRatio, hr, hlt, if_true]
    · omega

/-- The three outcomes of `ParseFloat`: a syntax error with the value `+0`, a value
without error, or a range error with an infinity. -/
theorem ParseFloat_cases (s : Str) :
    ParseFloat s = (F64.zero, some NumError.ErrSyntax) ∨
    (∃ v, ParseFloat s = (v, none)) ∨
    (∃ neg, ParseFloat s = (F64.inf neg, some NumError.ErrRange)) := by
  unfold ParseFloat
  cases special s with
  | some x =>
    obtain ⟨v, n⟩ := x
    by_cases hn : n = s.length
    · exact Or.inr (Or.inl ⟨v, by simp [hn]⟩)
    · exact Or.inl (by simp [hn])
  | none =>
    cases readFloat s with
    | none => exact Or.inl rfl
    | some sc =>
      by_cases hrest : sc.rest ≠ []
      · exact Or.inl (by simp [hrest])
      · simp only [hrest, if_false]
        cases F64.ofScaled sc.neg (if sc.hex = true then 2 else 10) sc.mantissa sc.exp with
        | inf neg => exact Or.inr (Or.inr ⟨neg, rfl⟩)
        | nan => exact Or.inr (Or.inl ⟨_, rfl⟩)
        | fin a b => exact Or.inr (Or.inl ⟨_, rfl⟩)

theorem ParseFloat_syntax_zero (s : Str) (h : (ParseFloat s).2 = some NumError.ErrSyntax) :
    (ParseFloat s).1 = F64.zero := by
  rcases ParseFloat_cases s with h1 | ⟨v, h1⟩ | ⟨neg, h1⟩
  · rw [h1]
  · rw [h1] at h; simp at h
  · rw [h1] at h; simp at h

theorem ParseFloat_range_inf (s : Str) (h : (ParseFloat s).2 = some NumError.ErrRange) :
    ∃ neg, (ParseFloat s).1 = F64.inf neg := by
  rcases ParseFloat_cases s with h1 | ⟨v, h1⟩ | ⟨neg, h1⟩
  · rw [h1] at h; simp at h
  · rw [h1] at h; simp at h
  · exact ⟨neg, by rw [h1]⟩

/-- Transactions whose amount is a syntax error do not change the running sums. -/
theorem summaryLoop_filter_syntaxOK (ts : List Transaction) (income expenses : F64)
    (hi : income.Canonical) (he : expenses.Canonical) :
    summaryLoop income expenses ts = summaryLoop income expenses (ts.filter amountSyntaxOK) := by
  induction ts generalizing income expenses with
  | nil => rfl
  | cons t ts ih =>
    by_cases hok : amountSyntaxOK t = true
    · rw [List.filter_cons_of_pos hok]
      simp only [summaryLoop]
      split_ifs
      · exact ih _ _ (add_canonical _ _ hi) he
      · exact ih _ _ hi (add_canonical _ _ he)
    · rw [List.filter_cons_of_neg hok]
      have hz : (ParseFloat t.Amount).1 = F64.zero := by
        apply ParseFloat_syntax_zero
        simpa [amountSyntaxOK] using hok
      simp only [summaryLoop, hz]
      split_ifs
      · rw [add_zero_of_canonical _ hi]; exact ih _ _ hi he
      · rw [add_zero_of_canonical _ he]; exact ih _ _ hi he

theorem zero_canonical : F64.zero.Canonical := ⟨by decide, by decide, by decide⟩

/-- C3 as stated fails for out-of-range amounts: `ParseFloat("1e400")` reports a range
error and returns `+Inf`, which is added; the income total of the two transactions is
`+Inf`, while the total over the remaining transaction is `5.00`. -/
theorem C3_counterexample :
    (ParseFloat (lit "1e400")) = (F64.inf false, some NumError.ErrRange) ∧
    (ListTransactions id
        (storeOf [sampleTxn "txn-1" "2025-03-05T12:00:00Z" "1e400" none true,
                  sampleTxn "txn-2" "2025-03-06T12:00:00Z" "5.00" none true])
        noFilters).map (fun r => (r.Income, r.Expenses)) = some (lit "+Inf", lit "0.00") ∧
    (ListTransactions id
        (storeOf [sampleTxn "txn-2" "2025-03-06T12:00:00Z" "5.00" none true])
        noFilters).map (fun r => (r.Income, r.Expenses)) = some (lit "5.00", lit "0.00") := by
  refine ⟨by decide!, by decide!, by decide!⟩

theorem filterTransactions_some_iff (ul : Str → Str) (f : Filters) (ts : List Transaction) :
    (∃ r, filterTransactions ul f ts = some r) ↔
      ((f.from_ = [] ∧ f.to_ = []) ∨ ∀ t ∈ ts, 10 ≤ t.Date.length) := by
  refine ⟨?_, filterTransactions_isSome ul f ts⟩
  rintro ⟨r, hr⟩
  by_contra hcon
  push_neg at hcon
  obtain ⟨hft, t, ht, hlt⟩ := hcon
  have hd : f.from_ ≠ [] ∨ f.to_ ≠ [] := by
    by_cases h1 : f.from_ = []
    · exact Or.inr (hft h1)
    · exact Or.inl h1
  unfold filterTransactions at hr
  rw [if_pos hd, dateLoop_none_of_short _ _ _ ⟨t, ht, hlt⟩] at hr
  simp at hr

/-- Removing transactions from the collection removes them from the answer. -/
theorem filterTransactions_filter (ul : Str → Str) (f : Filters) (ts r : List Transaction)
    (p : Transaction → Bool) (h : filterTransactions ul f ts = some r) :
    filterTransactions ul f (ts.filter p) = some (r.filter p) := by
  have hcond := (filterTransactions_some_iff ul f ts).1 ⟨r, h⟩
  have hcond' : (f.from_ = [] ∧ f.to_ = []) ∨ ∀ t ∈ ts.filter p, 10 ≤ t.Date.length := by
    rcases hcond with hc | hc
    · exact Or.inl hc
    · exact Or.inr (fun t ht => hc t (List.mem_filter.1 ht).1)
  obtain ⟨r', hr'⟩ := filterTransactions_isSome ul f (ts.filter p) hcond'
  rw [hr', filterTransactions_eq ul f _ _ hr', filterTransactions_eq ul f _ _ h,
    List.filter_filter, List.filter_filter]
  congr 2
  funext t
  exact Bool.and_comm _ _

/-- C3 (amended): whether `ListTransactions` returns does not depend on the amounts; a
transaction whose amount is a syntax error for `ParseFloat` contributes `+0`, so both
totals equal the totals computed over the remaining transactions of the answer, and
equal the totals answered for the store without those transactions; a range error
instead comes with an infinity, which is added to the total. -/
theorem C3_syntax_errors_contribute_zero (ul : Str → Str) (ds : DataStore) (f : Filters) :
    ((ListTransactions ul ds f).isSome = (filterTransactions ul f ds.transactions).isSome) ∧
    (∀ r, ListTransactions ul ds f = some r →
      r.Income
        = fmt2f (summaryLoop F64.zero F64.zero (r.Transactions.filter amountSyntaxOK)).1 ∧
      r.Expenses
        = fmt2f (summaryLoop F64.zero F64.zero (r.Transactions.filter amountSyntaxOK)).2 ∧
      ∃ r', ListTransactions ul
          { ds with transactions := ds.transactions.filter amountSyntaxOK } f = some r' ∧
        r'.Transactions = r.Transactions.filter amountSyntaxOK ∧
        r'.Income = r.Income ∧ r'.Expenses = r.Expenses) ∧
    (∀ s, (ParseFloat s).2 = some NumError.ErrSyntax → (ParseFloat s).1 = F64.zero) ∧
    (∀ s, (ParseFloat s).2 = some NumError.ErrRange → ∃ neg, (ParseFloat s).1 = F64.inf neg) := by
  refine ⟨?_, ?_, ParseFloat_syntax_zero, ParseFloat_range_inf⟩
  · unfold ListTransactions
    cases filterTransactions ul f ds.transactions <;> rfl
  · intro r hr
    obtain ⟨ts, hts, rfl⟩ := (ListTransactions_eq_some_iff ul ds f r).1 hr
    have hsum := summaryLoop_filter_syntaxOK ts F64.zero F64.zero zero_canonical zero_canonical
    have hsum2 : summaryLoop F64.zero F64.zero (ts.filter amountSyntaxOK)
        = summaryLoop F64.zero F64.zero ((ts.filter amountSyntaxOK).filter amountSyntaxOK) := by
      rw [List.filter_filter]
      simp
    refine ⟨by simp only [hsum], by simp only [hsum], ?_⟩
    refine ⟨_, (ListTransactions_eq_some_iff ul _ f _).2
      ⟨ts.filter amountSyntaxOK, filterTransactions_filter ul f _ _ _ hts, rfl⟩, rfl, ?_, ?_⟩
    · simp only [hsum]
    · simp only [hsum]

/-- C3 (amended) on three transactions, the second with the amount `abc`: the request is
answered with all three, `abc` is a syntax error and adds nothing, and the totals are
those answered for the store without that transaction. -/
theorem C3_syntax_errors_contribute_zero_witness :
    (ParseFloat (lit "abc")).2 = some NumError.ErrSyntax ∧
    ∃ r, ListTransactions id
        (storeOf [sampleTxn "txn-1" "2025-03-05T12:00:00Z" "10.00" none false,
                  sampleTxn "txn-2" "2025-03-06T12:00:00Z" "abc" none false,
                  sampleTxn "txn-3" "2025-03-07T12:00:00Z" "5.00" none true])
        noFilters = some r ∧
      r.Transactions.length = 3 ∧ r.Income = lit "5.00" ∧ r.Expenses = lit "10.00" ∧
      ∃ r1, ListTransactions id
          (storeOf [sampleTxn "txn-1" "2025-03-05T12:00:00Z" "10.00" none false,
                    sampleTxn "txn-3" "2025-03-07T12:00:00Z" "5.00" none true])
          noFilters = some r1 ∧
        r1.Income = r.Income ∧ r1.Expenses = r.Expenses := by
  have hr : ListTransactions id
      (storeOf [sampleTxn "txn-1" "2025-03-05T12:00:00Z" "10.00" none false,
                sampleTxn "txn-2" "2025-03-06T12:00:00Z" "abc" none false,
                sampleTxn "txn-3" "2025-03-07T12:00:00Z" "5.00" none true])
      noFilters
      = some { Transactions :=
                 [sampleTxn "txn-1" "2025-03-05T12:00:00Z" "10.00" none false,
                  sampleTxn "txn-2" "2025-03-06T12:00:00Z" "abc" none false,
                  sampleTxn "txn-3" "2025-03-07T12:00:00Z" "5.00" none true],
               Income := lit "5.00", Expenses := lit "10.00" } := by
    decide!
  obtain ⟨hi, he, r1, hr1, -, hi1, he1⟩ :=
    (C3_syntax_errors_contribute_zero id _ noFilters).2.1 _ hr
  have hstore : { storeOf [sampleTxn "txn-1" "2025-03-05T12:00:00Z" "10.00" none false,
                           sampleTxn "txn-2" "2025-03-06T12:00:00Z" "abc" none false,
                           sampleTxn "txn-3" "2025-03-07T12:00:00Z" "5.00" none true] with
      transactions :=
        (storeOf [sampleTxn "txn-1" "2025-03-05T12:00:00Z" "10.00" none false,
                  sampleTxn "txn-2" "2025-03-06T12:00:00Z" "abc" none false,
                  sampleTxn "txn-3" "2025-03-07T12:00:00Z" "5.00" none true]).transactions.filter
          amountSyntaxOK }
      = storeOf [sampleTxn "txn-1" "2025-03-05T12:00:00Z" "10.00" none false,
                 sampleTxn "txn-3" "2025-03-07T12:00:00Z" "5.00" none true] := by
    decide!
  rw [hstore] at hr1
  exact ⟨by decide, _, hr, rfl, rfl, rfl, r1, hr1, hi1, he1⟩

/-! ## C2: parsing amounts in fixed-point form -/

theorem isDigit_iff (c : Nat) : isDigit c = true ↔ 48 ≤ c ∧ c ≤ 57 := by
  simp [isDigit]

theorem amountCents_some (s : Str) (c : Nat) (h : amountCents s = some c) :
    ∃ ip a b, s = ip ++ [46, a, b] ∧ ip ≠ [] ∧ (∀ d ∈ ip, isDigit d = true) ∧
      isDigit a = true ∧ isDigit b = true ∧
      c = digitsVal ip * 100 + (a - 48) * 10 + (b - 48) := by
  unfold amountCents at h
  split at h
  · rename_i b a ip hrev
    split_ifs at h with hc
    obtain ⟨h1, h2, h3, h4⟩ := hc
    simp only [Option.some.injEq] at h
    refine ⟨ip.reverse, a, b, ?_, ?_, ?_, h3, h4, h.symm⟩
    · have := congrArg List.reverse hrev
      simpa using this
    · simpa using h1
    · intro d hd
      exact List.all_eq_true.1 h2 d (List.mem_reverse.1 hd)
  · simp at h

theorem mantLoop_digit (st : MantState) (c : Nat) (s : Str) (hc : isDigit c = true) :
    mantLoop false st (c :: s) =
      if c = 48 ∧ st.nd = 0 then
        mantLoop false { st with sawdigits := true, dp := st.dp - 1 } s
      else
        mantLoop false { st with sawdigits := true, nd := st.nd + 1,
                                 mantissa := st.mantissa * 10 + (c - 48) } s := by
  have h := (isDigit_iff c).1 hc
  have h95 : c ≠ 95 := by omega
  have h46 : c ≠ 46 := by omega
  rw [mantLoop]
  simp only [h95, h46, hc, if_true, if_false]
  rfl

/-- The mantissa loop on a run of decimal digits: the digits are consumed, the mantissa
is extended by them, and `dp - nd` drops by one per digit. -/
theorem mantLoop_digits (ip : Str) (st : MantState) (rest : Str)
    (hd : ∀ d ∈ ip, isDigit d = true) (h0 : st.nd = 0 → st.mantissa = 0) :
    ∃ st', mantLoop false st (ip ++ rest) = mantLoop false st' rest ∧
      st'.sawdot = st.sawdot ∧ st'.underscores = st.underscores ∧
      (ip ≠ [] → st'.sawdigits = true) ∧ (st.sawdigits = true → st'.sawdigits = true) ∧
      st'.mantissa = ip.foldl (fun acc c => acc * 10 + (c - 48)) st.mantissa ∧
      st'.dp - (st'.nd : Int) = st.dp - (st.nd : Int) - ip.length ∧
      (st'.nd = 0 → st'.mantissa = 0) := by
  induction ip generalizing st with
  | nil => exact ⟨st, rfl, rfl, rfl, by simp, id, rfl, by simp, h0⟩
  | cons c ip ih =>
    have hdc : isDigit c = true := hd c (List.mem_cons_self _ _)
    have hd' : ∀ d ∈ ip, isDigit d = true := fun d hx => hd d (List.mem_cons_of_mem _ hx)
    rw [List.cons_append, mantLoop_digit st c _ hdc]
    by_cases hz : c = 48 ∧ st.nd = 0
    · rw [if_pos hz]
      obtain ⟨st', e1, e2, e3, e4, e5, e6, e7, e8⟩ :=
        ih { st with sawdigits := true, dp := st.dp - 1 } hd' h0
      refine ⟨st', e1, e2, e3, fun _ => e5 rfl, fun _ => e5 rfl, ?_, ?_, e8⟩
      · rw [e6]
        simp only [List.foldl_cons]
        have hm := h0 hz.2
        rw [hm, hz.1]
      · rw [e7]
        simp only [List.length_cons, Nat.cast_add, Nat.cast_one]
        ring
    · rw [if_neg hz]
      obtain ⟨st', e1, e2, e3, e4, e5, e6, e7, e8⟩ :=
        ih { st with sawdigits := true, nd := st.nd + 1,
                     mantissa := st.mantissa * 10 + (c - 48) }
          hd' (by simp)
      refine ⟨st', e1, e2, e3, fun _ => e5 rfl, fun _ => e5 rfl, ?_, ?_, e8⟩
      · rw [e6]
        simp
      · rw [e7]
        simp only [List.length_cons, Nat.cast_add, Nat.cast_one]
        ring

theorem lowerByte_ne_x (c : Nat) (h : isDigit c = true ∨ c = 46) : lowerByte c ≠ 120 := by
  unfold lowerByte
  rcases h with h | h
  · have := (isDigit_iff c).1 h
    split_ifs <;> omega
  · subst h; decide

/-- The scanner `readFloat` on an unsigned decimal literal without exponent that the
mantissa loop consumes entirely. -/
theorem readFloat_decimal (c : Nat) (r : Str) (st : MantState)
    (hsign : c ≠ 43 ∧ c ≠ 45)
    (hhex : (match c :: r with
      | c0 :: c1 :: _ :: _ => decide (c0 = 48 ∧ lowerByte c1 = 120)
      | _ => false) = false)
    (hm : mantLoop false {} (c :: r) = (st, []))
    (hsd : st.sawdigits = true) (hu : st.underscores = false) :
    readFloat (c :: r) = some
      { neg := false, hex := false, mantissa := st.mantissa,
        exp := if st.mantissa = 0 then 0
               else (if st.sawdot = true then st.dp else (st.nd : Int)) - (st.nd : Int),
        rest := [] } := by
  unfold readFloat
  simp only [hsign.1, hsign.2, or_self, if_false, hhex, hm, hsd, hu, decide_False,
    Bool.not_true, Bool.false_eq_true, Bool.false_and]

theorem mantLoop_dot (st : MantState) (s : Str) (h : st.sawdot = false) :
    mantLoop false st (46 :: s) = mantLoop false { st with sawdot := true, dp := st.nd } s := by
  rw [mantLoop]
  simp [h]

theorem special_digit (c : Nat) (r : Str) (h : isDigit c = true) : special (c :: r) = none := by
  have := (isDigit_iff c).1 h
  unfold special
  have h1 : c ≠ 43 := by omega
  have h2 : c ≠ 45 := by omega
  have h3 : ¬(c = 105 ∨ c = 73) := by omega
  have h4 : ¬(c = 110 ∨ c = 78) := by omega
  simp only [h1, h2, h3, h4, if_false]

theorem roundMag_zero (d : Nat) (hd : 0 < d) : roundMag 0 d = 0 := by
  unfold roundMag
  have : bitLen (0 / d) = 0 := by simp [bitLen, bitLenAux]
  simp only [this, Nat.zero_sub, pow_zero, Nat.mul_one]
  unfold roundNE
  simp [hd]

/-- On an amount in fixed-point form `ParseFloat` returns, when it does not overflow,
the double nearest to the exact amount, without error. -/
theorem ParseFloat_amount (s : Str) (c : Nat) (h : amountCents s = some c)
    (hlt : roundMag (c * 2 ^ 1074) 100 < overflowMag) :
    ParseFloat s = (F64.fin false (roundMag (c * 2 ^ 1074) 100), none) := by
  obtain ⟨ip, a, b, rfl, hip, hd, ha, hb, hc⟩ := amountCents_some s c h
  obtain ⟨d0, ip', rfl⟩ : ∃ d0 ip', ip = d0 :: ip' := by
    cases ip with
    | nil => exact absurd rfl hip
    | cons d0 ip' => exact ⟨d0, ip', rfl⟩
  have hd0 : isDigit d0 = true := hd d0 (List.mem_cons_self _ _)
  have hd0' := (isDigit_iff d0).1 hd0
  -- the mantissa loop
  obtain ⟨st1, e1, f1, u1, -, -, m1, -, z1⟩ :=
    mantLoop_digits (d0 :: ip') {} [46, a, b] hd (fun _ => rfl)
  have hab : ∀ d ∈ [a, b], isDigit d = true := by
    intro d hx
    simp only [List.mem_cons, List.mem_singleton, List.not_mem_nil, or_false] at hx
    rcases hx with rfl | rfl
    · exact ha
    · exact hb
  obtain ⟨st3, e3, f3, u3, g3, -, m3, p3, -⟩ :=
    mantLoop_digits [a, b] { st1 with sawdot := true, dp := st1.nd } [] hab z1
  have hloop : mantLoop false {} ((d0 :: ip') ++ [46, a, b]) = (st3, []) := by
    rw [e1, mantLoop_dot st1 _ f1]
    have := e3
    simp only [List.append_nil] at this
    rw [this]
    rfl
  have hmant : st3.mantissa = c := by
    have hm1 : st1.mantissa = digitsVal (d0 :: ip') := m1
    rw [m3, hc]
    show (st1.mantissa * 10 + (a - 48)) * 10 + (b - 48) = _
    rw [hm1]
    ring
  have hexp : st3.dp - (st3.nd : Int) = -2 := by
    rw [p3]
    simp
  have hsd : st3.sawdigits = true := g3 (by simp)
  have hu3 : st3.underscores = false := by rw [u3]; exact u1
  have hf3 : st3.sawdot = true := f3
  have hhex : (match d0 :: (ip' ++ [46, a, b]) with
      | c0 :: c1 :: _ :: _ => decide (c0 = 48 ∧ lowerByte c1 = 120)
      | _ => false) = false := by
    cases ip' with
    | nil =>
      simp only [List.nil_append]
      have := lowerByte_ne_x 46 (Or.inr rfl)
      simp [this]
    | cons d1 ip'' =>
      have hd1 : isDigit d1 = true := hd d1 (by simp)
      have := lowerByte_ne_x d1 (Or.inl hd1)
      cases ip'' <;> simp [this]
  have hrf := readFloat_decimal d0 (ip' ++ [46, a, b]) st3 (by omega) hhex
    (by simpa using hloop) hsd hu3
  have hsp : special (d0 :: (ip' ++ [46, a, b])) = none := special_digit d0 _ hd0
  have hs : (d0 :: ip') ++ [46, a, b] = d0 :: (ip' ++ [46, a, b]) := rfl
  rw [hs]
  unfold ParseFloat
  rw [hsp, hrf]
  simp only [hmant, hf3, if_true, hexp, ne_eq, not_true_eq_false, if_false,
    Bool.false_eq_true]
  by_cases hz : c = 0
  · subst hz
    have e0 : F64.ofScaled false 10 0 0 = F64.fin false 0 := by
      unfold F64.ofScaled F64.ofRatio
      simp only [le_refl, if_true, Nat.zero_mul, roundMag_zero 1 (by norm_num)]
      rfl
    simp only [if_true, e0, Nat.zero_mul, roundMag_zero 100 (by norm_num)]
  · have e2 : F64.ofScaled false 10 c (-2) = F64.fin false (roundMag (c * 2 ^ 1074) 100) := by
      unfold F64.ofScaled F64.ofRatio
      have hneg : ¬ (0 : Int) ≤ -2 := by norm_num
      simp only [hneg, if_false]
      have h100 : (10 : Nat) ^ (- (-2 : Int)).toNat = 100 := by decide
      rw [h100, if_pos hlt]
    simp only [hz, if_false, e2]


/-! ## C2: the running sums stay near the exact sums -/

theorem near_arith (U ε W s p C c k M : Nat)
    (hW : W = 2 ^ 54 * ε) (hWU : W = M * U) (hM : 1 ≤ M)
    (hk : 400 * (k + 1) * ε < U) (hC : C + c ≤ 50 * M)
    (hn1 : 100 * s ≤ C * U + 200 * k * ε) (hn2 : C * U ≤ 100 * s + 200 * k * ε)
    (hp1 : 2 * (p * 100) ≤ 2 * (c * U) + 100 * (2 * ε))
    (hp2 : 2 * (c * U) ≤ 2 * (p * 100) + 100 * (2 * ε)) :
    s + p < 1 * W ∧ p < W ∧
    (∀ s', 2 * (s' * 1) ≤ 2 * (s + p) + 1 * (2 * ε) → 2 * (s + p) ≤ 2 * (s' * 1) + 1 * (2 * ε) →
      100 * s' ≤ (C + c) * U + 200 * (k + 1) * ε ∧
      (C + c) * U ≤ 100 * s' + 200 * (k + 1) * ε ∧ s' < 2 * W) := by
  have hCU : (C + c) * U ≤ 50 * W := by
    calc (C + c) * U ≤ 50 * M * U := Nat.mul_le_mul_right U hC
      _ = 50 * W := by rw [hWU]; ring
  have hUW : U ≤ W := by
    calc U = 1 * U := (Nat.one_mul U).symm
      _ ≤ M * U := Nat.mul_le_mul_right U hM
      _ = W := hWU.symm
  have e1 : (C + c) * U = C * U + c * U := by ring
  have e2 : 200 * (k + 1) * ε = 200 * (k * ε) + 200 * ε := by ring
  have e3 : 200 * k * ε = 200 * (k * ε) := by ring
  have e4 : 400 * (k + 1) * ε = 400 * (k * ε) + 400 * ε := by ring
  rw [e1] at hCU ⊢
  rw [e3] at hn1 hn2
  rw [e4] at hk
  rw [e2]
  refine ⟨by omega, by omega, ?_⟩
  intro s' h1 h2
  refine ⟨by omega, by omega, by omega⟩

theorem Near_mono (m k k' s C : Nat) (hk : k ≤ k') (h : Near m k s C) : Near m k' s C := by
  have : 200 * k * 2 ^ (m + 1020) ≤ 200 * k' * 2 ^ (m + 1020) :=
    Nat.mul_le_mul_right _ (Nat.mul_le_mul_left _ hk)
  unfold Near at h ⊢
  omega

/-- Adding a parsed fixed-point amount to a running sum that is near the exact sum gives
a running sum that is near the exact sum, with two more roundings. -/
theorem amount_add_step (m k s C c : Nat) (t : Transaction) (hm : m ≤ 900)
    (ht : amountCents t.Amount = some c)
    (hk : 400 * (k + 1) * 2 ^ (m + 1020) < 2 ^ 1074) (hC : C + c ≤ 50 * 2 ^ m)
    (hn : Near m k s C) :
    ∃ s', (F64.fin false s).add (ParseFloat t.Amount).1 = F64.fin false s' ∧
      Near m (k + 1) s' (C + c) := by
  have hW1 : (2 : Nat) ^ (m + 1074) = 2 ^ 54 * 2 ^ (m + 1020) := by
    have : m + 1074 = 54 + (m + 1020) := by omega
    rw [this, pow_add]
  have hW2 : (2 : Nat) ^ (m + 1074) = 2 ^ m * 2 ^ 1074 := pow_add 2 m 1074
  have hE : (2 : Nat) ^ (m + 1074 - 53) = 2 * 2 ^ (m + 1020) := by
    have : m + 1074 - 53 = (m + 1020) + 1 := by omega
    rw [this, pow_succ]; ring
  have hM : 1 ≤ 2 ^ m := Nat.one_le_two_pow
  have hclt : c * 2 ^ 1074 < 100 * 2 ^ (m + 1074) := by
    have h1 : c * 2 ^ 1074 ≤ 50 * 2 ^ m * 2 ^ 1074 :=
      Nat.mul_le_mul_right _ (by omega)
    have h2 : 50 * 2 ^ m * 2 ^ 1074 = 50 * 2 ^ (m + 1074) := by rw [hW2]; ring
    have h3 : 0 < 2 ^ (m + 1074) := Nat.two_pow_pos _
    omega
  obtain ⟨hp1, hp2⟩ := roundMag_error (c * 2 ^ 1074) 100 (m + 1074) (by norm_num) (by omega) hclt
  rw [hE] at hp1 hp2
  obtain ⟨hsp, hpW, hrest⟩ := near_arith (2 ^ 1074) (2 ^ (m + 1020)) (2 ^ (m + 1074)) s
    (roundMag (c * 2 ^ 1074) 100) C c k (2 ^ m) hW1 hW2 hM hk hC hn.1 hn.2 hp1 hp2
  have hover : (2 : Nat) ^ (m + 1074) * 2 ≤ overflowMag := by
    unfold overflowMag
    have : m + 1074 + 1 ≤ 2098 := by omega
    calc (2 : Nat) ^ (m + 1074) * 2 = 2 ^ (m + 1074 + 1) := (pow_succ 2 _).symm
      _ ≤ 2 ^ 2098 := Nat.pow_le_pow_right (by norm_num) this
  have hparse := ParseFloat_amount t.Amount c ht (by omega)
  obtain ⟨hs1, hs2⟩ := roundMag_error (s + roundMag (c * 2 ^ 1074) 100) 1 (m + 1074)
    (by norm_num) (by omega) hsp
  rw [hE] at hs1 hs2
  obtain ⟨hn1', hn2', hlt'⟩ := hrest _ hs1 hs2
  refine ⟨roundMag (s + roundMag (c * 2 ^ 1074) 100) 1, ?_, hn1', hn2'⟩
  rw [hparse]
  simp only [F64.add, F64.ofRatio, if_true]
  rw [if_pos (by omega)]

theorem specIncomeCents_cons (t : Transaction) (ts : List Transaction) :
    specIncomeCents (t :: ts)
      = (if t.IsIncome = true then (amountCents t.Amount).getD 0 else 0) + specIncomeCents ts := by
  unfold specIncomeCents
  by_cases h : t.IsIncome = true
  · simp [h]
  · simp [h]

theorem specExpensesCents_cons (t : Transaction) (ts : List Transaction) :
    specExpensesCents (t :: ts)
      = (if t.IsIncome = true then 0 else (amountCents t.Amount).getD 0)
          + specExpensesCents ts := by
  unfold specExpensesCents
  by_cases h : t.IsIncome = true
  · simp [h]
  · simp [h]

/-- The summary loop over amounts in fixed-point form: both running sums stay near the
exact sums. -/
theorem summaryLoop_near (m : Nat) (hm : m ≤ 900) (ts : List Transaction) :
    ∀ k si se Ci Ce : Nat,
      (∀ t ∈ ts, (amountCents t.Amount).isSome = true) →
      400 * (k + ts.length) * 2 ^ (m + 1020) < 2 ^ 1074 →
      Ci + Ce + specIncomeCents ts + specExpensesCents ts ≤ 50 * 2 ^ m →
      Near m k si Ci → Near m k se Ce →
      ∃ si' se', summaryLoop (F64.fin false si) (F64.fin false se) ts
          = (F64.fin false si', F64.fin false se') ∧
        Near m (k + ts.length) si' (Ci + specIncomeCents ts) ∧
        Near m (k + ts.length) se' (Ce + specExpensesCents ts) := by
  induction ts with
  | nil =>
    intro k si se Ci Ce _ _ _ hi he
    exact ⟨si, se, rfl, by simpa [specIncomeCents] using hi,
      by simpa [specExpensesCents] using he⟩
  | cons t ts ih =>
    intro k si se Ci Ce hwf hk hC hi he
    obtain ⟨c, hc⟩ := Option.isSome_iff_exists.1 (hwf t (List.mem_cons_self _ _))
    have hwf' : ∀ x ∈ ts, (amountCents x.Amount).isSome = true :=
      fun x hx => hwf x (List.mem_cons_of_mem _ hx)
    rw [specIncomeCents_cons, specExpensesCents_cons, hc] at hC
    simp only [Option.getD_some] at hC
    have hk1 : 400 * (k + 1) * 2 ^ (m + 1020) < 2 ^ 1074 := by
      have : 400 * (k + 1) * 2 ^ (m + 1020) ≤ 400 * (k + (t :: ts).length) * 2 ^ (m + 1020) :=
        Nat.mul_le_mul_right _ (Nat.mul_le_mul_left _ (by simp))
      omega
    have hk2 : 400 * (k + 1 + ts.length) * 2 ^ (m + 1020) < 2 ^ 1074 := by
      have e : k + 1 + ts.length = k + (t :: ts).length := by simp; omega
      rw [e]; exact hk
    have elen : k + (t :: ts).length = k + 1 + ts.length := by simp; omega
    rw [specIncomeCents_cons, specExpensesCents_cons, hc, elen]
    simp only [Option.getD_some]
    by_cases hinc : t.IsIncome = true
    · simp only [hinc, if_true] at hC ⊢
      obtain ⟨s1, hadd, hn1⟩ := amount_add_step m k si Ci c t hm hc hk1 (by omega) hi
      obtain ⟨si', se', hloop, h1, h2⟩ := ih (k + 1) s1 se (Ci + c) Ce hwf' hk2 (by omega) hn1
        (Near_mono m k (k + 1) se Ce (by omega) he)
      refine ⟨si', se', ?_, ?_, ?_⟩
      · simp only [summaryLoop, hinc, if_true, hadd, hloop]
      · rw [← Nat.add_assoc]; exact h1
      · simpa using h2
    · simp only [hinc, Bool.false_eq_true, if_false] at hC ⊢
      obtain ⟨s1, hadd, hn1⟩ := amount_add_step m k se Ce c t hm hc hk1 (by omega) he
      obtain ⟨si', se', hloop, h1, h2⟩ := ih (k + 1) si s1 Ci (Ce + c) hwf' hk2 (by omega)
        (Near_mono m k (k + 1) si Ci (by omega) hi) hn1
      refine ⟨si', se', ?_, ?_, ?_⟩
      · simp only [summaryLoop, hinc, if_false, hadd, hloop, Bool.false_eq_true]
      · simpa using h1
      · rw [← Nat.add_assoc]; exact h2

/-- A running sum near the exact sum is printed as the exact sum. -/
theorem near_render (m n s C : Nat) (hn : Near m n s C)
    (h : 400 * n * 2 ^ (m + 1020) < 2 ^ 1074) : fmt2f (F64.fin false s) = renderCents C := by
  have e : 400 * n * 2 ^ (m + 1020) = 2 * (200 * n * 2 ^ (m + 1020)) := by ring
  rw [e] at h
  obtain ⟨h1, h2⟩ := hn
  have hr : roundNE (s * 100) (2 ^ 1074) = C := by
    apply roundNE_eq_of_near <;> omega
  unfold fmt2f renderCents
  simp only [hr, Bool.false_eq_true, if_false, List.nil_append]

/-- The summary loop adds, in sequence order, the parsed amounts of the transactions with
`IsIncome` to the first sum and those of the others to the second. -/
theorem summaryLoop_eq_foldl (ts : List Transaction) (income expenses : F64) :
    summaryLoop income expenses ts =
      ((ts.filter (fun t => t.IsIncome)).foldl
          (fun acc t => acc.add (ParseFloat t.Amount).1) income,
       (ts.filter (fun t => !t.IsIncome)).foldl
          (fun acc t => acc.add (ParseFloat t.Amount).1) expenses) := by
  induction ts generalizing income expenses with
  | nil => rfl
  | cons t ts ih =>
    by_cases h : t.IsIncome = true
    · simp [summaryLoop, h, ih]
    · simp [summaryLoop, h, ih]

/-- A bound on count times total leaves room for a binade `m` in which all roundings of
the run are small. -/
theorem exists_binade (n T : Nat) (hn : 1 ≤ n) (hb : n * (T + 25) < 2 ^ 50) :
    ∃ m, m ≤ 900 ∧ T ≤ 50 * 2 ^ m ∧ 400 * n * 2 ^ (m + 1020) < 2 ^ 1074 := by
  have hT : T + 25 < 2 ^ 50 := by
    have : 1 * (T + 25) ≤ n * (T + 25) := Nat.mul_le_mul_right _ hn
    omega
  have hlt := bitLen_lt (T / 50)
  have hm50 : bitLen (T / 50) ≤ 50 := by
    apply bitLen_le_of_lt
    norm_num at hT ⊢
    omega
  have h25 : 25 * 2 ^ bitLen (T / 50) ≤ T + 25 := by
    by_cases hz : T / 50 = 0
    · have : bitLen (T / 50) = 0 := by rw [hz]; simp [bitLen, bitLenAux]
      rw [this]; simp
    · have hle := bitLen_le (T / 50) hz
      have hpos : 0 < bitLen (T / 50) := by
        by_contra hc
        have h0 : bitLen (T / 50) = 0 := by omega
        rw [h0] at hlt
        simp at hlt
        exact hz hlt
      have e : 2 ^ bitLen (T / 50) = 2 * 2 ^ (bitLen (T / 50) - 1) := by
        have : bitLen (T / 50) = (bitLen (T / 50) - 1) + 1 := by omega
        rw [this, pow_succ]
        simp
        ring
      omega
  have hmul : n * (25 * 2 ^ bitLen (T / 50)) ≤ n * (T + 25) := Nat.mul_le_mul_left n h25
  have hsmall : 25 * n * 2 ^ bitLen (T / 50) < 2 ^ 50 := by
    have e : 25 * n * 2 ^ bitLen (T / 50) = n * (25 * 2 ^ bitLen (T / 50)) := by ring
    omega
  refine ⟨bitLen (T / 50), by omega, by omega, ?_⟩
  have e1 : 400 * n * 2 ^ (bitLen (T / 50) + 1020)
      = 25 * n * 2 ^ bitLen (T / 50) * 2 ^ 1024 := by
    have : (2 : Nat) ^ 1024 = 16 * 2 ^ 1020 := by
      have := pow_add 2 4 1020
      norm_num at this ⊢
    rw [pow_add, this]
    ring
  have e2 : (2 : Nat) ^ 1074 = 2 ^ 50 * 2 ^ 1024 := by
    have := pow_add 2 50 1024
    norm_num at this ⊢
  rw [e1, e2]
  exact Nat.mul_lt_mul_of_pos_right hsmall (Nat.two_pow_pos _)

/-- C2 as stated fails: the amount `9007199254740993.00` (`2^53 + 1`) is a well-formed
non-negative decimal string, but the double nearest to it is `2^53`, so the income of
that single transaction is answered as `9007199254740992.00`, not as the exact sum. -/
theorem C2_counterexample :
    amountCents (lit "9007199254740993.00") = some 900719925474099300 ∧
    (ListTransactions id
        (storeOf [sampleTxn "txn-1" "2025-03-05T12:00:00Z" "9007199254740993.00" none true])
        noFilters).map (fun r => r.Income) = some (lit "9007199254740992.00") ∧
    renderCents
        (specIncomeCents
          [sampleTxn "txn-1" "2025-03-05T12:00:00Z" "9007199254740993.00" none true])
      = lit "9007199254740993.00" := by
  refine ⟨by decide!, by decide!, by decide!⟩

/-- C2 (amended): in every answer of `ListTransactions`, `income` is the `%.2f` rendering
of the float64 sum, accumulated from `+0` in sequence order, of the parsed amounts of
exactly the transactions with `isIncome` true, and `expenses` likewise for those with
`isIncome` false; if every amount of the answer is in fixed-point form (digits, a point,
two digits) and the number of transactions times the total of all amounts in hundredths
plus 25 is below `2^50`, then `income` and `expenses` are the exact sums written with
exactly two decimal places; for the empty answer both are `0.00`. -/
theorem C2_summary_sums (ul : Str → Str) (ds : DataStore) (f : Filters)
    (r : TransactionsResponse) (h : ListTransactions ul ds f = some r) :
    (r.Income = fmt2f ((r.Transactions.filter (fun t => t.IsIncome)).foldl
        (fun acc t => acc.add (ParseFloat t.Amount).1) F64.zero) ∧
     r.Expenses = fmt2f ((r.Transactions.filter (fun t => !t.IsIncome)).foldl
        (fun acc t => acc.add (ParseFloat t.Amount).1) F64.zero)) ∧
    ((∀ t ∈ r.Transactions, (amountCents t.Amount).isSome = true) →
      r.Transactions.length
        * (specIncomeCents r.Transactions + specExpensesCents r.Transactions + 25) < 2 ^ 50 →
      r.Income = renderCents (specIncomeCents r.Transactions) ∧
      r.Expenses = renderCents (specExpensesCents r.Transactions)) ∧
    (r.Transactions = [] → r.Income = lit "0.00" ∧ r.Expenses = lit "0.00") := by
  obtain ⟨ts, -, rfl⟩ := (ListTransactions_eq_some_iff ul ds f r).1 h
  simp only
  refine ⟨?_, ?_, ?_⟩
  · rw [summaryLoop_eq_foldl]
    exact ⟨rfl, rfl⟩
  · intro hwf hb
    cases ts with
    | nil => exact ⟨by decide, by decide⟩
    | cons t ts' =>
      obtain ⟨m, hm, hT, hk⟩ := exists_binade (t :: ts').length
        (specIncomeCents (t :: ts') + specExpensesCents (t :: ts')) (by simp) hb
      have h0 : Near m 0 0 0 := by unfold Near; simp
      obtain ⟨si', se', hloop, h1, h2⟩ := summaryLoop_near m hm (t :: ts') 0 0 0 0 0 hwf
        (by simpa using hk) (by simpa [Nat.add_assoc] using hT) h0 h0
      have hz : F64.zero = F64.fin false 0 := rfl
      rw [hz, hloop]
      simp only [Nat.zero_add] at h1 h2
      exact ⟨near_render m _ _ _ h1 hk, near_render m _ _ _ h2 hk⟩
  · intro hnil
    subst hnil
    exact ⟨by decide, by decide⟩

/-- C2 (amended), at a concrete store: three transactions in fixed-point form; income
is `1234.56 + 0.10 = 1234.66`, expenses are `0.20`. -/
theorem C2_summary_sums_witness :
    ∃ r, ListTransactions id
        (storeOf [sampleTxn "txn-1" "2025-03-05T12:00:00Z" "1234.56" none true,
                  sampleTxn "txn-2" "2025-03-06T12:00:00Z" "0.20" none false,
                  sampleTxn "txn-3" "2025-03-07T12:00:00Z" "0.10" none true])
        noFilters = some r ∧ r.Income = lit "1234.66" ∧ r.Expenses = lit "0.20" := by
  have hr : ListTransactions id
      (storeOf [sampleTxn "txn-1" "2025-03-05T12:00:00Z" "1234.56" none true,
                sampleTxn "txn-2" "2025-03-06T12:00:00Z" "0.20" none false,
                sampleTxn "txn-3" "2025-03-07T12:00:00Z" "0.10" none true])
      noFilters
      = some { Transactions :=
                 [sampleTxn "txn-1" "2025-03-05T12:00:00Z" "1234.56" none true,
                  sampleTxn "txn-2" "2025-03-06T12:00:00Z" "0.20" none false,
                  sampleTxn "txn-3" "2025-03-07T12:00:00Z" "0.10" none true],
               Income := lit "1234.66", Expenses := lit "0.20" } := by
    decide!
  have h := (C2_summary_sums id _ noFilters _ hr).2.1 (by decide) (by decide)
  exact ⟨_, hr, h.1.trans (by decide), h.2.trans (by decide)⟩

/-! ## C11, C12: removing and accepting a partner link -/

theorem removeLoop_of_mem (partnerID : Str) (ps : List Partner)
    (h : ∃ p ∈ ps, p.ID = partnerID) :
    ∃ pre p post, ps = pre ++ p :: post ∧ p.ID = partnerID ∧ (∀ x ∈ pre, x.ID ≠ partnerID) ∧
      removeLoop partnerID ps = some (pre ++ post) := by
  cases hl : removeLoop partnerID ps with
  | none =>
    exfalso
    obtain ⟨p, hp, hid⟩ := h
    have hnone : ∀ qs : List Partner, removeLoop partnerID qs = none →
        ∀ q ∈ qs, q.ID ≠ partnerID := by
      intro qs
      induction qs with
      | nil => intro _ q hq; simp at hq
      | cons a qs ih =>
        intro hn q hq
        unfold removeLoop at hn
        by_cases ha : a.ID = partnerID
        · rw [if_pos ha] at hn; simp at hn
        · rw [if_neg ha] at hn
          cases hq2 : removeLoop partnerID qs with
          | none =>
            rcases List.mem_cons.1 hq with rfl | hq
            · exact ha
            · exact ih hq2 q hq
          | some x => simp [hq2] at hn
    exact hnone ps hl p hp hid
  | some ps' =>
    obtain ⟨pre, p, post, hps, hid, hpre, hqs⟩ := removeLoop_some _ _ _ hl
    exact ⟨pre, p, post, hps, hid, hpre, by rw [hqs]⟩

theorem acceptLoop_of_mem (partnerID now : Str) (ps : List Partner)
    (h : ∃ p ∈ ps, p.ID = partnerID) :
    ∃ pre p post, ps = pre ++ p :: post ∧ p.ID = partnerID ∧ (∀ x ∈ pre, x.ID ≠ partnerID) ∧
      acceptLoop partnerID now ps
        = some (pre ++ { p with Status := lit "active", AcceptedAt := now } :: post,
                { p with Status := lit "active", AcceptedAt := now }) := by
  cases hl : acceptLoop partnerID now ps with
  | none =>
    exfalso
    obtain ⟨p, hp, hid⟩ := h
    have hnone : ∀ qs : List Partner, acceptLoop partnerID now qs = none →
        ∀ q ∈ qs, q.ID ≠ partnerID := by
      intro qs
      induction qs with
      | nil => intro _ q hq; simp at hq
      | cons a qs ih =>
        intro hn q hq
        unfold acceptLoop at hn
        by_cases ha : a.ID = partnerID
        · rw [if_pos ha] at hn; simp at hn
        · rw [if_neg ha] at hn
          cases hq2 : acceptLoop partnerID now qs with
          | none =>
            rcases List.mem_cons.1 hq with rfl | hq
            · exact ha
            · exact ih hq2 q hq
          | some x => simp [hq2] at hn
    exact hnone ps hl p hp hid
  | some x =>
    obtain ⟨ps', r⟩ := x
    obtain ⟨pre, p, post, hps, hid, hpre, hr, hqs⟩ := acceptLoop_some _ _ _ _ _ hl
    exact ⟨pre, p, post, hps, hid, hpre, by rw [hqs, hr]⟩

/-- C11: when a link with the identifier exists, `RemovePartnerLink` acknowledges and the
partner collection becomes the former one without its first link with that identifier:
one element shorter, every other link unchanged and in the same order, and, when the
identifiers were pairwise distinct, without any link of that identifier; the accounts,
transactions, budgets, goals and the counter are untouched. -/
theorem C11_remove_partner_link (ds : DataStore) (partnerID : Str)
    (h : ∃ p ∈ ds.partners, p.ID = partnerID) :
    ∃ pre p post,
      ds.partners = pre ++ p :: post ∧ p.ID = partnerID ∧ (∀ x ∈ pre, x.ID ≠ partnerID) ∧
      (RemovePartnerLink ds partnerID).2 = Except.ok () ∧
      (RemovePartnerLink ds partnerID).1.partners = pre ++ post ∧
      (RemovePartnerLink ds partnerID).1.partners = ds.partners.eraseIdx pre.length ∧
      (RemovePartnerLink ds partnerID).1.partners.length + 1 = ds.partners.length ∧
      ((ds.partners.map Partner.ID).Nodup →
        ∀ x ∈ (RemovePartnerLink ds partnerID).1.partners, x.ID ≠ partnerID) ∧
      (RemovePartnerLink ds partnerID).1.accounts = ds.accounts ∧
      (RemovePartnerLink ds partnerID).1.transactions = ds.transactions ∧
      (RemovePartnerLink ds partnerID).1.budgets = ds.budgets ∧
      (RemovePartnerLink ds partnerID).1.goals = ds.goals ∧
      (RemovePartnerLink ds partnerID).1.nextID = ds.nextID := by
  obtain ⟨pre, p, post, hps, hid, hpre, hloop⟩ := removeLoop_of_mem partnerID ds.partners h
  have hres : RemovePartnerLink ds partnerID
      = ({ ds with partners := pre ++ post }, Except.ok ()) := by
    unfold RemovePartnerLink
    rw [hloop]
  refine ⟨pre, p, post, hps, hid, hpre, ?_⟩
  rw [hres]
  refine ⟨rfl, rfl, ?_, ?_, ?_, rfl, rfl, rfl, rfl, rfl⟩
  · rw [hps]
    simp [List.eraseIdx_append_of_length_le]
  · rw [hps]
    simp
    omega
  · intro hnd x hx
    rw [hps, List.map_append, List.map_cons] at hnd
    have hnd' := List.nodup_append.1 hnd
    simp only at hx
    rcases List.mem_append.1 hx with hx | hx
    · exact hpre x hx
    · intro hxid
      have h1 : (List.map Partner.ID post).Nodup ∧ p.ID ∉ List.map Partner.ID post := by
        have := (List.nodup_cons.1 hnd'.2.1)
        exact ⟨this.2, this.1⟩
      exact h1.2 (List.mem_map.2 ⟨x, hx, by rw [hxid, hid]⟩)

/-- C11, on the seeded store of the sample clock: removing `partner-1` leaves the link
`partner-2` alone. -/
theorem C11_remove_partner_link_witness :
    (RemovePartnerLink (NewDataStore sampleClock) (lit "partner-1")).2 = Except.ok () ∧
    (RemovePartnerLink (NewDataStore sampleClock) (lit "partner-1")).1.partners.map Partner.ID
      = [lit "partner-2"] := by
  obtain ⟨pre, p, post, -, -, -, hok, -⟩ :=
    C11_remove_partner_link (NewDataStore sampleClock) (lit "partner-1") (by decide)
  exact ⟨hok, by decide⟩

/-- C12: when a link with the identifier exists, `AcceptPartnerInvite` succeeds whatever
the status of the link was: the first link with that identifier gets the status `active`
and the given timestamp as accepted-at (replacing an earlier one) and is returned; its
id, email, household, inviter and invited-at, every other link, the order of the links,
the other collections and the counter are unchanged. -/
theorem C12_accept_partner_invite (ds : DataStore) (now partnerID : Str)
    (h : ∃ p ∈ ds.partners, p.ID = partnerID) :
    ∃ pre p post r,
      ds.partners = pre ++ p :: post ∧ p.ID = partnerID ∧ (∀ x ∈ pre, x.ID ≠ partnerID) ∧
      (AcceptPartnerInvite ds now partnerID).2 = Except.ok r ∧
      (AcceptPartnerInvite ds now partnerID).1.partners = pre ++ r :: post ∧
      r.Status = lit "active" ∧ r.AcceptedAt = now ∧
      r.ID = p.ID ∧ r.Email = p.Email ∧ r.HouseholdID = p.HouseholdID ∧
      r.InvitedBy = p.InvitedBy ∧ r.InvitedAt = p.InvitedAt ∧
      (AcceptPartnerInvite ds now partnerID).1.accounts = ds.accounts ∧
      (AcceptPartnerInvite ds now partnerID).1.transactions = ds.transactions ∧
      (AcceptPartnerInvite ds now partnerID).1.budgets = ds.budgets ∧
      (AcceptPartnerInvite ds now partnerID).1.goals = ds.goals ∧
      (AcceptPartnerInvite ds now partnerID).1.nextID = ds.nextID := by
  obtain ⟨pre, p, post, hps, hid, hpre, hloop⟩ := acceptLoop_of_mem partnerID now ds.partners h
  refine ⟨pre, p, post, { p with Status := lit "active", AcceptedAt := now }, hps, hid, hpre, ?_⟩
  unfold AcceptPartnerInvite
  rw [hloop]
  simp

/-- C12, on the seeded store of the sample clock: accepting the already active link
`partner-1` succeeds and re-stamps it. -/
theorem C12_accept_partner_invite_witness :
    (AcceptPartnerInvite (NewDataStore sampleClock) (lit "2025-03-20T08:00:00Z")
        (lit "partner-1")).1.partners.map (fun p => (p.ID, p.Status, p.AcceptedAt))
      = [(lit "partner-1", lit "active", lit "2025-03-20T08:00:00Z"),
         (lit "partner-2", lit "invited", [])] := by
  have h := C12_accept_partner_invite (NewDataStore sampleClock) (lit "2025-03-20T08:00:00Z")
    (lit "partner-1") (by decide)
  decide

/-! ## C20: the statuses of partner links -/

/-- Every link after a request was there before, or is the link just invited, or is a
former link set to `active`. -/
theorem apply_partner_origin (ds : DataStore) (op : Op) (q : Partner)
    (hq : q ∈ (op.apply ds).partners) :
    q ∈ ds.partners ∨
    (∃ now email, op = Op.invite now email ∧ q = newPartner (getNextID ds).1 email now) ∨
    (∃ p ∈ ds.partners, ∃ now, op = Op.accept now p.ID ∧
      q = { p with Status := lit "active", AcceptedAt := now }) := by
  rcases apply_partners_cases ds op with hp | ⟨now, email, -, -, hop, hp⟩ |
    ⟨pre, p, post, now, hds, hop, -, hp⟩ | ⟨pre, p, post, hds, -, -, hp⟩
  · rw [hp] at hq; exact Or.inl hq
  · rw [hp] at hq
    rcases List.mem_append.1 hq with hq | hq
    · exact Or.inl hq
    · rw [List.mem_singleton] at hq
      exact Or.inr (Or.inl ⟨now, email, hop, hq⟩)
  · rw [hp] at hq
    rcases List.mem_append.1 hq with hq | hq
    · exact Or.inl (by rw [hds]; exact List.mem_append_left _ hq)
    · rcases List.mem_cons.1 hq with hq | hq
      · exact Or.inr (Or.inr ⟨p, by rw [hds]; simp, now, hop, hq⟩)
      · exact Or.inl (by rw [hds]; simp [hq])
  · rw [hp] at hq
    rcases List.mem_append.1 hq with hq | hq
    · exact Or.inl (by rw [hds]; exact List.mem_append_left _ hq)
    · exact Or.inl (by rw [hds]; simp [hq])

theorem reachable_partner_status (clock : SeedClock) (ds : DataStore)
    (h : Reachable clock ds) :
    ∀ p ∈ ds.partners, p.Status = lit "invited" ∨ p.Status = lit "active" := by
  induction h with
  | seeded =>
    intro p hp
    simp only [NewDataStore, seedData, seedPartners, List.mem_cons, List.mem_singleton,
      List.not_mem_nil, or_false] at hp
    rcases hp with rfl | rfl
    · exact Or.inr rfl
    · exact Or.inl rfl
  | step ds op _ ih =>
    intro q hq
    rcases apply_partner_origin ds op q hq with hq | ⟨now, email, -, rfl⟩ | ⟨p, -, now, -, rfl⟩
    · exact ih q hq
    · exact Or.inl rfl
    · exact Or.inr rfl

/-- C20: in every store reachable from the seeded store every partner link has the status
`invited` or `active`, never `accepted`; a successful invitation returns a link with
status `invited`; and every link after any request was there before with the same
status, or is the link just invited, or is a former link whose status was set to
`active`. -/
theorem C20_partner_status_invited_or_active (clock : SeedClock) (ds : DataStore)
    (h : Reachable clock ds) :
    (∀ p ∈ ds.partners, p.Status = lit "invited" ∨ p.Status = lit "active") ∧
    (∀ p ∈ ds.partners, p.Status ≠ lit "accepted") ∧
    (∀ now email p, (InvitePartner ds now email).2 = Except.ok p →
      p.Status = lit "invited" ∧ p ∈ (InvitePartner ds now email).1.partners) ∧
    (∀ op : Op, ∀ q ∈ (op.apply ds).partners,
      q ∈ ds.partners ∨
      (∃ now email, op = Op.invite now email ∧ q.Status = lit "invited") ∨
      (∃ p ∈ ds.partners, ∃ now, op = Op.accept now p.ID ∧
        q = { p with Status := lit "active", AcceptedAt := now })) := by
  have hst := reachable_partner_status clock ds h
  refine ⟨hst, ?_, ?_, ?_⟩
  · intro p hp hacc
    rcases hst p hp with h1 | h1
    · rw [h1] at hacc; exact absurd hacc (by decide)
    · rw [h1] at hacc; exact absurd hacc (by decide)
  · intro now email p hp
    by_cases hc : email = []
    · simp [InvitePartner, hc] at hp
    · by_cases hd : partnerExists ds.partners email = true
      · simp [InvitePartner, hc, hd] at hp
      · simp only [InvitePartner, hc, hd, if_false, Bool.false_eq_true, getNextID,
          Except.ok.injEq] at hp ⊢
        subst hp
        exact ⟨rfl, by simp⟩
  · intro op q hq
    rcases apply_partner_origin ds op q hq with hq | ⟨now, email, hop, rfl⟩ | hacc
    · exact Or.inl hq
    · exact Or.inr (Or.inl ⟨now, email, hop, rfl⟩)
    · exact Or.inr (Or.inr hacc)

/-- C20, after an invitation and its acceptance on the seeded store of the sample clock:
the three links are active, invited and active. -/
theorem C20_partner_status_invited_or_active_witness :
    (run (NewDataStore sampleClock)
      [Op.invite (lit "2025-03-15T12:00:00Z") (lit "x@example.com"),
       Op.accept (lit "2025-03-16T12:00:00Z") (lit "id-1")]).partners.map Partner.Status
      = [lit "active", lit "invited", lit "active"] ∧
    ∀ p ∈ (run (NewDataStore sampleClock)
      [Op.invite (lit "2025-03-15T12:00:00Z") (lit "x@example.com"),
       Op.accept (lit "2025-03-16T12:00:00Z") (lit "id-1")]).partners,
      p.Status = lit "invited" ∨ p.Status = lit "active" :=
  ⟨by decide, (C20_partner_status_invited_or_active sampleClock _
    (reachable_run sampleClock
      [Op.invite (lit "2025-03-15T12:00:00Z") (lit "x@example.com"),
       Op.accept (lit "2025-03-16T12:00:00Z") (lit "id-1")])).1⟩

/-! ## C17, C18, C19: the seeded transactions -/

theorem seedTransactions_eq (clock : SeedClock) :
    (NewDataStore clock).transactions = (List.range 40).map (seedTransaction clock) := by
  simp [NewDataStore, seedData]

theorem seedTransactions_get (clock : SeedClock) (i : Nat) (hi : i < 40) :
    (NewDataStore clock).transactions.get? i = some (seedTransaction clock i) := by
  rw [seedTransactions_eq, List.get?_eq_getElem?, List.getElem?_map,
    List.getElem?_range hi]
  rfl

theorem seedTransaction_ID (clock : SeedClock) (i : Nat) :
    (seedTransaction clock i).ID = lit "txn-" ++ natToDec (i + 1) := by
  have h : intToDec ((i : Int) + 1) = natToDec (i + 1) := by
    unfold intToDec
    rw [if_neg (by omega)]
    congr 1
  exact congrArg (fun s => lit "txn-" ++ s) h

theorem seedTransaction_AccountID (clock : SeedClock) (i : Nat) :
    (seedTransaction clock i).AccountID = seedAccountIDs.getD (i % 3) [] := rfl

theorem seedTransaction_IsIncome (clock : SeedClock) (i : Nat) :
    (seedTransaction clock i).IsIncome = decide (i % 10 = 0 ∨ i % 11 = 0) := rfl

theorem seedTransaction_Status (clock : SeedClock) (i : Nat) :
    (seedTransaction clock i).Status
      = some (if i % 5 = 0 then lit "pending" else lit "posted") := rfl

theorem seedTransaction_Date (clock : SeedClock) (i : Nat) :
    (seedTransaction clock i).Date = clock.format (seedDate clock i) := rfl

theorem seedTransaction_brokerage (clock : SeedClock) (i : Nat)
    (hb : (seedTransaction clock i).AccountID = lit "acc-brokerage-1") :
    ((seedTransaction clock i).IsIncome = true →
      (seedTransaction clock i).Merchant = some (lit "Dividend Payment") ∧
      (seedTransaction clock i).Category = some (lit "Dividend")) ∧
    ((seedTransaction clock i).IsIncome = false →
      (seedTransaction clock i).Merchant = some (lit "Stock Purchase") ∧
      (seedTransaction clock i).Category = some (lit "Investment")) := by
  have hb0 : seedAccountIDs.getD (i % seedAccountIDs.length) [] = lit "acc-brokerage-1" := hb
  have hb' : seedAccountIDs[i % seedAccountIDs.length]?.getD [] = lit "acc-brokerage-1" := by
    simpa using hb0
  constructor
  · intro hinc
    have hinc' : (i % 10 = 0 ∨ i % 11 = 0) := of_decide_eq_true hinc
    simp [seedTransaction, hb', hinc']
  · intro hinc
    have hinc' : ¬ (i % 10 = 0 ∨ i % 11 = 0) := of_decide_eq_false hinc
    simp [seedTransaction, hb', hinc']

/-- C17: for every clock, `seedData` produces exactly 40 transactions, and the one at
position `i < 40` has the identifier `txn-(i+1)`, the account at index `i mod 3` of
acc-checking-1, acc-savings-1, acc-brokerage-1, is income exactly when 10 or 11 divides
`i`, has status pending exactly when 5 divides `i` and posted otherwise, and on the
brokerage account has merchant and category Dividend Payment and Dividend when income,
Stock Purchase and Investment when not. -/
theorem C17_seeded_transactions (clock : SeedClock) (i : Nat) (hi : i < 40) :
    (NewDataStore clock).transactions.length = 40 ∧
    ∃ t, (NewDataStore clock).transactions.get? i = some t ∧
      t.ID = lit "txn-" ++ natToDec (i + 1) ∧
      [lit "acc-checking-1", lit "acc-savings-1", lit "acc-brokerage-1"].get? (i % 3)
        = some t.AccountID ∧
      (t.IsIncome = true ↔ (10 ∣ i ∨ 11 ∣ i)) ∧
      (5 ∣ i → t.Status = some (lit "pending")) ∧
      (¬ 5 ∣ i → t.Status = some (lit "posted")) ∧
      (t.AccountID = lit "acc-brokerage-1" →
        (t.IsIncome = true →
          t.Merchant = some (lit "Dividend Payment") ∧ t.Category = some (lit "Dividend")) ∧
        (t.IsIncome = false →
          t.Merchant = some (lit "Stock Purchase") ∧
          t.Category = some (lit "Investment"))) := by
  refine ⟨by simp [seedTransactions_eq], seedTransaction clock i,
    seedTransactions_get clock i hi, seedTransaction_ID clock i, ?_, ?_, ?_, ?_,
    seedTransaction_brokerage clock i⟩
  · rw [seedTransaction_AccountID]
    have h3 : i % 3 = 0 ∨ i % 3 = 1 ∨ i % 3 = 2 := by omega
    rcases h3 with h | h | h <;> rw [h] <;> rfl
  · rw [seedTransaction_IsIncome, decide_eq_true_iff, Nat.dvd_iff_mod_eq_zero,
      Nat.dvd_iff_mod_eq_zero]
  · intro h5
    rw [seedTransaction_Status, if_pos (Nat.mod_eq_zero_of_dvd h5)]
  · intro h5
    rw [seedTransaction_Status, if_neg (fun h => h5 (Nat.dvd_of_mod_eq_zero h))]

/-- C17 at position 20 on the sample clock: the transaction `txn-21` is on the brokerage
account, is income, is pending, and is a dividend payment. -/
theorem C17_seeded_transactions_witness :
    20 < 40 ∧ ∃ t, (NewDataStore sampleClock).transactions.get? 20 = some t ∧
      t.ID = lit "txn-21" ∧ t.AccountID = lit "acc-brokerage-1" ∧ t.IsIncome = true ∧
      t.Status = some (lit "pending") ∧ t.Merchant = some (lit "Dividend Payment") ∧
      t.Category = some (lit "Dividend") := by
  obtain ⟨-, t, ht, hid, hacc, hinc, hpend, -, hbro⟩ :=
    C17_seeded_transactions sampleClock 20 (by decide)
  have hacc' : t.AccountID = lit "acc-brokerage-1" := by
    have : some (lit "acc-brokerage-1") = some t.AccountID := hacc
    exact (Option.some.inj this).symm
  have hinc' : t.IsIncome = true := hinc.2 (Or.inl (by decide))
  exact ⟨by decide, t, ht, hid, hacc', hinc', hpend (by decide),
    ((hbro hacc').1 hinc').1, ((hbro hacc').1 hinc').2⟩

/-- C18: with the current day of month `D` in 1..31 and a position `i < 20`, the modulus
`i % D` is not by zero, the offset `daysAgo = D - 1 - (i % D)` lies in `0 .. D - 1`, and
the day of month `D - daysAgo` is `1 + (i % D)`, between 1 and `D`; so the first clamp
(`daysAgo < 0`) is never taken, and for a clock on which no day `now - k` with
`0 <= k < D` is before the first of the month the second clamp is not taken either: the
transaction is dated `now - daysAgo`. -/
theorem C18_current_month_offsets (D i : Nat) (hD1 : 1 ≤ D) (hD31 : D ≤ 31) (hi : i < 20) :
    D ≠ 0 ∧ 0 ≤ daysAgoCurrent D i ∧ daysAgoCurrent D i ≤ (D : Int) - 1 ∧
    (D : Int) - daysAgoCurrent D i = 1 + ((i % D : Nat) : Int) ∧
    1 ≤ 1 + i % D ∧ 1 + i % D ≤ D ∧
    ∀ clock : SeedClock, clock.day = D →
      (if daysAgoCurrent clock.day i < 0 then 0 else daysAgoCurrent clock.day i)
        = daysAgoCurrent D i ∧
      ((∀ k : Int, 0 ≤ k → k < D → clock.beforeFirstOfMonth k = false) →
        clock.beforeFirstOfMonth (daysAgoCurrent D i) = false ∧
        seedDate clock i = SeedDate.nowMinus (daysAgoCurrent D i) ∧
        ((NewDataStore clock).transactions.get? i).map Transaction.Date
          = some (clock.format (SeedDate.nowMinus (daysAgoCurrent D i)))) := by
  have hmod : i % D < D := Nat.mod_lt _ (by omega)
  have h0 : 0 ≤ daysAgoCurrent D i := by unfold daysAgoCurrent; omega
  have h1 : daysAgoCurrent D i ≤ (D : Int) - 1 := by unfold daysAgoCurrent; omega
  refine ⟨by omega, h0, h1, by unfold daysAgoCurrent; omega, by omega, by omega, ?_⟩
  intro clock hday
  subst hday
  have hclamp : (if daysAgoCurrent clock.day i < 0 then 0 else daysAgoCurrent clock.day i)
      = daysAgoCurrent clock.day i := if_neg (by omega)
  refine ⟨hclamp, fun hcal => ?_⟩
  have hb : clock.beforeFirstOfMonth (daysAgoCurrent clock.day i) = false :=
    hcal _ h0 (by omega)
  have hs : seedDate clock i = SeedDate.nowMinus (daysAgoCurrent clock.day i) := by
    unfold seedDate
    simp only [if_pos hi, hclamp, hb, Bool.false_eq_true, if_false]
  refine ⟨hb, hs, ?_⟩
  rw [seedTransactions_get clock i (by omega), Option.map_some', seedTransaction_Date, hs]

/-- C18 on the 15th of March 2025 at position 17: the offset is 12 days and the
transaction is dated on the 3rd. -/
theorem C18_current_month_offsets_witness :
    (1 ≤ 15 ∧ 15 ≤ 31 ∧ 17 < 20) ∧ daysAgoCurrent 15 17 = 12 ∧
    ((NewDataStore sampleClock).transactions.get? 17).map Transaction.Date
      = some (lit "2025-03-03T12:00:00Z") := by
  have h := (C18_current_month_offsets 15 17 (by decide) (by decide) (by decide)).2.2.2.2.2.2
    sampleClock rfl
  have hcal : ∀ k : Int, 0 ≤ k → k < (15 : Nat) → sampleClock.beforeFirstOfMonth k = false := by
    intro k _ hk
    simp only [sampleClock, decide_eq_false_iff_not, not_le]
    exact_mod_cast hk
  refine ⟨by decide, by decide, ?_⟩
  rw [(h.2 hcal).2.2]
  decide

/-- C19 fails in the code: the offsets `30 + (i - 20) * 4` of the positions 36, 37, 38
and 39 are 94, 98, 102 and 106 days, beyond the 90 days named in the comments of
`seedData`; the positions 20 to 35 stay within 90 days. For every clock the last
transaction is dated 106 days before the current date. -/
theorem C19_older_offsets_exceed_90 :
    (List.range 40).filter (fun i => decide (20 ≤ i ∧ 90 < daysAgoOlder i)) = [36, 37, 38, 39] ∧
    (List.range 40).filter (fun i => decide (20 ≤ i ∧ daysAgoOlder i ≤ 90))
      = [20, 21, 22, 23, 24, 25, 26, 27, 28, 29, 30, 31, 32, 33, 34, 35] ∧
    daysAgoOlder 36 = 94 ∧ daysAgoOlder 37 = 98 ∧ daysAgoOlder 38 = 102 ∧
    daysAgoOlder 39 = 106 ∧
    ∀ clock : SeedClock, seedDate clock 39 = SeedDate.nowMinus 106 ∧
      ((NewDataStore clock).transactions.get? 39).map Transaction.Date
        = some (clock.format (SeedDate.nowMinus 106)) := by
  refine ⟨by decide, by decide, by decide, by decide, by decide, by decide, fun clock => ?_⟩
  have hs : seedDate clock 39 = SeedDate.nowMinus 106 := by
    unfold seedDate
    rw [if_neg (by decide)]
    rfl
  refine ⟨hs, ?_⟩
  rw [seedTransactions_get clock 39 (by decide), Option.map_some', seedTransaction_Date, hs]

/-! ## C16: the transactions after seeding -/

theorem updateCategoryLoop_fixed (txnID category : Str) (ts ts' : List Transaction)
    (r : Transaction) (h : updateCategoryLoop txnID category ts = some (ts', r)) :
    ts'.map fixedFields = ts.map fixedFields := by
  induction ts generalizing ts' r with
  | nil => simp [updateCategoryLoop] at h
  | cons a ts ih =>
    unfold updateCategoryLoop at h
    by_cases ha : a.ID = txnID
    · rw [if_pos ha] at h
      simp only [Option.some.injEq, Prod.mk.injEq] at h
      rw [← h.1]
      rfl
    · rw [if_neg ha] at h
      cases hl : updateCategoryLoop txnID category ts with
      | none => simp [hl] at h
      | some p =>
        obtain ⟨ts1, r1⟩ := p
        simp only [hl, Option.some.injEq, Prod.mk.injEq] at h
        rw [← h.1, List.map_cons, List.map_cons, ih ts1 r1 hl]

/-- No request changes the accounts, nor any field of a transaction except the
category, nor the number or order of the transactions. -/
theorem apply_fixed (ds : DataStore) (op : Op) :
    (op.apply ds).transactions.map fixedFields = ds.transactions.map fixedFields ∧
    (op.apply ds).accounts = ds.accounts := by
  cases op with
  | updateCategory txnID category =>
    simp only [Op.apply, UpdateTransactionCategory]
    cases hl : updateCategoryLoop txnID category ds.transactions with
    | none => exact ⟨rfl, rfl⟩
    | some p =>
      obtain ⟨ts, r⟩ := p
      exact ⟨updateCategoryLoop_fixed _ _ _ _ _ hl, rfl⟩
  | createBudget month category limitAmount =>
    simp only [Op.apply, CreateBudget, getNextID]
    split_ifs <;> exact ⟨rfl, rfl⟩
  | createGoal name targetAmount targetDate =>
    simp only [Op.apply, CreateGoal, getNextID]
    split_ifs <;> exact ⟨rfl, rfl⟩
  | invite now email =>
    simp only [Op.apply, InvitePartner, getNextID]
    split_ifs <;> exact ⟨rfl, rfl⟩
  | accept now partnerID =>
    simp only [Op.apply, AcceptPartnerInvite]
    cases hl : acceptLoop partnerID now ds.partners with
    | none => exact ⟨rfl, rfl⟩
    | some p => exact ⟨rfl, rfl⟩
  | remove partnerID =>
    simp only [Op.apply, RemovePartnerLink]
    cases hl : removeLoop partnerID ds.partners with
    | none => exact ⟨rfl, rfl⟩
    | some p => exact ⟨rfl, rfl⟩

theorem reachable_fixed (clock : SeedClock) (ds : DataStore) (h : Reachable clock ds) :
    ds.transactions.map fixedFields = (NewDataStore clock).transactions.map fixedFields ∧
    ds.accounts = (NewDataStore clock).accounts := by
  induction h with
  | seeded => exact ⟨rfl, rfl⟩
  | step ds op _ ih =>
    obtain ⟨h1, h2⟩ := apply_fixed ds op
    exact ⟨h1.trans ih.1, h2.trans ih.2⟩

theorem seedTransaction_account (clock : SeedClock) (i : Nat) :
    ∃ a ∈ seedAccounts, a.ID = (seedTransaction clock i).AccountID := by
  rw [seedTransaction_AccountID]
  have h3 : i % 3 = 0 ∨ i % 3 = 1 ∨ i % 3 = 2 := by omega
  rcases h3 with h | h | h <;> rw [h] <;> decide

/-- C16: in every store reachable from the seeded one, the transactions are as many as
at seeding (40) and agree with the seeded ones, position by position, in id, accountId,
date, amount, merchant, isIncome and status; the accounts are the seeded ones and every
transaction's accountId is the identifier of one of them; and when the clock's RFC 3339
formatter yields at least ten bytes, every date has at least ten bytes, so that the
slice `Date[:10]` is in bounds and `ListTransactions` returns for every request. -/
theorem C16_transactions_fixed (clock : SeedClock) (ds : DataStore)
    (h : Reachable clock ds) :
    ds.transactions.length = (NewDataStore clock).transactions.length ∧
    ds.transactions.length = 40 ∧
    (∀ i, (ds.transactions.get? i).map fixedFields
      = ((NewDataStore clock).transactions.get? i).map fixedFields) ∧
    ds.accounts = (NewDataStore clock).accounts ∧
    (∀ t ∈ ds.transactions, ∃ a ∈ (NewDataStore clock).accounts, a.ID = t.AccountID) ∧
    ((∀ d, 10 ≤ (clock.format d).length) →
      (∀ t ∈ ds.transactions, 10 ≤ t.Date.length) ∧
      (∀ t ∈ ds.transactions, sliceTo t.Date 10 = some (t.Date.take 10)) ∧
      ∀ (ul : Str → Str) (f : Filters), ∃ r, ListTransactions ul ds f = some r) := by
  obtain ⟨hfix, hacc⟩ := reachable_fixed clock ds h
  have hlen : ds.transactions.length = (NewDataStore clock).transactions.length := by
    have := congrArg List.length hfix
    simpa using this
  have hmem : ∀ t ∈ ds.transactions, ∃ i, fixedFields t = fixedFields (seedTransaction clock i) := by
    intro t ht
    have h1 : fixedFields t ∈ ds.transactions.map fixedFields := List.mem_map_of_mem _ ht
    rw [hfix, seedTransactions_eq, List.map_map] at h1
    obtain ⟨i, -, hi⟩ := List.mem_map.1 h1
    exact ⟨i, hi.symm⟩
  refine ⟨hlen, by rw [hlen, seedTransactions_eq]; simp, ?_, hacc, ?_, ?_⟩
  · intro i
    rw [List.get?_eq_getElem?, List.get?_eq_getElem?, ← List.getElem?_map,
      ← List.getElem?_map, hfix]
  · intro t ht
    obtain ⟨i, hi⟩ := hmem t ht
    have ha : t.AccountID = (seedTransaction clock i).AccountID :=
      congrArg (fun p => p.2.1) hi
    rw [ha]
    exact seedTransaction_account clock i
  · intro hfmt
    have hdate : ∀ t ∈ ds.transactions, 10 ≤ t.Date.length := by
      intro t ht
      obtain ⟨i, hi⟩ := hmem t ht
      have hd : t.Date = (seedTransaction clock i).Date := congrArg (fun p => p.2.2.1) hi
      rw [hd, seedTransaction_Date]
      exact hfmt _
    refine ⟨hdate, ?_, ?_⟩
    · intro t ht
      unfold sliceTo
      rw [if_pos (hdate t ht)]
    · intro ul f
      obtain ⟨ts, hts⟩ := filterTransactions_isSome ul f ds.transactions (Or.inr hdate)
      exact ⟨_, (ListTransactions_eq_some_iff ul ds f _).2 ⟨ts, hts, rfl⟩⟩

theorem sampleClock_format_length (d : SeedDate) : 10 ≤ (sampleClock.format d).length := by
  cases d with
  | nowMinus k =>
    simp only [sampleClock, formatNoonUTC, List.length_append]
    have : (lit "T12:00:00Z").length = 10 := by decide
    omega
  | firstOfMonthPlus k =>
    simp only [sampleClock, List.length_append]
    have : (lit "T00:00:00Z").length = 10 := by decide
    omega

/-- C16 after re-categorising `txn-1` on the sample clock: still 40 transactions, the
seeded accounts, and a request with a date bound is answered. -/
theorem C16_transactions_fixed_witness :
    (run (NewDataStore sampleClock)
      [Op.updateCategory (lit "txn-1") (lit "Travel")]).transactions.length = 40 ∧
    (run (NewDataStore sampleClock)
      [Op.updateCategory (lit "txn-1") (lit "Travel")]).accounts
      = (NewDataStore sampleClock).accounts ∧
    ∃ r, ListTransactions id
      (run (NewDataStore sampleClock) [Op.updateCategory (lit "txn-1") (lit "Travel")])
      { noFilters with from_ := lit "2025-03-01" } = some r := by
  have h := C16_transactions_fixed sampleClock
    (run (NewDataStore sampleClock) [Op.updateCategory (lit "txn-1") (lit "Travel")])
    (reachable_run sampleClock _)
  exact ⟨h.2.1, h.2.2.2.1, (h.2.2.2.2.2 sampleClock_format_length).2.2 id _⟩

/-! ## C14: the date range -/

theorem strLt_cons (a b : Nat) (s t : Str) :
    strLt (a :: s) (b :: t) = true ↔ a < b ∨ (a = b ∧ strLt s t = true) := by
  simp only [strLt]
  by_cases h1 : a < b
  · simp [h1]
  · by_cases h2 : b < a
    · have h3 : a ≠ b := by omega
      simp [h1, h2, h3]
    · have h3 : a = b := by omega
      simp [h1, h2, h3]

theorem strLt_nil : strLt [] [] = true ↔ False := by simp [strLt]

/-- The bytewise order is total: not `s < t` means `s = t` or `t < s`. -/
theorem strLt_eq_false_iff (s t : Str) : strLt s t = false ↔ (s = t ∨ strLt t s = true) := by
  induction s generalizing t with
  | nil => cases t <;> simp [strLt]
  | cons a s ih =>
    cases t with
    | nil => simp [strLt]
    | cons b t =>
      rw [← Bool.not_eq_true, strLt_cons, strLt_cons, List.cons.injEq]
      have ih1 := ih t
      rw [← Bool.not_eq_true] at ih1
      rcases Nat.lt_trichotomy a b with h | h | h
      · have h1 : a ≠ b := by omega
        have h2 : ¬ b < a := by omega
        have h3 : b ≠ a := by omega
        simp only [h, h1, h2, h3, true_or, not_true_eq_false, false_and, or_false]
      · subst h
        simp only [lt_self_iff_false, true_and, false_or]
        exact ih1
      · have h1 : a ≠ b := by omega
        have h2 : ¬ a < b := by omega
        simp only [h, h1, h2, false_and, or_false, not_false_eq_true, true_or, or_true]

theorem parseYMD_some (s : Str) (a : Nat × Nat × Nat) (hs : parseYMD s = some a) :
    ∃ y1 y2 y3 y4 m1 m2 d1 d2 : Nat,
      s = [y1 + 48, y2 + 48, y3 + 48, y4 + 48, 45, m1 + 48, m2 + 48, 45, d1 + 48, d2 + 48] ∧
      y1 ≤ 9 ∧ y2 ≤ 9 ∧ y3 ≤ 9 ∧ y4 ≤ 9 ∧ m1 ≤ 9 ∧ m2 ≤ 9 ∧ d1 ≤ 9 ∧ d2 ≤ 9 ∧
      a = (1000 * y1 + 100 * y2 + 10 * y3 + y4, 10 * m1 + m2, 10 * d1 + d2) := by
  unfold parseYMD at hs
  split at hs
  · rename_i y1 y2 y3 y4 h1 m1 m2 h2 d1 d2
    split_ifs at hs with hc
    obtain ⟨rfl, rfl, hc⟩ := hc
    refine ⟨y1 - 48, y2 - 48, y3 - 48, y4 - 48, m1 - 48, m2 - 48, d1 - 48, d2 - 48, ?_,
      by omega, by omega, by omega, by omega, by omega, by omega, by omega, by omega,
      (Option.some.inj hs).symm⟩
    rw [Nat.sub_add_cancel hc.1.1, Nat.sub_add_cancel hc.2.1.1, Nat.sub_add_cancel hc.2.2.1.1,
      Nat.sub_add_cancel hc.2.2.2.1.1, Nat.sub_add_cancel hc.2.2.2.2.1.1,
      Nat.sub_add_cancel hc.2.2.2.2.2.1.1, Nat.sub_add_cancel hc.2.2.2.2.2.2.1.1,
      Nat.sub_add_cancel hc.2.2.2.2.2.2.2.1]
  · cases hs

/-- On zero-padded `YYYY-MM-DD` strings the bytewise order is the chronological one. -/
theorem strLt_iff_ymdLt (s t : Str) (a b : Nat × Nat × Nat) (hs : parseYMD s = some a)
    (ht : parseYMD t = some b) : strLt s t = true ↔ ymdLt a b := by
  obtain ⟨y1, y2, y3, y4, m1, m2, d1, d2, rfl, _, _, _, _, _, _, _, _, rfl⟩ :=
    parseYMD_some s a hs
  obtain ⟨z1, z2, z3, z4, n1, n2, e1, e2, rfl, _, _, _, _, _, _, _, _, rfl⟩ :=
    parseYMD_some t b ht
  simp only [strLt_cons, strLt_nil, ymdLt, true_and, and_false, or_false, lt_self_iff_false,
    false_or]
  omega

theorem strLe_iff_ymdLe (s t : Str) (a b : Nat × Nat × Nat) (hs : parseYMD s = some a)
    (ht : parseYMD t = some b) : (s = t ∨ strLt s t = true) ↔ ymdLe a b := by
  have h1 := strLt_iff_ymdLt t s b a ht hs
  have h2 : ¬ ymdLt b a ↔ ymdLe a b := by
    obtain ⟨a1, a2, a3⟩ := a
    obtain ⟨b1, b2, b3⟩ := b
    simp only [ymdLe, ymdLt, Prod.mk.injEq]
    omega
  rw [← h2, ← h1, Bool.not_eq_true, strLt_eq_false_iff]
  constructor
  · rintro (h | h)
    · exact Or.inl h.symm
    · exact Or.inr h
  · rintro (h | h)
    · exact Or.inl h.symm
    · exact Or.inr h

/-- C14: when every timestamp has at least ten bytes, the request with the bounds `from`
and `to` is answered with exactly the transactions whose first ten bytes `d` satisfy
`d >= from` (when `from` is given) and `d <= to` (when `to` is given) in the bytewise
order, both bounds included; on zero-padded `YYYY-MM-DD` strings that order is the
chronological order of the (year, month, day) they denote, so a transaction with such a
date is kept exactly when its calendar date lies in the closed interval. -/
theorem C14_date_range_filter (ul : Str → Str) (ds : DataStore) (from_ to_ : Str)
    (hlen : ∀ t ∈ ds.transactions, 10 ≤ t.Date.length) :
    ∃ r, ListTransactions ul ds { noFilters with from_ := from_, to_ := to_ } = some r ∧
      r.Transactions = ds.transactions.filter (fun t =>
        (decide (from_ = []) || !strLt (t.Date.take 10) from_) &&
        (decide (to_ = []) || !strLt to_ (t.Date.take 10))) ∧
      (∀ t, t ∈ r.Transactions ↔ t ∈ ds.transactions ∧
        (from_ ≠ [] → (from_ = t.Date.take 10 ∨ strLt from_ (t.Date.take 10) = true)) ∧
        (to_ ≠ [] → (t.Date.take 10 = to_ ∨ strLt (t.Date.take 10) to_ = true))) ∧
      (∀ (s t : Str) (a b : Nat × Nat × Nat), parseYMD s = some a → parseYMD t = some b →
        ((strLt s t = true ↔ ymdLt a b) ∧ ((s = t ∨ strLt s t = true) ↔ ymdLe a b))) ∧
      (∀ t ∈ ds.transactions, ∀ a b d : Nat × Nat × Nat,
        parseYMD (t.Date.take 10) = some d → (from_ ≠ [] → parseYMD from_ = some a) →
        (to_ ≠ [] → parseYMD to_ = some b) →
        (t ∈ r.Transactions ↔ (from_ ≠ [] → ymdLe a d) ∧ (to_ ≠ [] → ymdLe d b))) := by
  obtain ⟨ts, hts⟩ := filterTransactions_isSome ul
    { noFilters with from_ := from_, to_ := to_ } ds.transactions (Or.inr hlen)
  have hfil : ts = ds.transactions.filter (fun t =>
      (decide (from_ = []) || !strLt (t.Date.take 10) from_) &&
      (decide (to_ = []) || !strLt to_ (t.Date.take 10))) := by
    rw [filterTransactions_eq ul _ _ _ hts]
    congr 1
    funext t
    simp [specMatches, noFilters]
  have hmem : ∀ t, t ∈ ts ↔ t ∈ ds.transactions ∧
      (from_ ≠ [] → (from_ = t.Date.take 10 ∨ strLt from_ (t.Date.take 10) = true)) ∧
      (to_ ≠ [] → (t.Date.take 10 = to_ ∨ strLt (t.Date.take 10) to_ = true)) := by
    intro t
    rw [hfil, List.mem_filter, Bool.and_eq_true, Bool.or_eq_true, Bool.or_eq_true,
      decide_eq_true_iff, decide_eq_true_iff, Bool.not_eq_true', Bool.not_eq_true',
      strLt_eq_false_iff, strLt_eq_false_iff]
    constructor
    · rintro ⟨h0, h1, h2⟩
      refine ⟨h0, fun hf => ?_, fun ht => ?_⟩
      · rcases h1 with h1 | h1 | h1
        · exact absurd h1 hf
        · exact Or.inl h1.symm
        · exact Or.inr h1
      · rcases h2 with h2 | h2 | h2
        · exact absurd h2 ht
        · exact Or.inl h2.symm
        · exact Or.inr h2
    · rintro ⟨h0, h1, h2⟩
      refine ⟨h0, ?_, ?_⟩
      · by_cases hf : from_ = []
        · exact Or.inl hf
        · rcases h1 hf with h | h
          · exact Or.inr (Or.inl h.symm)
          · exact Or.inr (Or.inr h)
      · by_cases ht : to_ = []
        · exact Or.inl ht
        · rcases h2 ht with h | h
          · exact Or.inr (Or.inl h.symm)
          · exact Or.inr (Or.inr h)
  refine ⟨_, (ListTransactions_eq_some_iff ul ds _ _).2 ⟨ts, hts, rfl⟩, hfil, hmem,
    fun s t a b hs ht => ⟨strLt_iff_ymdLt s t a b hs ht, strLe_iff_ymdLe s t a b hs ht⟩, ?_⟩
  intro t htm a b d hd ha hb
  show t ∈ ts ↔ _
  rw [hmem t]
  constructor
  · rintro ⟨-, h1, h2⟩
    exact ⟨fun hf => (strLe_iff_ymdLe _ _ a d (ha hf) hd).1 (h1 hf),
      fun ht => (strLe_iff_ymdLe _ _ d b hd (hb ht)).1 (h2 ht)⟩
  · rintro ⟨h1, h2⟩
    exact ⟨htm, fun hf => (strLe_iff_ymdLe _ _ a d (ha hf) hd).2 (h1 hf),
      fun ht => (strLe_iff_ymdLe _ _ d b hd (hb ht)).2 (h2 ht)⟩

/-- C14 on three transactions dated 2025-02-28, 2025-03-01 and 2025-03-02 with the range
2025-03-01..2025-03-01: exactly the second one is kept. -/
theorem C14_date_range_filter_witness :
    ∃ r, ListTransactions id
      (storeOf [sampleTxn "txn-1" "2025-02-28T12:00:00Z" "10.00" (some "Food") false,
                sampleTxn "txn-2" "2025-03-01T00:00:00Z" "20.00" (some "Food") false,
                sampleTxn "txn-3" "2025-03-02T09:30:00Z" "30.00" (some "Rent") false])
      { noFilters with from_ := lit "2025-03-01", to_ := lit "2025-03-01" } = some r ∧
      r.Transactions = [sampleTxn "txn-2" "2025-03-01T00:00:00Z" "20.00" (some "Food") false] := by
  obtain ⟨r, hr, hf, -⟩ := C14_date_range_filter id
    (storeOf [sampleTxn "txn-1" "2025-02-28T12:00:00Z" "10.00" (some "Food") false,
              sampleTxn "txn-2" "2025-03-01T00:00:00Z" "20.00" (some "Food") false,
              sampleTxn "txn-3" "2025-03-02T09:30:00Z" "30.00" (some "Rent") false])
    (lit "2025-03-01") (lit "2025-03-01") (by decide)
  exact ⟨r, hr, hf.trans (by decide)⟩

/-! ## C15: the free-text filter -/

theorem startsWith_iff_initial (s p : Str) : startsWith s p = true ↔ p <+: s := by
  induction s generalizing p with
  | nil => cases p <;> simp [startsWith]
  | cons a s ih =>
    cases p with
    | nil => simp [startsWith]
    | cons b p =>
      simp only [startsWith, Bool.and_eq_true, beq_iff_eq, ih, List.cons_prefix_cons]
      exact ⟨fun h => ⟨h.1.symm, h.2⟩, fun h => ⟨h.1.symm, h.2⟩⟩

/-- The function `Contains` decides whether `sub` is a contiguous part of `s`. -/
theorem Contains_iff_part (s sub : Str) : Contains s sub = true ↔ sub <:+: s := by
  induction s with
  | nil =>
    rw [Contains, startsWith_iff_initial, List.prefix_nil, List.infix_nil]
  | cons a s ih =>
    rw [Contains, Bool.or_eq_true, startsWith_iff_initial, ih, List.infix_cons_iff]

theorem sameUpToCase_lower (a b : Str) (ha : ∀ c ∈ a, c < 128)
    (h : sameUpToCase a b = true) : (∀ c ∈ b, c < 128) ∧ asciiLower a = asciiLower b := by
  induction a generalizing b with
  | nil =>
    cases b with
    | nil => exact ⟨by simp, rfl⟩
    | cons y b => simp [sameUpToCase] at h
  | cons x a ih =>
    cases b with
    | nil => simp [sameUpToCase] at h
    | cons y b =>
      simp only [sameUpToCase, Bool.and_eq_true, sameLetter, decide_eq_true_eq] at h
      obtain ⟨hxy, hab⟩ := h
      obtain ⟨hb, hl⟩ := ih b (fun c hc => ha c (List.mem_cons_of_mem _ hc)) hab
      have hx : x < 128 := ha x (List.mem_cons_self _ _)
      refine ⟨?_, ?_⟩
      · intro c hc
        rcases List.mem_cons.1 hc with rfl | hc
        · omega
        · exact hb c hc
      · unfold asciiLower at hl ⊢
        rw [List.map_cons, List.map_cons, hl]
        congr 1
        split_ifs <;> omega

/-- Two ASCII strings that differ at most in letter case have the same lower-cased
form. -/
theorem ToLower_sameUpToCase (ul : Str → Str) (a b : Str) (ha : ∀ c ∈ a, c < 128)
    (h : sameUpToCase a b = true) : ToLower ul a = ToLower ul b := by
  obtain ⟨hb, hl⟩ := sameUpToCase_lower a b ha h
  unfold ToLower
  rw [if_pos (by simpa [List.all_eq_true] using ha), if_pos (by simpa [List.all_eq_true] using hb),
    hl]

theorem asciiLower_byte_iff (a b : Nat) :
    (if 65 ≤ a ∧ a ≤ 90 then a + 32 else a) = (if 65 ≤ b ∧ b ≤ 90 then b + 32 else b) ↔
      sameLetter a b = true := by
  simp only [sameLetter, decide_eq_true_eq]
  split_ifs <;> omega

/-- Two strings have the same bytewise lower-cased form exactly when they differ at most
in the case of their ASCII letters. -/
theorem asciiLower_eq_iff (a b : Str) :
    asciiLower a = asciiLower b ↔ sameUpToCase a b = true := by
  induction a generalizing b with
  | nil => cases b <;> simp [asciiLower, sameUpToCase]
  | cons x a ih =>
    cases b with
    | nil => simp [asciiLower, sameUpToCase]
    | cons y b =>
      have ih1 := ih b
      unfold asciiLower at ih1 ⊢
      rw [List.map_cons, List.map_cons, List.cons.injEq, sameUpToCase, Bool.and_eq_true,
        asciiLower_byte_iff, ih1]

theorem asciiLower_idem (s : Str) : asciiLower (asciiLower s) = asciiLower s := by
  unfold asciiLower
  rw [List.map_map]
  apply List.map_congr_left
  intro c _
  simp only [Function.comp]
  split_ifs <;> omega

theorem asciiLower_no_upper (s : Str) : ∀ c ∈ asciiLower s, ¬ (65 ≤ c ∧ c ≤ 90) := by
  intro c hc
  unfold asciiLower at hc
  obtain ⟨x, -, rfl⟩ := List.mem_map.1 hc
  split_ifs <;> omega

theorem ToLower_ascii (ul : Str → Str) (s : Str) (hs : ∀ c ∈ s, c < 128) :
    ToLower ul s = asciiLower s := by
  unfold ToLower
  rw [if_pos (by simpa [List.all_eq_true] using hs)]

/-- The lower-cased query is a contiguous part of the lower-cased text exactly when the
query occurs in the text up to the case of ASCII letters. -/
theorem asciiLower_part_iff (q m : Str) :
    asciiLower q <:+: asciiLower m ↔ occursUpToCase q m := by
  constructor
  · rintro ⟨pre1, post1, h⟩
    have h1 : List.map (fun c => if 65 ≤ c ∧ c ≤ 90 then c + 32 else c) m
        = (pre1 ++ asciiLower q) ++ post1 := h.symm
    obtain ⟨l12, post, hm, h12, -⟩ := List.map_eq_append_iff.1 h1
    obtain ⟨pre, mid, hl, -, hmid⟩ := List.map_eq_append_iff.1 h12
    refine ⟨pre, mid, post, by rw [hm, hl], ?_⟩
    exact (asciiLower_eq_iff q mid).1 hmid.symm
  · rintro ⟨pre, mid, post, rfl, h⟩
    have hmid := (asciiLower_eq_iff q mid).2 h
    refine ⟨asciiLower pre, asciiLower post, ?_⟩
    rw [hmid]
    simp [asciiLower]

/-- C15 as stated fails outside ASCII: with the merchant `Σ` (U+03A3), the query `ς`
(U+03C2, the final small sigma) is lower-cased to itself and matches nothing, while the
same query in upper case, `Σ`, is lower-cased to `σ` like the merchant and matches. -/
theorem C15_counterexample :
    greekLower [206, 163] = [207, 131] ∧ greekLower [207, 130] = [207, 130] ∧
    (ListTransactions greekLower
      (storeOf [{ sampleTxn "txn-1" "2025-03-05T12:00:00Z" "10.00" none false with
                  Merchant := some [206, 163] }])
      { noFilters with q := [207, 130] }).map (fun r => r.Transactions) = some [] ∧
    (ListTransactions greekLower
      (storeOf [{ sampleTxn "txn-1" "2025-03-05T12:00:00Z" "10.00" none false with
                  Merchant := some [206, 163] }])
      { noFilters with q := [206, 163] }).map (fun r => r.Transactions)
      = some [{ sampleTxn "txn-1" "2025-03-05T12:00:00Z" "10.00" none false with
                Merchant := some [206, 163] }] := by
  refine ⟨by decide, by decide, by decide!, by decide!⟩

/-- C15 (amended): for a non-empty query `q`, the request with only `q` is answered with
exactly the transactions whose merchant is present and contains the lower-cased `q` in
its lower-cased form, or whose category is present and does; a transaction with neither
is not kept. When `q`, the merchant and the category are ASCII, this is: `q` occurs in
the merchant or in the category up to the case of ASCII letters. The lower-cased form of
an ASCII string differs from it at most in letter case and has no upper-case letter. The
answer depends on `q`, merchant and category only through their lower-cased forms, so it
does not depend on the letter case of an ASCII `q`, merchant or category. -/
theorem C15_free_text_filter (ul : Str → Str) (ds : DataStore) (q : Str) (hq : q ≠ []) :
    ∃ r, ListTransactions ul ds { noFilters with q := q } = some r ∧
      r.Transactions = ds.transactions.filter (searchMatch ul (ToLower ul q)) ∧
      (∀ t, t ∈ r.Transactions ↔ t ∈ ds.transactions ∧
        ((∃ m, t.Merchant = some m ∧ ToLower ul q <:+: ToLower ul m) ∨
         (∃ c, t.Category = some c ∧ ToLower ul q <:+: ToLower ul c))) ∧
      (∀ t, t.Merchant = none → t.Category = none → t ∉ r.Transactions) ∧
      ((∀ x ∈ q, x < 128) → ∀ t : Transaction,
        (∀ m, t.Merchant = some m → ∀ x ∈ m, x < 128) →
        (∀ c, t.Category = some c → ∀ x ∈ c, x < 128) →
        (t ∈ r.Transactions ↔ t ∈ ds.transactions ∧
          ((∃ m, t.Merchant = some m ∧ occursUpToCase q m) ∨
           (∃ c, t.Category = some c ∧ occursUpToCase q c)))) ∧
      (∀ s : Str, (∀ x ∈ s, x < 128) →
        sameUpToCase s (ToLower ul s) = true ∧ (ToLower ul s).length = s.length ∧
        ∀ x ∈ ToLower ul s, ¬ (65 ≤ x ∧ x ≤ 90)) ∧
      (∀ q1, q1 ≠ [] → ToLower ul q1 = ToLower ul q →
        ListTransactions ul ds { noFilters with q := q1 } = some r) ∧
      (∀ q1, (∀ x ∈ q, x < 128) → sameUpToCase q q1 = true →
        ListTransactions ul ds { noFilters with q := q1 } = some r) ∧
      (∀ t t1 : Transaction, t1.Merchant.map (ToLower ul) = t.Merchant.map (ToLower ul) →
        t1.Category.map (ToLower ul) = t.Category.map (ToLower ul) →
        searchMatch ul (ToLower ul q) t1 = searchMatch ul (ToLower ul q) t) ∧
      (∀ a b : Str, (∀ x ∈ a, x < 128) → sameUpToCase a b = true →
        ToLower ul a = ToLower ul b) := by
  have hsome : ∀ q1 : Str, q1 ≠ [] →
      filterTransactions ul { noFilters with q := q1 } ds.transactions
        = some (ds.transactions.filter (searchMatch ul (ToLower ul q1))) := by
    intro q1 hq1
    simp [filterTransactions, noFilters, hq1]
  have hmatch : ∀ t, searchMatch ul (ToLower ul q) t = true ↔
      ((∃ m, t.Merchant = some m ∧ ToLower ul q <:+: ToLower ul m) ∨
       (∃ c, t.Category = some c ∧ ToLower ul q <:+: ToLower ul c)) := by
    intro t
    rw [searchMatch_eq, Bool.or_eq_true]
    cases t.Merchant <;> cases t.Category <;> simp [Contains_iff_part]
  have hsame : ∀ q1, q1 ≠ [] → ToLower ul q1 = ToLower ul q →
      ListTransactions ul ds { noFilters with q := q1 }
        = some { Transactions := ds.transactions.filter (searchMatch ul (ToLower ul q)),
                 Income := fmt2f (summaryLoop F64.zero F64.zero
                   (ds.transactions.filter (searchMatch ul (ToLower ul q)))).1,
                 Expenses := fmt2f (summaryLoop F64.zero F64.zero
                   (ds.transactions.filter (searchMatch ul (ToLower ul q)))).2 } := by
    intro q1 hq1 hl
    rw [ListTransactions_eq_some_iff]
    exact ⟨_, hsome q1 hq1, by rw [hl]⟩
  refine ⟨_, (ListTransactions_eq_some_iff ul ds _ _).2 ⟨_, hsome q hq, rfl⟩, rfl, ?_, ?_, ?_,
    ?_, hsame, ?_, ?_, fun a b ha h => ToLower_sameUpToCase ul a b ha h⟩
  · intro t
    show t ∈ ds.transactions.filter (searchMatch ul (ToLower ul q)) ↔ _
    rw [List.mem_filter, hmatch]
  · intro t hm hc
    show t ∉ ds.transactions.filter (searchMatch ul (ToLower ul q))
    rw [List.mem_filter, hmatch, hm, hc]
    simp
  · intro hqa t htm htc
    show t ∈ ds.transactions.filter (searchMatch ul (ToLower ul q)) ↔ _
    rw [List.mem_filter, hmatch, ToLower_ascii ul q hqa]
    constructor
    · rintro ⟨h0, h | h⟩
      · obtain ⟨m, hm, hin⟩ := h
        rw [ToLower_ascii ul m (htm m hm)] at hin
        exact ⟨h0, Or.inl ⟨m, hm, (asciiLower_part_iff q m).1 hin⟩⟩
      · obtain ⟨c, hc, hin⟩ := h
        rw [ToLower_ascii ul c (htc c hc)] at hin
        exact ⟨h0, Or.inr ⟨c, hc, (asciiLower_part_iff q c).1 hin⟩⟩
    · rintro ⟨h0, h | h⟩
      · obtain ⟨m, hm, hin⟩ := h
        refine ⟨h0, Or.inl ⟨m, hm, ?_⟩⟩
        rw [ToLower_ascii ul m (htm m hm)]
        exact (asciiLower_part_iff q m).2 hin
      · obtain ⟨c, hc, hin⟩ := h
        refine ⟨h0, Or.inr ⟨c, hc, ?_⟩⟩
        rw [ToLower_ascii ul c (htc c hc)]
        exact (asciiLower_part_iff q c).2 hin
  · intro s hs
    rw [ToLower_ascii ul s hs]
    refine ⟨(asciiLower_eq_iff s (asciiLower s)).1 (asciiLower_idem s).symm, ?_,
      asciiLower_no_upper s⟩
    simp [asciiLower]
  · intro q1 hqa hsim
    have hq1 : q1 ≠ [] := by
      intro h0
      subst h0
      cases q with
      | nil => exact hq rfl
      | cons x q => simp [sameUpToCase] at hsim
    exact hsame q1 hq1 (ToLower_sameUpToCase ul q q1 hqa hsim).symm
  · intro t t1 hm hc
    rw [searchMatch_eq, searchMatch_eq]
    cases h1 : t.Merchant <;> cases h2 : t1.Merchant <;> cases h3 : t.Category <;>
      cases h4 : t1.Category <;> simp_all

/-- C15 (amended) on four transactions with the query `FOOD`: the merchant `Whole Foods`
and the category `Fast Food` contain `food` once lower-cased; the record with merchant
`Starbucks` and category `Rent` and the record without merchant and category are
dropped. -/
theorem C15_free_text_filter_witness :
    lit "FOOD" ≠ [] ∧
    ∃ r, ListTransactions id
      (storeOf [sampleTxn "txn-1" "2025-03-05T12:00:00Z" "10.00" (some "Rent") false,
                { sampleTxn "txn-2" "2025-03-06T12:00:00Z" "20.00" (some "Rent") false with
                  Merchant := some (lit "Starbucks") },
                { sampleTxn "txn-3" "2025-03-07T12:00:00Z" "30.00" none false with
                  Merchant := none },
                { sampleTxn "txn-4" "2025-03-08T12:00:00Z" "40.00" (some "Fast Food") false with
                  Merchant := some (lit "Starbucks") }])
      { noFilters with q := lit "FOOD" } = some r ∧
      r.Transactions
        = [sampleTxn "txn-1" "2025-03-05T12:00:00Z" "10.00" (some "Rent") false,
           { sampleTxn "txn-4" "2025-03-08T12:00:00Z" "40.00" (some "Fast Food") false with
             Merchant := some (lit "Starbucks") }] := by
  obtain ⟨r, hr, hf, -⟩ := C15_free_text_filter id
    (storeOf [sampleTxn "txn-1" "2025-03-05T12:00:00Z" "10.00" (some "Rent") false,
              { sampleTxn "txn-2" "2025-03-06T12:00:00Z" "20.00" (some "Rent") false with
                Merchant := some (lit "Starbucks") },
              { sampleTxn "txn-3" "2025-03-07T12:00:00Z" "30.00" none false with
                Merchant := none },
              { sampleTxn "txn-4" "2025-03-08T12:00:00Z" "40.00" (some "Fast Food") false with
                Merchant := some (lit "Starbucks") }])
    (lit "FOOD") (by decide)
  exact ⟨by decide, r, hr, hf.trans (by decide)⟩

/-! ## C13: creating and listing budgets -/

theorem wrapInt64_wrap_succ (a : Int) : wrapInt64 (wrapInt64 a + 1) = wrapInt64 (a + 1) := by
  unfold wrapInt64
  norm_num
  omega

theorem removeLoop_append_last (partnerID : Str) (ps : List Partner) (q : Partner)
    (h : ∀ p ∈ ps, p.ID ≠ partnerID) (hq : q.ID = partnerID) :
    removeLoop partnerID (ps ++ [q]) = some ps := by
  induction ps with
  | nil => simp [removeLoop, hq]
  | cons a ps ih =>
    have ha : a.ID ≠ partnerID := h a (List.mem_cons_self _ _)
    simp [removeLoop, ha, ih (fun p hp => h p (List.mem_cons_of_mem _ hp))]

/-- Rounds of inviting and removing move the counter and nothing else, also across the
wrap-around. -/
theorem run_inviteRemoveCyclesFrom (n : Nat) (ds : DataStore) (c0 : Int)
    (hn : ds.nextID = wrapInt64 c0) (hp : ∀ p ∈ ds.partners, p.ID.head? ≠ some 105)
    (hx : partnerExists ds.partners (lit "x@example.com") = false) :
    run ds (inviteRemoveCyclesFrom c0 n) = { ds with nextID := wrapInt64 (c0 + (n : Int)) } := by
  induction n with
  | zero =>
    show ds = _
    rw [Nat.cast_zero, add_zero, ← hn]
  | succ n ih =>
    have hstep : inviteRemoveCyclesFrom c0 (n + 1) = inviteRemoveCyclesFrom c0 n ++
        [Op.invite (lit "2025-03-15T12:00:00Z") (lit "x@example.com"),
         Op.remove (idOf (wrapInt64 (c0 + (n : Int))))] := by
      simp [inviteRemoveCyclesFrom, List.range_succ, List.flatMap_append]
    have hem : lit "x@example.com" ≠ [] := by decide
    have hne : ∀ p ∈ ds.partners, p.ID ≠ idOf (wrapInt64 (c0 + (n : Int))) := by
      intro p hpm hh
      apply hp p hpm
      rw [hh, idOf_head]
    have hid : ∀ k : Int, lit "id-" ++ intToDec k = idOf k := fun _ => rfl
    have hrem := removeLoop_append_last (idOf (wrapInt64 (c0 + (n : Int)))) ds.partners
      (newPartner (idOf (wrapInt64 (c0 + (n : Int)))) (lit "x@example.com")
        (lit "2025-03-15T12:00:00Z")) hne rfl
    have hw : wrapInt64 (wrapInt64 (c0 + (n : Int)) + 1) = wrapInt64 (c0 + ((n + 1 : Nat) : Int)) := by
      rw [wrapInt64_wrap_succ]
      push_cast
      rw [add_assoc]
    rw [hstep, run_append, ih]
    simp only [run, Op.apply, InvitePartner, RemovePartnerLink, getNextID, hem, hx, if_false,
      Bool.false_eq_true, hid, hrem, hw]

theorem createBudget_eq (ds : DataStore) (month category limitAmount : Str)
    (hm : month ≠ []) (hc : category ≠ []) (hl : limitAmount ≠ []) :
    CreateBudget ds month category limitAmount
      = ({ ds with nextID := wrapInt64 (ds.nextID + 1),
                   budgets := ds.budgets ++
                     [{ ID := idOf ds.nextID, HouseholdID := lit "household-1", Month := month,
                        Category := category, LimitAmount := limitAmount }] },
         Except.ok { ID := idOf ds.nextID, HouseholdID := lit "household-1", Month := month,
                     Category := category, LimitAmount := limitAmount }) := by
  simp [CreateBudget, getNextID, hm, hc, hl, idOf]

/-- Below the overflow of the counter, the identifier of the current counter value is
in none of the five collections, is not a seeded identifier and was not issued before. -/
theorem idOf_nextID_fresh (clock : SeedClock) (ops : List Op)
    (hb : (issuedIDs (NewDataStore clock) ops).length < 2 ^ 63 - 1) :
    idOf (run (NewDataStore clock) ops).nextID ∉
      (run (NewDataStore clock) ops).accounts.map Account.ID ++
      (run (NewDataStore clock) ops).transactions.map Transaction.ID ++
      (run (NewDataStore clock) ops).budgets.map Budget.ID ++
      (run (NewDataStore clock) ops).goals.map Goal.ID ++
      (run (NewDataStore clock) ops).partners.map Partner.ID ∧
    idOf (run (NewDataStore clock) ops).nextID ∉ seededIDs clock ∧
    idOf (run (NewDataStore clock) ops).nextID ∉ issuedIDs (NewDataStore clock) ops := by
  have h1 : (NewDataStore clock).nextID = 1 := rfl
  have hb' : (NewDataStore clock).nextID + ((issuedIDs (NewDataStore clock) ops).length : Int)
      < 2 ^ 63 := by
    rw [h1]
    norm_num at hb ⊢
    omega
  have hinv := IdsInv_run ops (NewDataStore clock) (IdsInv_seeded clock) hb'
  obtain ⟨hnext, hiss⟩ := run_issued ops (NewDataStore clock) (by rw [h1]; norm_num) hb'
  obtain ⟨hfix, hacc⟩ := reachable_fixed clock _ (reachable_run clock ops)
  have hseed : idOf (run (NewDataStore clock) ops).nextID ∉ seededIDs clock := by
    intro hmem
    exact seededIDs_head clock _ hmem (idOf_head _)
  have htx : (run (NewDataStore clock) ops).transactions.map Transaction.ID
      = (NewDataStore clock).transactions.map Transaction.ID := by
    have := congrArg (List.map (fun p : Str × Str × Str × Str × Option Str × Bool × Option Str
      => p.1)) hfix
    rw [List.map_map, List.map_map] at this
    exact this
  refine ⟨?_, hseed, ?_⟩
  · intro hmem
    rw [List.mem_append, List.mem_append, List.mem_append, List.mem_append] at hmem
    rcases hmem with (((hmem | hmem) | hmem) | hmem) | hmem
    · apply hseed
      rw [hacc] at hmem
      simp only [seededIDs, List.mem_append]
      exact Or.inl (Or.inl (Or.inl (Or.inl hmem)))
    · apply hseed
      rw [htx] at hmem
      simp only [seededIDs, List.mem_append]
      exact Or.inl (Or.inl (Or.inl (Or.inr hmem)))
    all_goals
      rcases hinv.2.1 _ (by
        simp only [List.mem_append]
        first
          | exact Or.inl (Or.inl hmem)
          | exact Or.inl (Or.inr hmem)
          | exact Or.inr hmem) with hh | ⟨k, hk1, hk2, hk⟩
      · exact hh (idOf_head _)
      · have := idOf_injective _ _ (by have := hinv.1; omega) (by omega) hk
        omega
  · intro hmem
    rw [hiss] at hmem
    obtain ⟨j, hj, hjeq⟩ := List.mem_map.1 hmem
    rw [List.mem_range] at hj
    have := idOf_injective _ _ (by rw [h1]; omega) (by have := hinv.1; omega) hjeq
    rw [hnext] at this
    omega

/-- C13 as stated fails: in the store reached from the seeded one by creating a budget
(which gets `id-1`) and then inviting and removing a partner `2^64 - 1` times, the
counter is back at 1, and `CreateBudget` returns a budget with the identifier `id-1`,
which a budget of the store already has. -/
theorem C13_counterexample :
    (run (NewDataStore sampleClock) wrapAroundOps).nextID = 1 ∧
    (CreateBudget (run (NewDataStore sampleClock) wrapAroundOps)
      (lit "2025-04") (lit "Rent") (lit "900.00")).2
      = Except.ok { ID := lit "id-1", HouseholdID := lit "household-1",
                    Month := lit "2025-04", Category := lit "Rent",
                    LimitAmount := lit "900.00" } ∧
    lit "id-1" ∈ (run (NewDataStore sampleClock) wrapAroundOps).budgets.map Budget.ID := by
  have hrun : run (NewDataStore sampleClock) wrapAroundOps
      = { (CreateBudget (NewDataStore sampleClock) (lit "2025-03") (lit "Food")
            (lit "400.00")).1 with nextID := 1 } := by
    unfold wrapAroundOps
    rw [run, Op.apply]
    have hn : (CreateBudget (NewDataStore sampleClock) (lit "2025-03") (lit "Food")
        (lit "400.00")).1.nextID = wrapInt64 2 := by
      rw [createBudget_eq _ _ _ _ (by decide) (by decide) (by decide)]
      rfl
    have hp : ∀ p ∈ (CreateBudget (NewDataStore sampleClock) (lit "2025-03") (lit "Food")
        (lit "400.00")).1.partners, p.ID.head? ≠ some 105 := by
      rw [createBudget_eq _ _ _ _ (by decide) (by decide) (by decide)]
      intro p hpm
      have hpm' : p ∈ seedPartners sampleClock := hpm
      simp only [seedPartners, List.mem_cons, List.mem_singleton, List.not_mem_nil,
        or_false] at hpm'
      rcases hpm' with rfl | rfl <;> decide
    have hx : partnerExists (CreateBudget (NewDataStore sampleClock) (lit "2025-03")
        (lit "Food") (lit "400.00")).1.partners (lit "x@example.com") = false := by
      rw [createBudget_eq _ _ _ _ (by decide) (by decide) (by decide)]
      show partnerExists (seedPartners sampleClock) (lit "x@example.com") = false
      decide
    rw [run_inviteRemoveCyclesFrom (2 ^ 64 - 1) _ 2 hn hp hx]
    have hw : wrapInt64 (2 + ((2 ^ 64 - 1 : Nat) : Int)) = 1 := by
      unfold wrapInt64
      norm_num
    rw [hw]
  rw [hrun]
  refine ⟨rfl, ?_, ?_⟩
  · rw [createBudget_eq _ _ _ _ (by decide) (by decide) (by decide)]
    rfl
  · rw [createBudget_eq _ _ _ _ (by decide) (by decide) (by decide)]
    simp only [List.map_append, List.mem_append, List.map_cons, List.map_nil,
      List.mem_singleton]
    exact Or.inr rfl

/-- C13 (amended): for every store and every non-empty month, category and limit,
`CreateBudget` answers with a budget that has the identifier of the current counter
value, the household `household-1` and the three values, and appends it; afterwards
`ListBudgets` of that month is the former list with the record appended, and
`ListBudgets` of every other month (the current month when none is given) is unchanged;
when the store is reached from the seeded one while fewer than `2^63 - 1` identifiers
have been issued, the identifier is in none of the five collections, is no seeded
identifier and was not issued before; and on the seeded store, after
`CreateBudget("2025-03", "Food", "400.00")`, `ListBudgets("2025-03")` has exactly one
entry with category Food and limit 400.00. -/
theorem C13_create_budget (ds : DataStore) (month category limitAmount : Str)
    (hm : month ≠ []) (hc : category ≠ []) (hl : limitAmount ≠ []) :
    ∃ b : Budget,
      CreateBudget ds month category limitAmount
        = ({ ds with nextID := wrapInt64 (ds.nextID + 1), budgets := ds.budgets ++ [b] },
           Except.ok b) ∧
      b = { ID := idOf ds.nextID, HouseholdID := lit "household-1", Month := month,
            Category := category, LimitAmount := limitAmount } ∧
      (∀ cur : Str,
        ListBudgets (CreateBudget ds month category limitAmount).1 cur month
          = { Month := month, Budgets := (ListBudgets ds cur month).Budgets ++ [b] }) ∧
      (∀ cur m1 : Str, (if m1 = [] then cur else m1) ≠ month →
        ListBudgets (CreateBudget ds month category limitAmount).1 cur m1
          = ListBudgets ds cur m1) ∧
      (∀ (clock : SeedClock) (ops : List Op), ds = run (NewDataStore clock) ops →
        (issuedIDs (NewDataStore clock) ops).length < 2 ^ 63 - 1 →
        b.ID ∉ ds.accounts.map Account.ID ++ ds.transactions.map Transaction.ID ++
          ds.budgets.map Budget.ID ++ ds.goals.map Goal.ID ++ ds.partners.map Partner.ID ∧
        b.ID ∉ seededIDs clock ∧ b.ID ∉ issuedIDs (NewDataStore clock) ops) ∧
      (∀ (clock : SeedClock) (cur : Str),
        ((ListBudgets (CreateBudget (NewDataStore clock) (lit "2025-03") (lit "Food")
            (lit "400.00")).1 cur (lit "2025-03")).Budgets.filter
          (fun x => decide (x.Category = lit "Food" ∧ x.LimitAmount = lit "400.00"))).length
          = 1) := by
  refine ⟨_, createBudget_eq ds month category limitAmount hm hc hl, rfl, ?_, ?_, ?_, ?_⟩
  · intro cur
    rw [createBudget_eq ds month category limitAmount hm hc hl]
    simp [ListBudgets, hm, List.filter_append]
  · intro cur m1 hne
    rw [createBudget_eq ds month category limitAmount hm hc hl]
    have hne' : ¬ month = (if m1 = [] then cur else m1) := fun h => hne h.symm
    simp [ListBudgets, List.filter_append, hne']
  · intro clock ops hds hb
    subst hds
    exact idOf_nextID_fresh clock ops hb
  · intro clock cur
    rw [createBudget_eq _ _ _ _ (by decide) (by decide) (by decide)]
    have h1 : lit "500.00" ≠ lit "400.00" := by decide
    have h2 : lit "200.00" ≠ lit "400.00" := by decide
    have h3 : lit "100.00" ≠ lit "400.00" := by decide
    have h4 : lit "2025-03" ≠ [] := by decide
    simp only [ListBudgets, if_neg h4, NewDataStore, seedData, seedBudgets, List.filter_filter,
      List.filter_append, List.filter_cons, List.filter_nil]
    by_cases hcm : clock.currentMonth = lit "2025-03" <;> simp [hcm, h1, h2, h3]

/-- C13 (amended) on the seeded store of the sample clock: the budget created for
2025-04 gets `id-1`, which no record of the store has, and is listed for 2025-04. -/
theorem C13_create_budget_witness :
    (lit "2025-04" ≠ [] ∧ lit "Rent" ≠ [] ∧ lit "900.00" ≠ []) ∧
    (CreateBudget (NewDataStore sampleClock) (lit "2025-04") (lit "Rent") (lit "900.00")).2
      = Except.ok { ID := lit "id-1", HouseholdID := lit "household-1",
                    Month := lit "2025-04", Category := lit "Rent",
                    LimitAmount := lit "900.00" } ∧
    (ListBudgets (CreateBudget (NewDataStore sampleClock) (lit "2025-04") (lit "Rent")
        (lit "900.00")).1 (lit "2025-03") (lit "2025-04")).Budgets
      = [{ ID := lit "id-1", HouseholdID := lit "household-1", Month := lit "2025-04",
           Category := lit "Rent", LimitAmount := lit "900.00" }] ∧
    lit "id-1" ∉ seededIDs sampleClock := by
  obtain ⟨b, hcreate, hb, hlist, -, hfresh, -⟩ :=
    C13_create_budget (NewDataStore sampleClock) (lit "2025-04") (lit "Rent") (lit "900.00")
      (by decide) (by decide) (by decide)
  have hb1 : b = { ID := lit "id-1", HouseholdID := lit "household-1",
                   Month := lit "2025-04", Category := lit "Rent",
                   LimitAmount := lit "900.00" } := hb
  refine ⟨⟨by decide, by decide, by decide⟩, ?_, ?_, ?_⟩
  · rw [hcreate, hb1]
  · rw [hlist (lit "2025-03"), hb1]
    rfl
  · have := (hfresh sampleClock [] rfl (by norm_num [issuedIDs])).2.1
    rw [hb1] at this
    exact this

end BudgetApp
